import Mathlib

/-! Yash `redir.c`: file descriptor management and redirections

A shallow embedding of `src/redir.c` (shell FD registry, `open_redirections`,
`save_fd`, `undo_redirections`, `clear_savefd`, `parse_and_check_dup`,
`parse_and_exec_pipe`, `open_herestring`, ...) over an explicit model of the
process's descriptor table, followed by theorems about it.

Conventions.
* C `int` descriptors are `Int`; the descriptor table maps a number to the
  open file description it refers to, or `none` when it is closed.
* System calls are total functions on the state that return the C return
  value and set `errno` on failure.  `EINTR` is never returned, so the
  retry loops of `xclose` and `xdup2` run their body once.
* Whatever the source takes from files that are not part of `redir.c`
  (word expansion, `fork_and_reset`, the file system, platform constants) is a
  field of `Env`.
-/

namespace Yash

/-! ## Platform model -/

/-- Value of `flags & O_ACCMODE` of an open file description. `O_OTHER` stands
for any value that is neither of the three (`O_EXEC`, `O_SEARCH`, ...). -/
inductive AccMode
  | O_RDONLY
  | O_WRONLY
  | O_RDWR
  | O_OTHER
  deriving DecidableEq, Repr

/-- What an open file description refers to. -/
inductive Obj
  | file (path : List Char)
  | pipe_in
  | pipe_out
  | socket (hostandport : List Char) (stream : Bool)
  | tempfile (path : List Char)
  deriving DecidableEq, Repr

/-- An open file description. `id` identifies the kernel object: the two ends
of one pipe carry the same `id`, every other description has its own. -/
structure OFD where
  id : Nat
  obj : Obj
  acc : AccMode
  deriving DecidableEq, Repr

/-- One slot of the descriptor table: the description and the `FD_CLOEXEC`
flag of the descriptor. -/
structure FdEntry where
  ofd : OFD
  cloexec : Bool
  deriving DecidableEq, Repr

/-- The flags argument of `open`: access mode and the creation flags used by
`open_redirections`. -/
structure OFlags where
  acc : AccMode
  creat : Bool
  excl : Bool
  trunc : Bool
  append : Bool
  deriving DecidableEq, Repr

abbrev EIO : Nat := 5
abbrev EBADF : Nat := 9
abbrev EINVAL : Nat := 22
abbrev ENFILE : Nat := 23
abbrev EMFILE : Nat := 24
abbrev ERANGE : Nat := 34
abbrev EILSEQ : Nat := 84
abbrev EAGAIN : Nat := 11
abbrev ENOENT : Nat := 2

/-- The messages `xerror` can be asked to print by `redir.c`. -/
inductive Diag
  | close_error (fd : Int)
  | cannot_copy (oldfd newfd : Int)
  | fd_unavailable (fd : Int)
  | redirection_eilseq
  | cannot_open (filename : List Char)
  | cannot_save (fd : Int)
  | redirection_arg (num : List Char)
  | redirection_fd (fd : Int)
  | not_readable (fd : Int)
  | not_writable (fd : Int)
  | same_pipe_fd (outputfd inputfd : Int)
  | pipe_error (outputfd inputfd : Int)
  | heredoc_encode
  | heredoc_write
  | heredoc_tempfile
  | heredoc_unlink (tempfile : List Char)
  | heredoc_seek
  | procredir_pipe
  | socket_resolve (hostandport : List Char)
  | tty_open
  | job_control_disabled
  deriving DecidableEq, Repr

/-- Redirection types of `parser.h`. -/
inductive redirtype_T
  | RT_INPUT
  | RT_OUTPUT
  | RT_CLOBBER
  | RT_APPEND
  | RT_INOUT
  | RT_DUPIN
  | RT_DUPOUT
  | RT_PIPE
  | RT_HERE
  | RT_HERERT
  | RT_HERESTR
  | RT_PROCIN
  | RT_PROCOUT
  deriving DecidableEq, Repr

/-- One redirection of a command (`redir_T` of `parser.h`). The C union of
`rd_filename`, `rd_herecontent` and `rd_command` is spelled out as three
fields; words and commands are kept as unexpanded text. -/
structure redir_T where
  rd_type : redirtype_T
  rd_fd : Int
  rd_filename : List Char
  rd_herecontent : List Char
  rd_command : List Char
  deriving DecidableEq, Repr

/-- Info used to undo a redirection (`struct savefd_T`); `next` is the tail
of the Lean list. -/
structure savefd_T where
  sf_origfd : Int
  sf_copyfd : Int
  sf_stdin_redirected : Bool
  deriving DecidableEq, Repr

/-- Platform constants, shell options and the collaborators of `redir.c` that
live in other files. The system-call outcomes that do not depend on the
descriptor table (file system, resource exhaustion, fork) are functions of
the logical clock `tick` of the state, so that any sequence of outcomes can
be represented. -/
structure Env where
  FD_SETSIZE : Nat
  PIPE_BUF : Option Nat
  YASH_ENABLE_SOCKET : Bool
  posixly_correct : Bool
  shopt_noclobber : Bool
  is_interactive : Bool
  expand_single_with_glob : List Char → Option (List Char)
  expand_single : List Char → Option (List Char)
  realloc_wcstombs : List Char → Option (List Char)
  malloc_mbstowcs : List Char → Option (List Char)
  expand_string : List Char → Option (List Char)
  is_irregular_file : List Char → Bool
  create_temporary_file : Nat → Option (List Char)
  fs_open : Nat → List Char → OFlags → Option Obj
  pipe_ok : Nat → Bool
  fork_ok : Nat → Bool
  write_count : Nat → Nat → Option Nat
  lseek_ok : Nat → Bool
  unlink_ok : Nat → Bool
  getaddrinfo_ok : Nat → List Char → Bool
  socket_ok : Nat → Bool
  connect_ok : Nat → Bool
  sysconf_OPEN_MAX : Int
  sysconf_errno : Nat

/-- The process state `redir.c` reads and writes: the kernel's descriptor
table for this process with its limit, `errno`, the contents and offsets of
the kernel objects, the file-scope variables of `redir.c`, and what `xerror`
has printed. -/
structure State where
  fds : Int → Option FdEntry
  openMax : Int
  tick : Nat
  data : Nat → List Char
  pos : Nat → Nat
  errno : Nat
  is_stdin_redirected : Bool
  shellfds : Int → Bool
  shellfdmin : Int
  shellfdmax : Int
  ttyfd : Int
  do_job_control : Bool
  diag : List Diag

/-- Report a message (`xerror`). -/
def xerror (d : Diag) (s : State) : State :=
  { s with diag := s.diag ++ [d] }

/-! ## System calls -/

/-- Lowest closed descriptor among `fd, fd+1, ..., fd+n-1`. -/
def findFree (fds : Int → Option FdEntry) : Nat → Int → Option Int
  | 0, _ => none
  | n + 1, fd => if (fds fd).isNone then some fd else findFree fds n (fd + 1)

/-- Lowest closed descriptor `>= lo` below the descriptor limit. -/
def lowestFree (s : State) (lo : Int) : Option Int :=
  findFree s.fds (s.openMax - lo).toNat lo

/-- The table `T` with descriptor `fd` made to hold `e`. -/
def upd (T : Int → Option FdEntry) (fd : Int) (e : Option FdEntry) : Int → Option FdEntry :=
  fun x => if x = fd then e else T x

/-- Table update. -/
def setFd (s : State) (fd : Int) (e : Option FdEntry) : State :=
  { s with fds := upd s.fds fd e }

/-- Model of `close(fd)`. -/
def sys_close (fd : Int) (s : State) : Int × State :=
  match s.fds fd with
  | some _ => (0, setFd s fd none)
  | none => (-1, { s with errno := EBADF })

/-- Model of `dup2(oldfd, newfd)`. -/
def sys_dup2 (oldfd newfd : Int) (s : State) : Int × State :=
  match s.fds oldfd with
  | none => (-1, { s with errno := EBADF })
  | some e =>
    if 0 ≤ newfd ∧ newfd < s.openMax then
      if oldfd = newfd then (newfd, s)
      else (newfd, setFd s newfd (some { ofd := e.ofd, cloexec := false }))
    else (-1, { s with errno := EBADF })

/-- Model of `fcntl(fd, F_DUPFD, lo)` and `fcntl(fd, F_DUPFD_CLOEXEC, lo)`. -/
def sys_fcntl_dupfd (fd lo : Int) (cloexec : Bool) (s : State) : Int × State :=
  match s.fds fd with
  | none => (-1, { s with errno := EBADF })
  | some e =>
    if lo < 0 ∨ s.openMax ≤ lo then (-1, { s with errno := EINVAL })
    else
      match lowestFree s lo with
      | none => (-1, { s with errno := EMFILE })
      | some c => (c, setFd s c (some { ofd := e.ofd, cloexec := cloexec }))

/-- Model of `dup(fd)`. -/
def sys_dup (fd : Int) (s : State) : Int × State :=
  match s.fds fd with
  | none => (-1, { s with errno := EBADF })
  | some e =>
    match lowestFree s 0 with
    | none => (-1, { s with errno := EMFILE })
    | some c => (c, setFd s c (some { ofd := e.ofd, cloexec := false }))

/-- Model of `fcntl(fd, F_GETFL)`: the access mode, or `none` with `EBADF`. -/
def sys_fcntl_getfl (fd : Int) (s : State) : Option AccMode × State :=
  match s.fds fd with
  | none => (none, { s with errno := EBADF })
  | some e => (some e.ofd.acc, s)

/-- A descriptor freshly opened on a new description. -/
def freshEntry (id : Nat) (obj : Obj) (acc : AccMode) : FdEntry :=
  { ofd := { id := id, obj := obj, acc := acc }, cloexec := false }

/-- The state after the kernel created object number `tick`. -/
def bumpTick (s : State) (t : Nat) : State :=
  { s with tick := t + 1,
           data := fun i => if i = t then [] else s.data i,
           pos := fun i => if i = t then 0 else s.pos i }

/-- Open a fresh description for `obj` on the lowest closed descriptor. -/
def allocFd (obj : Obj) (acc : AccMode) (s : State) : Int × State :=
  match lowestFree s 0 with
  | none => (-1, { s with errno := EMFILE, tick := s.tick + 1 })
  | some fd =>
    (fd, bumpTick (setFd s fd (some (freshEntry s.tick obj acc))) s.tick)

/-- Model of `open(path, oflag, mode)`. Whether the file system grants the
open is decided by `Env.fs_open`. -/
def sys_open (env : Env) (path : List Char) (oflag : OFlags) (s : State) : Int × State :=
  match env.fs_open s.tick path oflag with
  | none => (-1, { s with errno := ENOENT, tick := s.tick + 1 })
  | some obj => allocFd obj oflag.acc s

/-- Model of `pipe(pipefd)`: the result, `pipefd[PIDX_IN]`, `pipefd[PIDX_OUT]`
and the new state. Both ends take the lowest closed descriptors. -/
def sys_pipe (env : Env) (s : State) : Int × Int × Int × State :=
  if env.pipe_ok s.tick then
    match lowestFree s 0 with
    | none => (-1, -1, -1, { s with errno := EMFILE, tick := s.tick + 1 })
    | some r =>
      let s1 := setFd s r (some (freshEntry s.tick Obj.pipe_in AccMode.O_RDONLY))
      match lowestFree s1 0 with
      | none => (-1, -1, -1, { s with errno := EMFILE, tick := s.tick + 1 })
      | some w =>
        (0, r, w,
          bumpTick (setFd s1 w (some (freshEntry s.tick Obj.pipe_out AccMode.O_WRONLY))) s.tick)
  else (-1, -1, -1, { s with errno := ENFILE, tick := s.tick + 1 })

/-- Whether a write of `len` bytes to a pipe is atomic: `PIPE_BUF` is
defined and `len` is at most `PIPE_BUF`. -/
def pipe_write_atomic (env : Env) (len : Nat) : Bool :=
  match env.PIPE_BUF with
  | some limit => decide (len ≤ limit)
  | none => false

/-- Model of `write(fd, data, size)`. A successful write of a non-empty
buffer transfers at least one byte and at most all of it; how many is
decided by `Env.write_count`. Data written to a pipe is appended to the
pipe, and a write of at most `PIPE_BUF` bytes to a pipe is atomic: when it
succeeds it transfers all of the buffer. Data written to a file goes to the
file offset, which advances. -/
def sys_write (env : Env) (fd : Int) (bytes : List Char) (s : State) : Int × State :=
  match s.fds fd with
  | none => (-1, { s with errno := EBADF })
  | some e =>
    if e.ofd.acc = AccMode.O_WRONLY ∨ e.ofd.acc = AccMode.O_RDWR then
      match env.write_count s.tick bytes.length with
      | none => (-1, { s with errno := EIO, tick := s.tick + 1 })
      | some n =>
        let k := if bytes.length = 0 then 0 else max 1 (min n bytes.length)
        let old := s.data e.ofd.id
        if e.ofd.obj = Obj.pipe_out then
          let kp := if pipe_write_atomic env bytes.length then bytes.length else k
          ((kp : Int), { s with tick := s.tick + 1,
                                data := fun i => if i = e.ofd.id then old ++ bytes.take kp
                                                 else s.data i })
        else
          let p := s.pos e.ofd.id
          ((k : Int), { s with tick := s.tick + 1,
                               data := fun i => if i = e.ofd.id
                                                then old.take p ++ bytes.take k ++ old.drop (p + k)
                                                else s.data i,
                               pos := fun i => if i = e.ofd.id then p + k else s.pos i })
    else (-1, { s with errno := EBADF })

/-- Model of `lseek(fd, 0, SEEK_SET)`. -/
def sys_lseek0 (env : Env) (fd : Int) (s : State) : Int × State :=
  match s.fds fd with
  | none => (-1, { s with errno := EBADF })
  | some e =>
    if env.lseek_ok s.tick then
      (0, { s with tick := s.tick + 1, pos := fun i => if i = e.ofd.id then 0 else s.pos i })
    else (-1, { s with errno := EIO, tick := s.tick + 1 })

/-- What a reader of `fd` gets when it reads to end-of-file. -/
def readAll (s : State) (fd : Int) : Option (List Char) :=
  match s.fds fd with
  | none => none
  | some e => some ((s.data e.ofd.id).drop (s.pos e.ofd.id))

/-! ## Utilities (`xclose`, `xdup2`, `write_all`) -/

/-- Closes a file descriptor surely: `EBADF` counts as success. -/
def xclose (fd : Int) (s : State) : Int × State :=
  let r := sys_close fd s
  if r.1 < 0 then
    if r.2.errno = EBADF then (0, r.2)
    else (-1, xerror (Diag.close_error fd) r.2)
  else (0, r.2)

/-- Performs `dup2` surely; `xclose (newfd)` is called before `dup2`. -/
def xdup2 (oldfd newfd : Int) (s : State) : Int × State :=
  let s1 := (xclose newfd s).2
  let r := sys_dup2 oldfd newfd s1
  if r.1 < 0 then (-1, xerror (Diag.cannot_copy oldfd newfd) r.2)
  else (newfd, r.2)

/-- The loop of `write_all`: `done` bytes are written already. The fuel is the
number of bytes left, which bounds the iterations since every successful
write transfers at least one byte. -/
def write_all_loop (env : Env) (fd : Int) (bytes : List Char) : Nat → Nat → State → Bool × State
  | 0, _, s => (true, s)
  | fuel + 1, done, s =>
    if done < bytes.length then
      let r := sys_write env fd (bytes.drop done) s
      if r.1 < 0 then (false, r.2)
      else write_all_loop env fd bytes fuel (done + r.1.toNat) r.2
    else (true, s)

/-- Repeatedly calls `write` until all the data is written. -/
def write_all (env : Env) (fd : Int) (bytes : List Char) (s : State) : Bool × State :=
  write_all_loop env fd bytes bytes.length 0 s

/-! ## Shell FD registry -/

def SHELLFDMINMAX : Int := 100

def FD_ZERO : Int → Bool := fun _ => false

def FD_SET (fd : Int) (set : Int → Bool) : Int → Bool :=
  fun x => if x = fd then true else set x

def FD_CLR (fd : Int) (set : Int → Bool) : Int → Bool :=
  fun x => if x = fd then false else set x

def FD_ISSET (fd : Int) (set : Int → Bool) : Bool := set fd

/-- Conversion of the `long` result of `sysconf` to `int`. -/
def long_to_int (v : Int) : Int :=
  (v + 2147483648) % 4294967296 - 2147483648

/-- Recomputes `shellfdmin`. -/
def reset_shellfdmin (env : Env) (s : State) : State :=
  let s0 := { s with errno := env.sysconf_errno }
  let v := long_to_int env.sysconf_OPEN_MAX
  if v = -1 then
    if s0.errno ≠ 0 then { s0 with shellfdmin := 10 }
    else { s0 with shellfdmin := SHELLFDMINMAX }
  else
    let h := Int.tdiv v 2
    if h > SHELLFDMINMAX then { s0 with shellfdmin := SHELLFDMINMAX }
    else if h < 10 then { s0 with shellfdmin := 10 }
    else { s0 with shellfdmin := h }

/-- Initializes shell FDs. -/
def init_shellfds (env : Env) (s : State) : State :=
  let s1 := { s with shellfds := FD_ZERO }
  let s2 := reset_shellfdmin env s1
  { s2 with shellfdmax := -1 }

/-- Adds the specified file descriptor (`>= shellfdmin`) to `shellfds`. The
`assert` is a precondition of the callers. -/
def add_shellfd (env : Env) (fd : Int) (s : State) : State :=
  let s1 := if fd < env.FD_SETSIZE then { s with shellfds := FD_SET fd s.shellfds } else s
  if s1.shellfdmax < fd then { s1 with shellfdmax := fd } else s1

/-- The `while` loop of `remove_shellfd`, started at `shellfdmax = m`. -/
def remove_shellfd_scan (shellfds : Int → Bool) : Nat → Int → Int
  | 0, m => m
  | k + 1, m =>
    if m ≥ 0 ∧ ¬ FD_ISSET m shellfds = true then remove_shellfd_scan shellfds k (m - 1)
    else m

/-- Removes the specified file descriptor from `shellfds`. The scan runs at
most `fd` times before `shellfdmax` reaches `-1`. -/
def remove_shellfd (env : Env) (fd : Int) (s : State) : State :=
  let s1 := if 0 ≤ fd ∧ fd < env.FD_SETSIZE then { s with shellfds := FD_CLR fd s.shellfds } else s
  if fd = s1.shellfdmax then
    { s1 with shellfdmax := remove_shellfd_scan s1.shellfds fd.toNat (fd - 1) }
  else s1

/-- Checks if the specified file descriptor is in `shellfds`. -/
def is_shellfd (env : Env) (fd : Int) (s : State) : Bool :=
  decide (fd ≥ env.FD_SETSIZE) || (decide (fd ≥ 0) && FD_ISSET fd s.shellfds)

/-- The `for` loop of `clear_shellfds` over the descriptors still to visit. -/
def clear_shellfds_loop : List Int → State → State
  | [], s => s
  | fd :: rest, s =>
    clear_shellfds_loop rest (if FD_ISSET fd s.shellfds then (xclose fd s).2 else s)

/-- Closes all file descriptors in `shellfds` and empties it, unless
`leavefds`. -/
def clear_shellfds (leavefds : Bool) (s : State) : State :=
  let s1 :=
    if !leavefds then
      let s2 := clear_shellfds_loop ((List.range (s.shellfdmax + 1).toNat).map Int.ofNat) s
      { s2 with shellfds := FD_ZERO, shellfdmax := -1 }
    else s
  { s1 with ttyfd := -1 }

/-- Duplicates the specified file descriptor as a new shell FD. -/
def copy_as_shellfd (env : Env) (fd : Int) (s : State) : Int × State :=
  let r := sys_fcntl_dupfd fd s.shellfdmin true s
  if r.1 ≥ 0 then (r.1, add_shellfd env r.1 r.2) else r

/-- Opens `ttyfd`. -/
def open_ttyfd (env : Env) (s : State) : State :=
  if s.ttyfd < 0 then
    let r := sys_open env "/dev/tty".toList
      { acc := AccMode.O_RDWR, creat := false, excl := false, trunc := false, append := false } s
    let s1 :=
      if r.1 ≥ 0 then
        let c := copy_as_shellfd env r.1 r.2
        (xclose r.1 { c.2 with ttyfd := c.1 }).2
      else r.2
    if s1.ttyfd < 0 then
      { xerror Diag.job_control_disabled (xerror Diag.tty_open s1) with do_job_control := false }
    else s1
  else s

/-! ## Helpers of `util.c` used by the parsers -/

/-- Modelled from the spec: `xisxdigit` (util.c) is not under src/. It is the
C classification `isxdigit` of the first byte of the text, by character
code; `none` is the terminating NUL of an empty string. -/
def xisxdigit (c : Option Char) : Bool :=
  match c with
  | none => false
  | some ch =>
    (decide (48 ≤ ch.toNat) && decide (ch.toNat ≤ 57))
      || (decide (97 ≤ ch.toNat) && decide (ch.toNat ≤ 102))
      || (decide (65 ≤ ch.toNat) && decide (ch.toNat ≤ 70))

/-- C `isspace` in the C locale: space and the codes 9 to 13. -/
def isspace (c : Char) : Bool :=
  decide (c.toNat = 32) || (decide (9 ≤ c.toNat) && decide (c.toNat ≤ 13))

/-- C `isdigit`. -/
def isdigit (c : Char) : Bool :=
  decide (48 ≤ c.toNat) && decide (c.toNat ≤ 57)

/-- Value of a string of decimal digits. -/
def digitsVal (ds : List Char) : Nat :=
  ds.foldl (fun a c => 10 * a + (c.toNat - 48)) 0

def INT_MAX : Int := 2147483647
def INT_MIN : Int := -2147483648
def LONG_MAX : Int := 9223372036854775807
def LONG_MIN : Int := -9223372036854775808

/-- C `strtol(s, &endp, 10)`: the value, the unparsed rest `endp`, and the
`errno` it sets (0 when it sets none). -/
def strtol (s : List Char) : Int × List Char × Nat :=
  let t := s.dropWhile isspace
  let sign := t.head?.map Char.toNat
  let neg := decide (sign = some 45)
  let u := if sign = some 45 ∨ sign = some 43 then t.tail else t
  let ds := u.takeWhile isdigit
  if ds = [] then (0, s, 0)
  else
    let v : Int := if neg then - (digitsVal ds : Int) else (digitsVal ds : Int)
    if v > LONG_MAX then (LONG_MAX, u.dropWhile isdigit, ERANGE)
    else if v < LONG_MIN then (LONG_MIN, u.dropWhile isdigit, ERANGE)
    else (v, u.dropWhile isdigit, 0)

/-- Modelled from the spec: `xstrtoi` (util.c) is not under src/. The spec asks
for a base-ten integer; the model is `strtol` in base ten that must consume
the whole non-empty text and fit in `int`. The result is the success flag,
the value stored through `resultp`, and the value left in `errno`, which is
zero exactly on success. -/
def xstrtoi (s : List Char) : Bool × Int × Nat :=
  if s = [] then (false, 0, EINVAL)
  else
    let r := strtol s
    if r.2.2 ≠ 0 then (false, 0, r.2.2)
    else if r.2.1 ≠ [] then (false, 0, EINVAL)
    else if r.1 < INT_MIN ∨ r.1 > INT_MAX then (false, 0, ERANGE)
    else (true, r.1, 0)

/-- Modelled from the spec: `matchstrprefix` (util.c) is not under src/. It
returns the text after the literal prefix, or `none` when the text does not
start with it. -/
def matchstrprefix (s pre : List Char) : Option (List Char) :=
  if pre.isPrefixOf s then some (s.drop pre.length) else none

/-! ## Redirections -/

/-- Expands the filename for a redirection. -/
def expand_redir_filename (env : Env) (filename : List Char) (s : State) :
    Option (List Char) × State :=
  if env.is_interactive then (env.expand_single_with_glob filename, s)
  else
    match env.expand_single filename with
    | none => (none, s)
    | some result =>
      match env.realloc_wcstombs result with
      | none => (none, xerror Diag.redirection_eilseq s)
      | some mbsresult => (some mbsresult, s)

/-- Saves the specified file descriptor if `save` is non-NULL. `save = none`
is the NULL pointer. -/
def save_fd (env : Env) (fd : Int) (s : State) (save : Option (List savefd_T)) :
    State × Option (List savefd_T) :=
  match save with
  | none => (s, none)
  | some stack =>
    let c := copy_as_shellfd env fd s
    if c.1 < 0 ∧ c.2.errno ≠ EBADF then (xerror (Diag.cannot_save fd) c.2, some stack)
    else
      (c.2, some ({ sf_origfd := fd, sf_copyfd := c.1,
                    sf_stdin_redirected := c.2.is_stdin_redirected } :: stack))

/-- Model of `getaddrinfo`: whether the address resolves is decided by
`Env.getaddrinfo_ok`. -/
def sys_getaddrinfo (env : Env) (hostandport : List Char) (s : State) : Bool × State :=
  (env.getaddrinfo_ok s.tick hostandport, { s with tick := s.tick + 1 })

/-- Model of `socket`: a new socket on the lowest closed descriptor. -/
def sys_socket (env : Env) (hostandport : List Char) (stream : Bool) (s : State) :
    Int × State :=
  if env.socket_ok s.tick then allocFd (Obj.socket hostandport stream) AccMode.O_RDWR s
  else (-1, { s with errno := EMFILE, tick := s.tick + 1 })

/-- Model of `connect`. -/
def sys_connect (env : Env) (s : State) : Int × State :=
  if env.connect_ok s.tick then (0, { s with tick := s.tick + 1 })
  else (-1, { s with errno := EAGAIN, tick := s.tick + 1 })

/-- Opens a socket; `stream` is true for `SOCK_STREAM` and false for
`SOCK_DGRAM`. `set_interruptible_by_sigint` belongs to sig.c and leaves the
state of this file alone. -/
def open_socket (env : Env) (hostandport : List Char) (stream : Bool) (s : State) :
    Int × State :=
  let saveerrno := s.errno
  match env.malloc_mbstowcs hostandport with
  | none => (-1, { s with errno := saveerrno })
  | some _ =>
    let g := sys_getaddrinfo env hostandport s
    if g.1 = false then
      (-1, { xerror (Diag.socket_resolve hostandport) g.2 with errno := saveerrno })
    else
      let r := sys_socket env hostandport stream g.2
      if r.1 ≥ 0 then
        let c := sys_connect env r.2
        if c.1 < 0 then (-1, (xclose r.1 c.2).2) else (r.1, c.2)
      else r

/-- One of the two socket blocks of `open_file`: when the descriptor so far is
negative and `path` starts with `pre`, a socket is opened on the rest. -/
def open_file_socket (env : Env) (path pre : List Char) (stream : Bool) (r : Int × State) :
    Int × State :=
  if r.1 < 0 then
    match matchstrprefix path pre with
    | some hostandport => open_socket env hostandport stream r.2
    | none => r
  else r

/-- Opens the file for a redirection. -/
def open_file (env : Env) (path : List Char) (oflag : OFlags) (s : State) : Int × State :=
  let r := sys_open env path oflag s
  if env.YASH_ENABLE_SOCKET then
    open_file_socket env path "/dev/udp/".toList false
      (open_file_socket env path "/dev/tcp/".toList true r)
  else r

/-- The number parsing shared by `parse_and_check_dup` and
`parse_and_exec_pipe`: the value read into the variable and the state with
`errno` as the two branches leave it. -/
def parse_fd_number (num : List Char) (s : State) : Int × State :=
  if xisxdigit num.head? = false then (0, { s with errno := EINVAL })
  else
    let x := xstrtoi num
    if x.1 = true ∧ x.2.1 < 0 then (x.2.1, { s with errno := ERANGE })
    else (x.2.1, { s with errno := x.2.2 })

/-- Parses the argument to `RT_DUPIN`/`RT_DUPOUT`. -/
def parse_and_check_dup (env : Env) (num : List Char) (type : redirtype_T) (s : State) :
    Int × State :=
  if num = "-".toList then (-1, s)
  else
    let p := parse_fd_number num s
    if p.2.errno ≠ 0 then (-2, xerror (Diag.redirection_arg num) p.2)
    else if is_shellfd env p.1 p.2 then (-2, xerror (Diag.fd_unavailable p.1) p.2)
    else if env.posixly_correct then
      let g := sys_fcntl_getfl p.1 p.2
      match g.1 with
      | none => (-2, xerror (Diag.redirection_fd p.1) g.2)
      | some flags =>
        if type = redirtype_T.RT_DUPIN then
          match flags with
          | AccMode.O_RDONLY => (p.1, g.2)
          | AccMode.O_RDWR => (p.1, g.2)
          | _ => (-2, xerror (Diag.not_readable p.1) g.2)
        else
          match flags with
          | AccMode.O_WRONLY => (p.1, g.2)
          | AccMode.O_RDWR => (p.1, g.2)
          | _ => (-2, xerror (Diag.not_writable p.1) g.2)
    else (p.1, p.2)

/-- The `error2:` exit of `parse_and_exec_pipe`. -/
def pipe_error2 (outputfd inputfd pin pout : Int) (s : State) : Int × State :=
  (-2, xerror (Diag.pipe_error outputfd inputfd) (xclose pout (xclose pin s).2).2)

/-- The step "move the output side from what is to be the input side" of
`parse_and_exec_pipe`: the new `pipefd[PIDX_OUT]`, or `none` where the source
jumps to `error2`. -/
def pipe_move_output (inputfd pout : Int) (s : State) : Option Int × State :=
  if pout = inputfd then
    let d := sys_dup pout s
    if d.1 < 0 then (none, d.2) else (some d.1, (xclose pout d.2).2)
  else (some pout, s)

/-- The step "move the input side to where it should be" of
`parse_and_exec_pipe`, and the value it returns. -/
def pipe_move_input (outputfd inputfd pin pout : Int) (s : State) : Int × State :=
  if pin ≠ inputfd then
    let x := xdup2 pin inputfd s
    if x.1 < 0 then pipe_error2 outputfd inputfd pin pout x.2
    else (pout, (xclose pin x.2).2)
  else (pout, s)

/-- The part of `parse_and_exec_pipe` after `pipe` succeeded with the ends
`pin` and `pout`. -/
def pipe_wire (outputfd inputfd pin pout : Int) (s : State) : Int × State :=
  let m := pipe_move_output inputfd pout s
  match m.1 with
  | none => pipe_error2 outputfd inputfd pin pout m.2
  | some pout1 => pipe_move_input outputfd inputfd pin pout1 m.2

/-- The part of `parse_and_exec_pipe` after `inputfd` is saved: opens the
pipe and wires it. -/
def pipe_open (env : Env) (outputfd inputfd : Int) (s : State) : Int × State :=
  let pp := sys_pipe env s
  if pp.1 < 0 then (-2, xerror (Diag.pipe_error outputfd inputfd) pp.2.2.2)
  else pipe_wire outputfd inputfd pp.2.1 pp.2.2.1 pp.2.2.2

/-- Parses the argument to `RT_PIPE` and opens a pipe. -/
def parse_and_exec_pipe (env : Env) (outputfd : Int) (num : List Char) (s : State)
    (save : Option (List savefd_T)) : Int × State × Option (List savefd_T) :=
  let p := parse_fd_number num s
  let inputfd := p.1
  if p.2.errno ≠ 0 then (-2, xerror (Diag.redirection_arg num) p.2, save)
  else if outputfd = inputfd then (-2, xerror (Diag.same_pipe_fd outputfd inputfd) p.2, save)
  else if is_shellfd env inputfd p.2 then (-2, xerror (Diag.fd_unavailable inputfd) p.2, save)
  else
    -- ok, save inputfd and open the pipe
    let sv := save_fd env inputfd p.2 save
    let o := pipe_open env outputfd inputfd sv.1
    (o.1, o.2, sv.2)

/-- The temporary-file part of `open_herestring`. `create_temporary_file`
(path.c) is not under src/: `Env.create_temporary_file` gives the name of the
file it creates, or `none`, and the file is opened read-write on the lowest
closed descriptor. -/
def open_herestring_tempfile (env : Env) (body : List Char) (s : State) : Int × State :=
  match env.create_temporary_file s.tick with
  | none => (-1, xerror Diag.heredoc_tempfile { s with errno := EMFILE, tick := s.tick + 1 })
  | some tempfile =>
    let f := allocFd (Obj.tempfile tempfile) AccMode.O_RDWR s
    if f.1 < 0 then (-1, xerror Diag.heredoc_tempfile f.2)
    else
      let s2 :=
        if env.unlink_ok f.2.tick then { f.2 with tick := f.2.tick + 1 }
        else xerror (Diag.heredoc_unlink tempfile) { f.2 with tick := f.2.tick + 1 }
      let w := write_all env f.1 body s2
      let s3 := if w.1 then w.2 else xerror Diag.heredoc_write w.2
      let l := sys_lseek0 env f.1 s3
      (f.1, if l.1 ≠ 0 then xerror Diag.heredoc_seek l.2 else l.2)

/-- The pipe part of `open_herestring`, after `pipe` succeeded with the ends
`pin` and `pout`. -/
def open_herestring_pipe (env : Env) (body : List Char) (pin pout : Int) (s : State) :
    Int × State :=
  let w := sys_write env pout body s
  let s1 := if w.1 < 0 then xerror Diag.heredoc_write w.2 else w.2
  (pin, (xclose pout s1).2)

/-- Opens a here-string whose contents is `str`. `Env.PIPE_BUF` is `none` when
the macro is not defined. -/
def open_herestring (env : Env) (str : List Char) (appendnewline : Bool) (s : State) :
    Int × State :=
  let devnull : Int × State :=
    if str = [] ∧ appendnewline = false then
      sys_open env "/dev/null".toList
        { acc := AccMode.O_RDONLY, creat := false, excl := false, trunc := false,
          append := false } s
    else (-1, s)
  if devnull.1 ≥ 0 then devnull
  else
    let body := if appendnewline then str ++ ['\n'] else str
    match env.PIPE_BUF with
    | some limit =>
      if body.length ≤ limit then
        let pp := sys_pipe env devnull.2
        if pp.1 ≥ 0 then open_herestring_pipe env body pp.2.1 pp.2.2.1 pp.2.2.2
        else open_herestring_tempfile env body pp.2.2.2
      else open_herestring_tempfile env body devnull.2
    | none => open_herestring_tempfile env body devnull.2

/-- Opens a here-document whose contents is specified by the argument. -/
def open_heredocument (env : Env) (contents : List Char) (s : State) : Int × State :=
  match env.expand_string contents with
  | none => (-1, s)
  | some wcontents =>
    match env.realloc_wcstombs wcontents with
    | none => (-1, xerror Diag.heredoc_encode s)
    | some mcontents => open_herestring env mcontents false s

/-- Opens a process redirection, as seen by the parent process. The child
that `fork_and_reset` creates runs the embedded command and never returns
from this function; `Env.fork_ok` says whether the fork succeeded. -/
def open_process_redirection (env : Env) (type : redirtype_T) (s : State) : Int × State :=
  let pp := sys_pipe env s
  if pp.1 < 0 then (-1, xerror Diag.procredir_pipe pp.2.2.2)
  else
    let s1 := { pp.2.2.2 with tick := pp.2.2.2.tick + 1 }
    if env.fork_ok pp.2.2.2.tick = false then
      (-1, (xclose pp.2.2.1 (xclose pp.2.1 { s1 with errno := EAGAIN }).2).2)
    else if type = redirtype_T.RT_PROCIN then (pp.2.1, (xclose pp.2.2.1 s1).2)
    else (pp.2.2.1, (xclose pp.2.1 s1).2)

/-- The open flags `open_redirections` chooses for the file redirections. -/
def redir_open_flags (env : Env) (type : redirtype_T) (filename : List Char) : OFlags :=
  match type with
  | redirtype_T.RT_INPUT =>
    { acc := AccMode.O_RDONLY, creat := false, excl := false, trunc := false, append := false }
  | redirtype_T.RT_OUTPUT =>
    if env.shopt_noclobber = true ∧ env.is_irregular_file filename = false then
      { acc := AccMode.O_WRONLY, creat := true, excl := true, trunc := false, append := false }
    else
      { acc := AccMode.O_WRONLY, creat := true, excl := false, trunc := true, append := false }
  | redirtype_T.RT_CLOBBER =>
    { acc := AccMode.O_WRONLY, creat := true, excl := false, trunc := true, append := false }
  | redirtype_T.RT_APPEND =>
    { acc := AccMode.O_WRONLY, creat := true, excl := false, trunc := false, append := true }
  | _ =>
    { acc := AccMode.O_RDWR, creat := true, excl := false, trunc := false, append := false }

/-- The second `switch` of `open_redirections`: opens the redirection and
gives the new descriptor and `keepopen`, or `none` where the source returns
false. -/
def open_redirection_fd (env : Env) (r : redir_T) (filename : List Char) (s : State)
    (save : Option (List savefd_T)) :
    Option (Int × Bool) × State × Option (List savefd_T) :=
  match r.rd_type with
  | redirtype_T.RT_DUPIN | redirtype_T.RT_DUPOUT =>
    let d := parse_and_check_dup env filename r.rd_type s
    if d.1 < -1 then (none, d.2, save) else (some (d.1, true), d.2, save)
  | redirtype_T.RT_PIPE =>
    let d := parse_and_exec_pipe env r.rd_fd filename s save
    if d.1 < -1 then (none, d.2.1, d.2.2) else (some (d.1, false), d.2.1, d.2.2)
  | redirtype_T.RT_HERE | redirtype_T.RT_HERERT =>
    let d := open_heredocument env r.rd_herecontent s
    if d.1 < 0 then (none, d.2, save) else (some (d.1, false), d.2, save)
  | redirtype_T.RT_HERESTR =>
    let d := open_herestring env filename true s
    if d.1 < 0 then (none, d.2, save) else (some (d.1, false), d.2, save)
  | redirtype_T.RT_PROCIN | redirtype_T.RT_PROCOUT =>
    let d := open_process_redirection env r.rd_type s
    if d.1 < 0 then (none, d.2, save) else (some (d.1, false), d.2, save)
  | _ =>
    let d := open_file env filename (redir_open_flags env r.rd_type filename) s
    if d.1 < 0 then (none, xerror (Diag.cannot_open filename) d.2, save)
    else (some (d.1, false), d.2, save)

/-- Whether the first `switch` of `open_redirections` expands `rd_filename`. -/
def expands_filename (type : redirtype_T) : Bool :=
  match type with
  | redirtype_T.RT_HERE | redirtype_T.RT_HERERT
  | redirtype_T.RT_PROCIN | redirtype_T.RT_PROCOUT => false
  | _ => true

/-- The end of one iteration of `open_redirections`, once the new descriptor
is in place. -/
def open_redirection_finish (r : redir_T) (s : State) (save : Option (List savefd_T)) :
    Bool × State × Option (List savefd_T) :=
  (true, if r.rd_fd = 0 then { s with is_stdin_redirected := true } else s, save)

/-- Moves the new FD to `r->rd_fd`, the last part of one iteration. -/
def open_redirection_move (r : redir_T) (fd : Int) (keepopen : Bool) (s : State)
    (save : Option (List savefd_T)) : Bool × State × Option (List savefd_T) :=
  if fd ≠ r.rd_fd then
    if fd ≥ 0 then
      let x := xdup2 fd r.rd_fd s
      if x.1 < 0 then (false, x.2, save)
      else open_redirection_finish r (if keepopen then x.2 else (xclose fd x.2).2) save
    else open_redirection_finish r (xclose r.rd_fd s).2 save
  else open_redirection_finish r s save

/-- The part of one iteration of `open_redirections` after the original FD is
saved: "now, open redirection" and "move the new FD". -/
def open_redirection_open (env : Env) (r : redir_T) (filename : List Char) (s : State)
    (save : Option (List savefd_T)) : Bool × State × Option (List savefd_T) :=
  let o := open_redirection_fd env r filename s save
  match o.1 with
  | none => (false, o.2.1, o.2.2)
  | some fk => open_redirection_move r fk.1 fk.2 o.2.1 o.2.2

/-- One iteration of the `while` loop of `open_redirections`: the flag is
false where the source returns false. -/
def open_redirection (env : Env) (r : redir_T) (s : State) (save : Option (List savefd_T)) :
    Bool × State × Option (List savefd_T) :=
  if r.rd_fd < 0 ∨ is_shellfd env r.rd_fd s = true then
    (false, xerror (Diag.fd_unavailable r.rd_fd) s, save)
  else
    -- expand rd_filename
    let e := if expands_filename r.rd_type then expand_redir_filename env r.rd_filename s
             else (some [], s)
    match e.1 with
    | none => (false, e.2, save)
    | some filename =>
      -- save original FD
      let sv := save_fd env r.rd_fd e.2 save
      open_redirection_open env r filename sv.1 sv.2

/-- The `while` loop of `open_redirections`. -/
def open_redirections_loop (env : Env) :
    List redir_T → State → Option (List savefd_T) → Bool × State × Option (List savefd_T)
  | [], s, save => (true, s, save)
  | r :: next, s, save =>
    let o := open_redirection env r s save
    if o.1 then open_redirections_loop env next o.2.1 o.2.2 else o

/-- Opens a redirection. If `save` is non-NULL it is first reset to the empty
stack. -/
def open_redirections (env : Env) (r : List redir_T) (s : State)
    (save : Option (List savefd_T)) : Bool × State × Option (List savefd_T) :=
  open_redirections_loop env r s (save.map (fun _ => []))

/-- One iteration of the loop of `undo_redirections`, for the entry `save`. -/
def undo_redirection (env : Env) (save : savefd_T) (s : State) : State :=
  let s1 :=
    if save.sf_copyfd ≥ 0 then
      (xclose save.sf_copyfd
        (xdup2 save.sf_copyfd save.sf_origfd (remove_shellfd env save.sf_copyfd s)).2).2
    else (xclose save.sf_origfd s).2
  { s1 with is_stdin_redirected := save.sf_stdin_redirected }

/-- Restores the saved file descriptor and frees `save`. -/
def undo_redirections (env : Env) : List savefd_T → State → State
  | [], s => s
  | save :: next, s => undo_redirections env next (undo_redirection env save s)

/-- Frees the FD-saving info without restoring FD. -/
def clear_savefd (env : Env) : List savefd_T → State → State
  | [], s => s
  | save :: next, s =>
    clear_savefd env next
      (if save.sf_copyfd ≥ 0 then (xclose save.sf_copyfd (remove_shellfd env save.sf_copyfd s)).2
       else s)

/-! ## Notions used by the statements -/

/-- Every open descriptor lies below the descriptor limit of the process. -/
def TableOk (s : State) : Prop :=
  ∀ fd e, s.fds fd = some e → 0 ≤ fd ∧ fd < s.openMax

/-- Every open file description was created before the current clock tick, so
that the next object the kernel creates is new. -/
def IdsFresh (s : State) : Prop :=
  ∀ fd e, s.fds fd = some e → e.ofd.id < s.tick

/-- Whether a message is the report of `save_fd` that a descriptor could not
be saved. -/
def isCannotSave : Diag → Bool
  | Diag.cannot_save _ => true
  | _ => false

/-- How many times `save_fd` has reported that it could not save. -/
def saveFailures (s : State) : Nat :=
  s.diag.countP isCannotSave

/-- The open file description behind a descriptor, `none` when closed: what
"open on the same file with the same access mode" compares. -/
def fileOf (s : State) (fd : Int) : Option OFD :=
  (s.fds fd).map FdEntry.ofd

/-- Two states agree on what every descriptor refers to, on
`is_stdin_redirected`, and on the descriptor limit. -/
def FdEq (s t : State) : Prop :=
  (∀ fd, fileOf s fd = fileOf t fd) ∧ s.is_stdin_redirected = t.is_stdin_redirected
    ∧ s.openMax = t.openMax

/-- The part of the state only the shell FD registry and `open_redirections`
write is the same in both states, and `save_fd` reported no new failure. -/
structure KStep (s t : State) : Prop where
  openMax : t.openMax = s.openMax
  shellfds : t.shellfds = s.shellfds
  shellfdmin : t.shellfdmin = s.shellfdmin
  shellfdmax : t.shellfdmax = s.shellfdmax
  stdin : t.is_stdin_redirected = s.is_stdin_redirected
  ttyfd : t.ttyfd = s.ttyfd
  saves : saveFailures t = saveFailures s
  ok : TableOk s → TableOk t

/-- The invariant of the registry: every member of `shellfds` is a descriptor
number between 0 and `shellfdmax`, below `FD_SETSIZE`. -/
def RegistryOk (env : Env) (s : State) : Prop :=
  ∀ fd, s.shellfds fd = true → 0 ≤ fd ∧ fd ≤ s.shellfdmax ∧ fd < env.FD_SETSIZE

/-- One call of the registry interface. -/
inductive RegOp
  | add (fd : Int)
  | remove (fd : Int)
  deriving DecidableEq, Repr

/-- Runs a sequence of `add_shellfd` and `remove_shellfd` calls. -/
def runRegOps (env : Env) : List RegOp → State → State
  | [], s => s
  | RegOp.add fd :: rest, s => runRegOps env rest (add_shellfd env fd s)
  | RegOp.remove fd :: rest, s => runRegOps env rest (remove_shellfd env fd s)

/-- The descriptor a registry call is about. -/
def RegOp.fd : RegOp → Int
  | RegOp.add fd => fd
  | RegOp.remove fd => fd

/-- The step from `s` to `t` leaves the descriptor table alone, besides
what `KStep` says. -/
def SameFds (s t : State) : Prop :=
  t.fds = s.fds ∧ KStep s t

/-- The step from `s` to `t` returned `fd`: either it failed (`fd` negative)
and the descriptor table is as before, or `fd` is a descriptor that was
closed and is now open, and nothing else changed in the table. -/
def Produced (s : State) (fd : Int) (t : State) : Prop :=
  KStep s t ∧
    ((fd < 0 ∧ t.fds = s.fds) ∨
     (0 ≤ fd ∧ fd < s.openMax ∧ s.fds fd = none ∧ ∃ y, t.fds = upd s.fds fd (some y)))

/-- What every step of `open_redirections` keeps: the descriptor limit and
`shellfdmin` stay, the registered set only grows, the failures of `save_fd`
only grow, and the table stays within the limit. -/
structure RStep (s t : State) : Prop where
  openMax : t.openMax = s.openMax
  shellfdmin : t.shellfdmin = s.shellfdmin
  shellfds : ∀ x, s.shellfds x = true → t.shellfds x = true
  saves : saveFailures s ≤ saveFailures t
  ok : TableOk s → TableOk t

/-- The stack `save'` is `save` with the entries of some `save_fd` calls pushed
on it, each saved copy being a shell FD in `t`. -/
def Pushed (env : Env) (save save' : Option (List savefd_T)) (t : State) : Prop :=
  ∃ new : List savefd_T, save' = save.map (fun st => new ++ st) ∧
    ∀ e ∈ new, 0 ≤ e.sf_copyfd → is_shellfd env e.sf_copyfd t = true

/-- A part of `open_redirections` went from `s` with the stack `save` to the
state `t` with the stack `save'`. -/
def StepOk (env : Env) (s : State) (save : Option (List savefd_T)) (t : State)
    (save' : Option (List savefd_T)) : Prop :=
  RStep s t ∧ Pushed env save save' t

/-- The three shapes of what the second `switch` of `open_redirections` gives
for a redirection that is not a pipe: failure with the table unchanged, a
descriptor that is kept open with the table unchanged, or a descriptor that
was closed and is now open. -/
def OpenedOther (s : State) (save : Option (List savefd_T))
    (o : Option (Int × Bool) × State × Option (List savefd_T)) : Prop :=
  o.2.2 = save ∧
    ((o.1 = none ∧ o.2.1.fds = s.fds) ∨
     (∃ fd, o.1 = some (fd, true) ∧ o.2.1.fds = s.fds) ∨
     (∃ fd y, o.1 = some (fd, false) ∧ 0 ≤ fd ∧ s.fds fd = none ∧
        o.2.1.fds = upd s.fds fd (some y)))

/-- The entry `e` is what `save_fd` pushes in state `s`, and `T` is the
descriptor table it leaves: either the original descriptor was closed and
the table is unchanged, or the saved copy is a descriptor `>= shellfdmin`
that was closed and now duplicates the original. -/
def SavedAs (s : State) (e : savefd_T) (T : Int → Option FdEntry) : Prop :=
  e.sf_stdin_redirected = s.is_stdin_redirected ∧
    ((e.sf_copyfd = -1 ∧ s.fds e.sf_origfd = none ∧ T = s.fds) ∨
     (0 ≤ e.sf_copyfd ∧ s.shellfdmin ≤ e.sf_copyfd ∧ s.fds e.sf_copyfd = none ∧
        ∃ x, s.fds e.sf_origfd = some x ∧
          T = upd s.fds e.sf_copyfd (some { ofd := x.ofd, cloexec := true })))

/-! ## Concrete environments and states

Used to evaluate the definitions on explicit inputs. -/

/-- A Linux-like platform: `FD_SETSIZE` is 1024, `PIPE_BUF` 4096, no strict
mode, every expansion is the identity and every system call that can
succeed does. -/
def envLinux : Env :=
  { FD_SETSIZE := 1024, PIPE_BUF := some 4096, YASH_ENABLE_SOCKET := false,
    posixly_correct := false, shopt_noclobber := false, is_interactive := false,
    expand_single_with_glob := fun w => some w, expand_single := fun w => some w,
    realloc_wcstombs := fun w => some w, malloc_mbstowcs := fun w => some w,
    expand_string := fun w => some w, is_irregular_file := fun _ => false,
    create_temporary_file := fun _ => some "/tmp/yash".toList,
    fs_open := fun _ path _ => some (Obj.file path), pipe_ok := fun _ => true,
    fork_ok := fun _ => true, write_count := fun _ n => some n, lseek_ok := fun _ => true,
    unlink_ok := fun _ => true, getaddrinfo_ok := fun _ _ => true, socket_ok := fun _ => true,
    connect_ok := fun _ => true, sysconf_OPEN_MAX := 1024, sysconf_errno := 0 }

/-- The same platform in strict-conformance mode. -/
def envPosix : Env :=
  { envLinux with posixly_correct := true }

/-- A descriptor open on the terminal, read-write. -/
def ttyEntry : FdEntry :=
  { ofd := { id := 0, obj := Obj.file "/dev/tty".toList, acc := AccMode.O_RDWR },
    cloexec := false }

/-- A descriptor open on a file, read-only. -/
def roEntry : FdEntry :=
  { ofd := { id := 1, obj := Obj.file "/etc/passwd".toList, acc := AccMode.O_RDONLY },
    cloexec := false }

/-- A shell right after start-up: descriptors 0, 1 and 2 on the terminal,
no shell FD, `shellfdmin` 10, at most `limit` descriptors. -/
def stateStart (limit : Int) : State :=
  { fds := fun fd => if fd = 0 ∨ fd = 1 ∨ fd = 2 then some ttyEntry else none,
    openMax := limit, tick := 2, data := fun _ => [], pos := fun _ => 0, errno := 0,
    is_stdin_redirected := false, shellfds := FD_ZERO, shellfdmin := 10, shellfdmax := -1,
    ttyfd := -1, do_job_control := false, diag := [] }

/-- The start-up state with more descriptors opened by the user: every
descriptor of `extra` is open read-only on a file. -/
def stateWith (limit : Int) (extra : List Int) : State :=
  { stateStart limit with
    fds := fun fd => if fd = 0 ∨ fd = 1 ∨ fd = 2 then some ttyEntry
                     else if fd ∈ extra then some roEntry else none }

/-- A redirection of the given type on `fd` whose word is `word`. -/
def mkRedir (type : redirtype_T) (fd : Int) (word : String) : redir_T :=
  { rd_type := type, rd_fd := fd, rd_filename := word.toList, rd_herecontent := word.toList,
    rd_command := word.toList }

/-- A state whose descriptors from `shellfdmin` up to the limit 12 are all in
use by the user, with standard output open. -/
def stateNoRoom : State :=
  stateWith 12 [10, 11]

/-- The text is a non-empty string of decimal digits: a base-ten
non-negative integer, whose value is `digitsVal`. -/
def isDecimal (num : List Char) : Bool :=
  !num.isEmpty && num.all isdigit

/-- The access mode the strict mode asks of a duplication source: readable for
`RT_DUPIN`, writable for `RT_DUPOUT`; a closed source has none. -/
def accessOk (type : redirtype_T) (e : Option FdEntry) : Bool :=
  match e with
  | none => false
  | some entry =>
    if type = redirtype_T.RT_DUPIN then
      decide (entry.ofd.acc = AccMode.O_RDONLY) || decide (entry.ofd.acc = AccMode.O_RDWR)
    else
      decide (entry.ofd.acc = AccMode.O_WRONLY) || decide (entry.ofd.acc = AccMode.O_RDWR)

/-- Descriptors 0 to 2 on the terminal and descriptor 5 open read-only. -/
def stateFiveReadOnly : State :=
  stateWith 1024 [5]

/-- Two duplications that close their target: descriptor 12, then standard
output. -/
def specsCloseTwice : List redir_T :=
  [mkRedir redirtype_T.RT_DUPOUT 12 "-", mkRedir redirtype_T.RT_DUPOUT 1 "-"]

/-! ## Notions for the open flags, the here-strings, `shellfdmax` and `xdup2` -/

/-- The open mode the specification gives for a redirection kind, the
noclobber option and whether the target is an irregular file: read gives
read-only; write-truncate gives write, create, truncate unless noclobber is
on and the target is not an irregular file, in which case write, create,
exclusive; write-clobber gives write, create, truncate; write-append gives
write, create, append; read-write gives read-write, create. `none` for the
kinds that open no file by name. -/
def open_flags_spec (kind : redirtype_T) (noclobber irregular : Bool) : Option OFlags :=
  match kind with
  | redirtype_T.RT_INPUT =>
    some { acc := AccMode.O_RDONLY, creat := false, excl := false, trunc := false,
           append := false }
  | redirtype_T.RT_OUTPUT =>
    if noclobber && !irregular then
      some { acc := AccMode.O_WRONLY, creat := true, excl := true, trunc := false,
             append := false }
    else
      some { acc := AccMode.O_WRONLY, creat := true, excl := false, trunc := true,
             append := false }
  | redirtype_T.RT_CLOBBER =>
    some { acc := AccMode.O_WRONLY, creat := true, excl := false, trunc := true,
           append := false }
  | redirtype_T.RT_APPEND =>
    some { acc := AccMode.O_WRONLY, creat := true, excl := false, trunc := false,
           append := true }
  | redirtype_T.RT_INOUT =>
    some { acc := AccMode.O_RDWR, creat := true, excl := false, trunc := false,
           append := false }
  | _ => none

/-- The platform `envLinux` with the noclobber option on and `/dev/null` the
only irregular file. -/
def envNoclobber : Env :=
  { envLinux with shopt_noclobber := true,
                  is_irregular_file := fun path => decide (path = "/dev/null".toList) }

/-- The platform `envLinux` where `sysconf(_SC_OPEN_MAX)` returns `limit`
and leaves `errno` at `err`. -/
def envOpenMax (limit : Int) (err : Nat) : Env :=
  { envLinux with sysconf_OPEN_MAX := limit, sysconf_errno := err }

/-- One call of the registry interface, `copy_as_shellfd` and `clear_shellfds`
included. -/
inductive ShellFdCall
  | add (fd : Int)
  | remove (fd : Int)
  | copy (fd : Int)
  | clear (leavefds : Bool)
  deriving DecidableEq, Repr

/-- Runs a sequence of calls of the registry interface. -/
def runShellFdCalls (env : Env) : List ShellFdCall → State → State
  | [], s => s
  | ShellFdCall.add fd :: rest, s => runShellFdCalls env rest (add_shellfd env fd s)
  | ShellFdCall.remove fd :: rest, s => runShellFdCalls env rest (remove_shellfd env fd s)
  | ShellFdCall.copy fd :: rest, s => runShellFdCalls env rest (copy_as_shellfd env fd s).2
  | ShellFdCall.clear leavefds :: rest, s => runShellFdCalls env rest (clear_shellfds leavefds s)

/-- The calls for which `shellfdmax` is kept exact: `add_shellfd` on a
descriptor from `lo` (the value of `shellfdmin`) that is below `FD_SETSIZE`,
and `remove_shellfd` on a descriptor other than -1. -/
def ShellFdCall.inRange (env : Env) (lo : Int) : ShellFdCall → Bool
  | ShellFdCall.add fd => decide (lo ≤ fd) && decide (fd < env.FD_SETSIZE)
  | ShellFdCall.remove fd => decide (fd ≠ -1)
  | ShellFdCall.copy _ => true
  | ShellFdCall.clear _ => true

/-- `shellfdmax` is the greatest descriptor of the registered set, or -1 when
the set is empty. -/
def ShellFdMaxOk (s : State) : Prop :=
  (∀ x, s.shellfds x = true → x ≤ s.shellfdmax) ∧
    (s.shellfds s.shellfdmax = true ∨ (s.shellfdmax = -1 ∧ ∀ x, s.shellfds x = false))

/-- Whether a message reports that the contents of a here-document could not
be written or that the temporary file could not be rewound. -/
def isContentsFailure : Diag → Bool
  | Diag.heredoc_write => true
  | Diag.heredoc_seek => true
  | _ => false

/-- How many times writing or rewinding the contents of a here-document has
been reported to fail. -/
def contentsFailures (s : State) : Nat :=
  s.diag.countP isContentsFailure

/-- A platform without `PIPE_BUF` on which every `write` fails, as on a full
disk. -/
def envDiskFull : Env :=
  { envLinux with PIPE_BUF := none, write_count := fun _ _ => none }

/-- A platform with `PIPE_BUF` 4 on which a `write` transfers at most 3
bytes at a time, unless it is an atomic write to a pipe. -/
def envShortWrites : Env :=
  { envLinux with PIPE_BUF := some 4, write_count := fun _ n => some (min n 3) }

/-- Whether a message is the report of `xdup2` for a call whose two
descriptors are the same. -/
def isSelfCopy : Diag → Bool
  | Diag.cannot_copy oldfd newfd => decide (oldfd = newfd)
  | _ => false

/-- How many times `xdup2` has reported a failure of copying a descriptor to
itself. Since `xdup2 (fd, fd)` always fails, this counts the calls of
`xdup2` with the same descriptor twice. -/
def selfCopies (s : State) : Nat :=
  s.diag.countP isSelfCopy

/-- Every entry of the stack with a saved copy has it on another number than
the original descriptor. -/
def CopiesDistinct (stack : List savefd_T) : Prop :=
  ∀ e ∈ stack, 0 ≤ e.sf_copyfd → e.sf_copyfd ≠ e.sf_origfd

theorem findFree_some {fds : Int → Option FdEntry} :
    ∀ (n : Nat) (lo c : Int), findFree fds n lo = some c →
      lo ≤ c ∧ c < lo + n ∧ fds c = none ∧ ∀ x, lo ≤ x → x < c → fds x ≠ none := by
  intro n
  induction n with
  | zero => intro lo c h; simp [findFree] at h
  | succ n ih =>
    intro lo c h
    unfold findFree at h
    by_cases hf : (fds lo).isNone = true
    · simp only [hf, if_true, Option.some.injEq] at h
      subst h
      refine ⟨le_refl _, by push_cast; omega, by simpa using hf, ?_⟩
      intro x h1 h2; omega
    · simp only [hf] at h
      obtain ⟨h1, h2, h3, h4⟩ := ih (lo + 1) c h
      refine ⟨by omega, by push_cast; omega, h3, ?_⟩
      intro x hx1 hx2
      by_cases hx : x = lo
      · subst hx; intro hn; exact hf (by simp [hn])
      · exact h4 x (by omega) hx2

theorem findFree_none {fds : Int → Option FdEntry} :
    ∀ (n : Nat) (lo : Int), findFree fds n lo = none →
      ∀ x, lo ≤ x → x < lo + n → fds x ≠ none := by
  intro n
  induction n with
  | zero => intro lo _ x h1 h2; simp at h2; omega
  | succ n ih =>
    intro lo h x h1 h2
    unfold findFree at h
    by_cases hf : (fds lo).isNone = true
    · simp [hf] at h
    · simp only [hf] at h
      by_cases hx : x = lo
      · subst hx; intro hn; exact hf (by simp [hn])
      · exact ih (lo + 1) h x (by omega) (by push_cast at h2; omega)

theorem lowestFree_some {s : State} {lo c : Int} (h : lowestFree s lo = some c) :
    lo ≤ c ∧ c < s.openMax ∧ s.fds c = none ∧ ∀ x, lo ≤ x → x < c → s.fds x ≠ none := by
  obtain ⟨h1, h2, h3, h4⟩ := findFree_some _ _ _ h
  refine ⟨h1, ?_, h3, h4⟩
  have : ((s.openMax - lo).toNat : Int) = max (s.openMax - lo) 0 := Int.toNat_eq_max _
  omega

theorem lowestFree_none {s : State} {lo : Int} (h : lowestFree s lo = none) :
    ∀ x, lo ≤ x → x < s.openMax → s.fds x ≠ none := by
  intro x h1 h2
  refine findFree_none _ _ h x h1 ?_
  have : ((s.openMax - lo).toNat : Int) = max (s.openMax - lo) 0 := Int.toNat_eq_max _
  omega

theorem upd_apply (T : Int → Option FdEntry) (fd : Int) (e : Option FdEntry) (x : Int) :
    upd T fd e x = if x = fd then e else T x := rfl

theorem upd_none_of_none {T : Int → Option FdEntry} {fd : Int} (h : T fd = none) :
    upd T fd none = T := by
  funext x
  by_cases hx : x = fd
  · subst hx; simp [upd, h]
  · simp [upd, hx]

theorem KStep.refl (s : State) : KStep s s :=
  ⟨rfl, rfl, rfl, rfl, rfl, rfl, rfl, id⟩

theorem KStep.trans {s t u : State} (h1 : KStep s t) (h2 : KStep t u) : KStep s u :=
  ⟨h2.openMax.trans h1.openMax, h2.shellfds.trans h1.shellfds,
   h2.shellfdmin.trans h1.shellfdmin, h2.shellfdmax.trans h1.shellfdmax,
   h2.stdin.trans h1.stdin, h2.ttyfd.trans h1.ttyfd, h2.saves.trans h1.saves,
   fun h => h2.ok (h1.ok h)⟩

theorem saveFailures_xerror (d : Diag) (s : State) :
    saveFailures (xerror d s) = saveFailures s + (if isCannotSave d = true then 1 else 0) := by
  simp [saveFailures, xerror, List.countP_append, List.countP_cons]

theorem kstep_xerror (d : Diag) (hd : isCannotSave d = false) (s : State) :
    KStep s (xerror d s) :=
  ⟨rfl, rfl, rfl, rfl, rfl, rfl, by simp [saveFailures_xerror, hd], id⟩

/-- A state that differs only in `errno`, `tick`, `data` and `pos`. -/
theorem kstep_of_eq {s t : State} (h1 : t.fds = s.fds) (h2 : t.openMax = s.openMax)
    (h3 : t.shellfds = s.shellfds) (h4 : t.shellfdmin = s.shellfdmin)
    (h5 : t.shellfdmax = s.shellfdmax) (h6 : t.is_stdin_redirected = s.is_stdin_redirected)
    (h7 : t.ttyfd = s.ttyfd) (h8 : t.diag = s.diag) : KStep s t :=
  ⟨h2, h3, h4, h5, h6, h7, by simp [saveFailures, h8],
   fun h fd e he => by rw [h1] at he; rw [h2]; exact h fd e he⟩

theorem kstep_setFd_none (s : State) (fd : Int) : KStep s (setFd s fd none) :=
  ⟨rfl, rfl, rfl, rfl, rfl, rfl, rfl, fun h x e he => by
    simp only [setFd, upd] at he
    by_cases hx : x = fd
    · simp [hx] at he
    · simp only [hx, if_false] at he; exact h x e he⟩

theorem kstep_setFd_some (s : State) (fd : Int) (e : FdEntry) (h0 : 0 ≤ fd)
    (h1 : fd < s.openMax) : KStep s (setFd s fd (some e)) :=
  ⟨rfl, rfl, rfl, rfl, rfl, rfl, rfl, fun h x e' he => by
    simp only [setFd, upd] at he
    by_cases hx : x = fd
    · subst hx; exact ⟨h0, h1⟩
    · simp only [hx, if_false] at he; exact h x e' he⟩

theorem kstep_bumpTick (s : State) (n : Nat) : KStep s (bumpTick s n) :=
  kstep_of_eq rfl rfl rfl rfl rfl rfl rfl rfl

theorem xclose_fst (fd : Int) (s : State) : (xclose fd s).1 = 0 := by
  unfold xclose sys_close
  cases h : s.fds fd <;> simp

theorem xclose_fds (fd : Int) (s : State) : (xclose fd s).2.fds = upd s.fds fd none := by
  unfold xclose sys_close
  cases h : s.fds fd
  · simp [upd_none_of_none h]
  · simp [setFd]

theorem kstep_xclose (fd : Int) (s : State) : KStep s (xclose fd s).2 := by
  unfold xclose sys_close
  cases h : s.fds fd
  · simp only [Int.reduceNeg, Left.neg_neg_iff, zero_lt_one, ↓reduceIte]
    exact kstep_of_eq rfl rfl rfl rfl rfl rfl rfl rfl
  · simp only [lt_self_iff_false, ↓reduceIte]
    exact kstep_setFd_none s fd

theorem xclose_tick (fd : Int) (s : State) : (xclose fd s).2.tick = s.tick := by
  unfold xclose sys_close
  cases h : s.fds fd <;> simp [setFd]

theorem sys_dup2_ok {t : State} {o n : Int} {e : FdEntry} (h : t.fds o = some e)
    (hne : o ≠ n) (h0 : 0 ≤ n) (h1 : n < t.openMax) :
    sys_dup2 o n t = (n, setFd t n (some { ofd := e.ofd, cloexec := false })) := by
  unfold sys_dup2
  simp [h, hne, h0, h1]

theorem sys_dup2_fail {t : State} {o n : Int} (h : t.fds o = none ∨ n < 0 ∨ t.openMax ≤ n) :
    sys_dup2 o n t = (-1, { t with errno := EBADF }) := by
  unfold sys_dup2
  cases ho : t.fds o with
  | none => rfl
  | some e =>
    have hr : ¬ (0 ≤ n ∧ n < t.openMax) := by
      rcases h with h | h | h
      · simp [h] at ho
      · omega
      · omega
    simp [hr]

theorem xdup2_ok {s : State} {o n : Int} {e : FdEntry} (h : s.fds o = some e) (hne : o ≠ n)
    (h0 : 0 ≤ n) (h1 : n < s.openMax) :
    (xdup2 o n s).1 = n ∧
      (xdup2 o n s).2.fds = upd s.fds n (some { ofd := e.ofd, cloexec := false }) := by
  have hk := (kstep_xclose n s).openMax
  have hf := xclose_fds n s
  have ho : (xclose n s).2.fds o = some e := by rw [hf]; simp [upd, hne, h]
  simp only [xdup2]
  rw [sys_dup2_ok ho hne h0 (by rw [hk]; exact h1)]
  have : ¬ n < 0 := by omega
  simp only [this, if_false, true_and, setFd, hf]
  funext x
  by_cases hx : x = n <;> simp [upd, hx]

theorem xdup2_fail {s : State} {o n : Int}
    (h : s.fds o = none ∨ o = n ∨ n < 0 ∨ s.openMax ≤ n) :
    (xdup2 o n s).1 = -1 ∧ (xdup2 o n s).2.fds = upd s.fds n none := by
  have hk := (kstep_xclose n s).openMax
  have hf := xclose_fds n s
  have hc : (xclose n s).2.fds o = none ∨ n < 0 ∨ (xclose n s).2.openMax ≤ n := by
    rw [hk, hf]
    rcases h with h | h | h | h
    · left; by_cases hx : o = n <;> simp [upd, hx, h]
    · left; simp [upd, h]
    · right; left; exact h
    · right; right; exact h
  simp only [xdup2]
  rw [sys_dup2_fail hc]
  simp [xerror, hf]

theorem kstep_sys_dup2 (o n : Int) (t : State) : KStep t (sys_dup2 o n t).2 := by
  unfold sys_dup2
  cases ho : t.fds o with
  | none => exact kstep_of_eq rfl rfl rfl rfl rfl rfl rfl rfl
  | some e =>
    by_cases hr : 0 ≤ n ∧ n < t.openMax
    · by_cases hne : o = n
      · simp only [hr, hne, and_self, if_true]; exact KStep.refl t
      · simp only [hr, hne, and_self, if_true, if_false]
        exact kstep_setFd_some t n _ hr.1 hr.2
    · simp only [hr, if_false]
      exact kstep_of_eq rfl rfl rfl rfl rfl rfl rfl rfl

theorem kstep_xdup2 (o n : Int) (s : State) : KStep s (xdup2 o n s).2 := by
  refine KStep.trans (kstep_xclose n s) ?_
  simp only [xdup2]
  generalize (xclose n s).2 = t
  by_cases h : (sys_dup2 o n t).1 < 0
  · simp only [h, if_true]
    exact KStep.trans (kstep_sys_dup2 o n t) (kstep_xerror (Diag.cannot_copy o n) rfl _)
  · simp only [h, if_false]
    exact kstep_sys_dup2 o n t

/-! ## The shell FD registry -/

theorem is_shellfd_iff (env : Env) (fd : Int) (s : State) :
    is_shellfd env fd s = true ↔ ((env.FD_SETSIZE : Int) ≤ fd ∨ (0 ≤ fd ∧ s.shellfds fd = true)) := by
  simp [is_shellfd, FD_ISSET]

theorem add_shellfd_shellfds (env : Env) (fd : Int) (s : State) (x : Int) :
    (add_shellfd env fd s).shellfds x =
      if x = fd ∧ fd < env.FD_SETSIZE then true else s.shellfds x := by
  unfold add_shellfd
  by_cases h1 : fd < (env.FD_SETSIZE : Int) <;> by_cases h2 : s.shellfdmax < fd <;>
    by_cases h3 : x = fd <;> simp [h1, h2, h3, FD_SET]

theorem remove_shellfd_shellfds (env : Env) (fd : Int) (s : State) (x : Int) :
    (remove_shellfd env fd s).shellfds x =
      if x = fd ∧ 0 ≤ fd ∧ fd < env.FD_SETSIZE then false else s.shellfds x := by
  unfold remove_shellfd
  by_cases h1 : 0 ≤ fd ∧ fd < (env.FD_SETSIZE : Int)
  · simp only [h1, and_self, if_true, and_true]
    by_cases h2 : fd = s.shellfdmax <;> by_cases h3 : x = fd <;> simp [h2, h3, FD_CLR]
  · have h4 : ¬ (x = fd ∧ 0 ≤ fd ∧ fd < (env.FD_SETSIZE : Int)) := fun h => h1 h.2
    simp only [h1, h4, if_false]
    by_cases h2 : fd = s.shellfdmax <;> simp [h2]

theorem add_shellfd_fds (env : Env) (fd : Int) (s : State) :
    (add_shellfd env fd s).fds = s.fds := by
  unfold add_shellfd
  by_cases h1 : fd < (env.FD_SETSIZE : Int) <;> by_cases h2 : s.shellfdmax < fd <;> simp [h1, h2]

theorem add_shellfd_frame (env : Env) (fd : Int) (s : State) :
    (add_shellfd env fd s).is_stdin_redirected = s.is_stdin_redirected ∧
    (add_shellfd env fd s).openMax = s.openMax ∧
    (add_shellfd env fd s).shellfdmin = s.shellfdmin ∧
    (add_shellfd env fd s).diag = s.diag ∧
    (add_shellfd env fd s).ttyfd = s.ttyfd ∧
    (add_shellfd env fd s).tick = s.tick ∧
    (add_shellfd env fd s).errno = s.errno := by
  unfold add_shellfd
  by_cases h1 : fd < (env.FD_SETSIZE : Int) <;> by_cases h2 : s.shellfdmax < fd <;> simp [h1, h2]

theorem remove_shellfd_frame (env : Env) (fd : Int) (s : State) :
    (remove_shellfd env fd s).is_stdin_redirected = s.is_stdin_redirected ∧
    (remove_shellfd env fd s).openMax = s.openMax ∧
    (remove_shellfd env fd s).shellfdmin = s.shellfdmin ∧
    (remove_shellfd env fd s).diag = s.diag ∧
    (remove_shellfd env fd s).ttyfd = s.ttyfd ∧
    (remove_shellfd env fd s).tick = s.tick ∧
    (remove_shellfd env fd s).errno = s.errno := by
  unfold remove_shellfd
  by_cases h1 : 0 ≤ fd ∧ fd < (env.FD_SETSIZE : Int)
  · simp only [h1, and_self, if_true]; split <;> simp
  · simp only [h1, if_false]; split <;> simp

theorem remove_shellfd_fds (env : Env) (fd : Int) (s : State) :
    (remove_shellfd env fd s).fds = s.fds := by
  unfold remove_shellfd
  by_cases h1 : 0 ≤ fd ∧ fd < (env.FD_SETSIZE : Int)
  · simp only [h1, and_self, if_true]; split <;> rfl
  · simp only [h1, if_false]; split <;> rfl

theorem runRegOps_shellfds (env : Env) (fd : Int) :
    ∀ (ops : List RegOp) (s : State), (∀ op ∈ ops, op.fd ≠ fd) →
      (runRegOps env ops s).shellfds fd = s.shellfds fd := by
  intro ops
  induction ops with
  | nil => intro s _; rfl
  | cons op rest ih =>
    intro s h
    have hop : op.fd ≠ fd := h op (List.mem_cons_self _ _)
    have hrest : ∀ op ∈ rest, op.fd ≠ fd := fun o ho => h o (List.mem_cons_of_mem _ ho)
    cases op with
    | add g =>
      have hg : fd ≠ g := fun hc => hop hc.symm
      simp only [runRegOps]
      rw [ih _ hrest, add_shellfd_shellfds]
      simp [hg]
    | remove g =>
      have hg : fd ≠ g := fun hc => hop hc.symm
      simp only [runRegOps]
      rw [ih _ hrest, remove_shellfd_shellfds]
      simp [hg]

/-- The scan of `remove_shellfd` has enough fuel: it stops at `-1` or at a
member of the set. -/
theorem remove_shellfd_scan_done (shellfds : Int → Bool) :
    ∀ (k : Nat) (m : Int), m < k →
      remove_shellfd_scan shellfds k m < 0 ∨
        shellfds (remove_shellfd_scan shellfds k m) = true := by
  intro k
  induction k with
  | zero => intro m h; left; simpa [remove_shellfd_scan] using h
  | succ k ih =>
    intro m h
    unfold remove_shellfd_scan
    by_cases hc : m ≥ 0 ∧ ¬ FD_ISSET m shellfds = true
    · simp only [hc, not_false_eq_true, and_self, if_true]
      exact ih (m - 1) (by push_cast at h; omega)
    · simp only [hc, if_false]
      by_cases hm : m ≥ 0
      · right
        have : FD_ISSET m shellfds = true := by
          by_contra hn; exact hc ⟨hm, hn⟩
        exact this
      · left; omega

theorem remove_shellfd_scan_bound (shellfds : Int → Bool) :
    ∀ (k : Nat) (m : Int),
      remove_shellfd_scan shellfds k m ≤ m ∧
        ∀ x, shellfds x = true → x ≤ m → x ≤ remove_shellfd_scan shellfds k m := by
  intro k
  induction k with
  | zero => intro m; simp [remove_shellfd_scan]
  | succ k ih =>
    intro m
    unfold remove_shellfd_scan
    by_cases hc : m ≥ 0 ∧ ¬ FD_ISSET m shellfds = true
    · simp only [hc, not_false_eq_true, and_self, if_true]
      obtain ⟨h1, h2⟩ := ih (m - 1)
      refine ⟨by omega, ?_⟩
      intro x hx hxm
      have hne : x ≠ m := by
        intro he; subst he; exact hc.2 hx
      exact h2 x hx (by omega)
    · simp only [hc, if_false]
      exact ⟨le_refl _, fun x _ h => h⟩

theorem registryOk_init (env : Env) (s : State) : RegistryOk env (init_shellfds env s) := by
  intro fd h
  have : (init_shellfds env s).shellfds = FD_ZERO := by
    simp only [init_shellfds, reset_shellfdmin]
    split
    · split <;> rfl
    · split
      · rfl
      · split <;> rfl
  rw [this] at h
  simp [FD_ZERO] at h

theorem add_shellfd_shellfdmax (env : Env) (fd : Int) (s : State) :
    (add_shellfd env fd s).shellfdmax = max s.shellfdmax fd := by
  unfold add_shellfd
  by_cases h1 : fd < (env.FD_SETSIZE : Int) <;> by_cases h2 : s.shellfdmax < fd <;>
    simp [h1, h2] <;> omega

theorem registryOk_add (env : Env) (fd : Int) (s : State) (h : RegistryOk env s)
    (h0 : 0 ≤ fd) : RegistryOk env (add_shellfd env fd s) := by
  intro x hx
  rw [add_shellfd_shellfds] at hx
  rw [add_shellfd_shellfdmax]
  by_cases hc : x = fd ∧ fd < (env.FD_SETSIZE : Int)
  · obtain ⟨rfl, h2⟩ := hc
    exact ⟨h0, le_max_right _ _, h2⟩
  · simp only [hc, if_false] at hx
    obtain ⟨a, b, c⟩ := h x hx
    exact ⟨a, le_trans b (le_max_left _ _), c⟩

theorem registryOk_remove (env : Env) (fd : Int) (s : State) (h : RegistryOk env s) :
    RegistryOk env (remove_shellfd env fd s) := by
  intro x hx
  have hx2 := hx
  rw [remove_shellfd_shellfds] at hx2
  by_cases hc : x = fd ∧ 0 ≤ fd ∧ fd < (env.FD_SETSIZE : Int)
  · simp [hc] at hx2
  · simp only [hc, if_false] at hx2
    obtain ⟨a, b, c⟩ := h x hx2
    refine ⟨a, ?_, c⟩
    unfold remove_shellfd at hx ⊢
    by_cases h1 : 0 ≤ fd ∧ fd < (env.FD_SETSIZE : Int)
    · simp only [h1, and_self, if_true] at hx ⊢
      have hxne : x ≠ fd := fun he => hc ⟨he, h1⟩
      by_cases h2 : fd = s.shellfdmax
      · simp only [h2, if_true] at hx ⊢
        exact (remove_shellfd_scan_bound _ _ _).2 x hx (by omega)
      · simp only [h2, if_false]; exact b
    · simp only [h1, if_false] at hx ⊢
      by_cases h2 : fd = s.shellfdmax
      · simp only [h2, if_true] at hx ⊢
        have hxne : x ≠ s.shellfdmax := by
          intro he; apply h1; rw [h2, ← he]; exact ⟨a, c⟩
        exact (remove_shellfd_scan_bound _ _ _).2 x hx (by omega)
      · simp only [h2, if_false]; exact b

theorem clear_shellfds_loop_shellfds :
    ∀ (l : List Int) (s : State), (clear_shellfds_loop l s).shellfds = s.shellfds := by
  intro l
  induction l with
  | nil => intro s; rfl
  | cons fd rest ih =>
    intro s
    simp only [clear_shellfds_loop]
    rw [ih]
    split
    · exact (kstep_xclose fd s).shellfds
    · rfl

theorem clear_shellfds_loop_other (l : List Int) (s : State) :
    (clear_shellfds_loop l s).ttyfd = s.ttyfd ∧
      (clear_shellfds_loop l s).is_stdin_redirected = s.is_stdin_redirected ∧
      (clear_shellfds_loop l s).shellfdmin = s.shellfdmin := by
  induction l generalizing s with
  | nil => exact ⟨rfl, rfl, rfl⟩
  | cons fd rest ih =>
    simp only [clear_shellfds_loop]
    obtain ⟨a, b, c⟩ := ih (if FD_ISSET fd s.shellfds = true then (xclose fd s).2 else s)
    rw [a, b, c]
    split
    · exact ⟨(kstep_xclose fd s).ttyfd, (kstep_xclose fd s).stdin, (kstep_xclose fd s).shellfdmin⟩
    · exact ⟨rfl, rfl, rfl⟩

/-! ## Claims about the registry -/

/-- C4: for `fd >= shellfdmin`, after `add_shellfd (fd)` the descriptor is a
shell FD whatever `add_shellfd` and `remove_shellfd` calls on other
descriptors follow, until `remove_shellfd (fd)`, which ends it for a
descriptor below `FD_SETSIZE`; and `is_shellfd` is true exactly for the
members of the registered set and for the descriptors at or above
`FD_SETSIZE`, hence false for every negative descriptor. -/
theorem is_shellfd_from_add_until_remove (env : Env) (s : State) (fd : Int)
    (ops : List RegOp) (hmin : 0 ≤ s.shellfdmin) (hfd : s.shellfdmin ≤ fd)
    (hops : ∀ op ∈ ops, op.fd ≠ fd) :
    is_shellfd env fd (runRegOps env ops (add_shellfd env fd s)) = true ∧
    (fd < env.FD_SETSIZE →
      is_shellfd env fd
        (remove_shellfd env fd (runRegOps env ops (add_shellfd env fd s))) = false) ∧
    (∀ (t : State) (x : Int), is_shellfd env x t = true ↔
      ((0 ≤ x ∧ x < env.FD_SETSIZE ∧ t.shellfds x = true) ∨ (env.FD_SETSIZE : Int) ≤ x)) ∧
    (∀ (t : State) (x : Int), x < 0 → is_shellfd env x t = false) := by
  have h0 : 0 ≤ fd := le_trans hmin hfd
  refine ⟨?_, ?_, ?_, ?_⟩
  · rw [is_shellfd_iff, runRegOps_shellfds env fd ops _ hops, add_shellfd_shellfds]
    by_cases h : fd < (env.FD_SETSIZE : Int)
    · right; simp [h, h0]
    · left; omega
  · intro hlt
    have hn : ¬ is_shellfd env fd
        (remove_shellfd env fd (runRegOps env ops (add_shellfd env fd s))) = true := by
      rw [is_shellfd_iff, remove_shellfd_shellfds]
      simp [h0, hlt]
    simpa using hn
  · intro t x
    rw [is_shellfd_iff]
    constructor
    · rintro (h | ⟨h1, h2⟩)
      · exact Or.inr h
      · by_cases hx : x < (env.FD_SETSIZE : Int)
        · exact Or.inl ⟨h1, hx, h2⟩
        · exact Or.inr (by omega)
    · rintro (⟨h1, _, h3⟩ | h)
      · exact Or.inr ⟨h1, h3⟩
      · exact Or.inl h
  · intro t x hx
    have hn : ¬ is_shellfd env x t = true := by
      rw [is_shellfd_iff]
      have : (0 : Int) ≤ (env.FD_SETSIZE : Int) := Int.ofNat_nonneg _
      rintro (h | ⟨h, _⟩) <;> omega
    simpa using hn

theorem is_shellfd_from_add_until_remove_witness :
    (0 ≤ (stateStart 1024).shellfdmin ∧ (stateStart 1024).shellfdmin ≤ 12 ∧
      ∀ op ∈ [RegOp.add 13, RegOp.add 10, RegOp.remove 13, RegOp.remove 10], op.fd ≠ 12) ∧
    is_shellfd envLinux 12
      (runRegOps envLinux [RegOp.add 13, RegOp.add 10, RegOp.remove 13, RegOp.remove 10]
        (add_shellfd envLinux 12 (stateStart 1024))) = true :=
  ⟨⟨by decide, by decide, by decide⟩,
   (is_shellfd_from_add_until_remove envLinux (stateStart 1024) 12
      [RegOp.add 13, RegOp.add 10, RegOp.remove 13, RegOp.remove 10]
      (by decide) (by decide) (by decide)).1⟩

theorem copy_as_shellfd_closed (env : Env) {fd : Int} {s : State} (h : s.fds fd = none) :
    copy_as_shellfd env fd s = (-1, { s with errno := EBADF }) := by
  simp [copy_as_shellfd, sys_fcntl_dupfd, h]

theorem copy_as_shellfd_ok (env : Env) {fd c : Int} {s : State} {e : FdEntry}
    (h : s.fds fd = some e) (h0 : 0 ≤ s.shellfdmin) (h1 : s.shellfdmin < s.openMax)
    (hc : lowestFree s s.shellfdmin = some c) :
    copy_as_shellfd env fd s =
      (c, add_shellfd env c (setFd s c (some { ofd := e.ofd, cloexec := true }))) := by
  have hr : ¬ (s.shellfdmin < 0 ∨ s.openMax ≤ s.shellfdmin) := by omega
  have hc0 : c ≥ 0 := by have := (lowestFree_some hc).1; omega
  simp [copy_as_shellfd, sys_fcntl_dupfd, h, hr, hc, hc0]

theorem copy_as_shellfd_fail (env : Env) {fd : Int} {s : State} {e : FdEntry}
    (h : s.fds fd = some e)
    (hbad : s.shellfdmin < 0 ∨ s.openMax ≤ s.shellfdmin ∨ lowestFree s s.shellfdmin = none) :
    ∃ err, err ≠ EBADF ∧ copy_as_shellfd env fd s = (-1, { s with errno := err }) := by
  by_cases hr : s.shellfdmin < 0 ∨ s.openMax ≤ s.shellfdmin
  · exact ⟨EINVAL, by decide, by simp [copy_as_shellfd, sys_fcntl_dupfd, h, hr]⟩
  · have hn : lowestFree s s.shellfdmin = none := by
      rcases hbad with h1 | h1 | h1
      · exact absurd (Or.inl h1) hr
      · exact absurd (Or.inr h1) hr
      · exact h1
    exact ⟨EMFILE, by decide, by simp [copy_as_shellfd, sys_fcntl_dupfd, h, hr, hn]⟩

theorem is_shellfd_add_shellfd_self (env : Env) (c : Int) (s : State) (h0 : 0 ≤ c) :
    is_shellfd env c (add_shellfd env c s) = true := by
  rw [is_shellfd_iff, add_shellfd_shellfds]
  by_cases h : c < (env.FD_SETSIZE : Int)
  · right; simp [h, h0]
  · left; omega

/-- What `save_fd` does, by the three outcomes of the duplication. -/
theorem save_fd_cases (env : Env) (fd : Int) (s : State) (stack : List savefd_T) :
    (s.fds fd = none →
      save_fd env fd s (some stack) =
        ({ s with errno := EBADF },
         some ({ sf_origfd := fd, sf_copyfd := -1,
                 sf_stdin_redirected := s.is_stdin_redirected } :: stack))) ∧
    (∀ e c, s.fds fd = some e → 0 ≤ s.shellfdmin → s.shellfdmin < s.openMax →
      lowestFree s s.shellfdmin = some c →
      save_fd env fd s (some stack) =
        (add_shellfd env c (setFd s c (some { ofd := e.ofd, cloexec := true })),
         some ({ sf_origfd := fd, sf_copyfd := c,
                 sf_stdin_redirected := s.is_stdin_redirected } :: stack))) ∧
    (∀ e, s.fds fd = some e →
      (s.shellfdmin < 0 ∨ s.openMax ≤ s.shellfdmin ∨ lowestFree s s.shellfdmin = none) →
      ∃ err, save_fd env fd s (some stack) =
        (xerror (Diag.cannot_save fd) { s with errno := err }, some stack)) := by
  refine ⟨?_, ?_, ?_⟩
  · intro h
    simp [save_fd, copy_as_shellfd_closed env h]
  · intro e c h h0 h1 hc
    have hc0 : ¬ c < 0 := by have := (lowestFree_some hc).1; omega
    have hst : (add_shellfd env c (setFd s c (some { ofd := e.ofd, cloexec := true }))).is_stdin_redirected
        = s.is_stdin_redirected := (add_shellfd_frame env c _).1
    simp [save_fd, copy_as_shellfd_ok env h h0 h1 hc, hc0, hst]
  · intro e h hbad
    obtain ⟨err, herr, hcp⟩ := copy_as_shellfd_fail env h hbad
    exact ⟨err, by simp [save_fd, hcp, herr]⟩

/-- C7 (as amended): `save_fd` on a non-null stack prepends exactly one entry
holding `fd`, the saved copy and the current `is_stdin_redirected`, and
keeps the older entries behind it: the copy is -1 when `fd` is not open, and
otherwise the lowest closed descriptor `>= shellfdmin`, which becomes a
close-on-exec duplicate of `fd` and a registered shell FD. When `fd` is open
and no such descriptor can be had, the stack stays as it is and the
failure is reported. -/
theorem save_fd_prepends_unless_dup_fails (env : Env) (fd : Int) (s : State)
    (stack : List savefd_T) :
    (s.fds fd = none →
      (save_fd env fd s (some stack)).2 =
        some ({ sf_origfd := fd, sf_copyfd := -1,
                sf_stdin_redirected := s.is_stdin_redirected } :: stack) ∧
      (save_fd env fd s (some stack)).1.fds = s.fds) ∧
    (∀ e c, s.fds fd = some e → 0 ≤ s.shellfdmin → s.shellfdmin < s.openMax →
      lowestFree s s.shellfdmin = some c →
      (save_fd env fd s (some stack)).2 =
        some ({ sf_origfd := fd, sf_copyfd := c,
                sf_stdin_redirected := s.is_stdin_redirected } :: stack) ∧
      s.fds c = none ∧ s.shellfdmin ≤ c ∧
      (save_fd env fd s (some stack)).1.fds =
        upd s.fds c (some { ofd := e.ofd, cloexec := true }) ∧
      is_shellfd env c (save_fd env fd s (some stack)).1 = true) ∧
    (∀ e, s.fds fd = some e →
      (s.shellfdmin < 0 ∨ s.openMax ≤ s.shellfdmin ∨ lowestFree s s.shellfdmin = none) →
      (save_fd env fd s (some stack)).2 = some stack ∧
      (save_fd env fd s (some stack)).1.fds = s.fds ∧
      (save_fd env fd s (some stack)).1.diag = s.diag ++ [Diag.cannot_save fd]) := by
  obtain ⟨h1, h2, h3⟩ := save_fd_cases env fd s stack
  refine ⟨?_, ?_, ?_⟩
  · intro h
    rw [h1 h]
    exact ⟨rfl, rfl⟩
  · intro e c h ha hb hc
    rw [h2 e c h ha hb hc]
    obtain ⟨l1, _, l3, _⟩ := lowestFree_some hc
    refine ⟨rfl, l3, l1, ?_, ?_⟩
    · simp only [add_shellfd_fds]; rfl
    · exact is_shellfd_add_shellfd_self env c _ (by omega)
  · intro e h hbad
    obtain ⟨err, he⟩ := h3 e h hbad
    rw [he]
    exact ⟨rfl, rfl, rfl⟩

/-- C7, counterexample: with descriptors 10 and 11 in use and a limit of 12
there is no descriptor `>= shellfdmin` left, and `save_fd` of the open
descriptor 1 leaves the empty stack empty instead of prepending an entry. -/
theorem save_fd_no_entry_when_no_descriptor_left :
    (0 : Int) ≤ 1 ∧ ¬ ∃ entry, (save_fd envLinux 1 stateNoRoom (some [])).2 = some [entry] := by
  refine ⟨by decide, ?_⟩
  rintro ⟨entry, h⟩
  have h2 : (save_fd envLinux 1 stateNoRoom (some [])).2 = some [] := by decide
  rw [h2] at h
  simp at h

/-! ## `open_redirections`: the loop -/

theorem open_redirections_loop_append (env : Env) :
    ∀ (pre post : List redir_T) (s : State) (save : Option (List savefd_T)),
      open_redirections_loop env (pre ++ post) s save =
        if (open_redirections_loop env pre s save).1 = true then
          open_redirections_loop env post (open_redirections_loop env pre s save).2.1
            (open_redirections_loop env pre s save).2.2
        else open_redirections_loop env pre s save := by
  intro pre
  induction pre with
  | nil => intro post s save; simp [open_redirections_loop]
  | cons r rest ih =>
    intro post s save
    simp only [List.cons_append, open_redirections_loop]
    by_cases h : (open_redirection env r s save).1 = true
    · simp only [h, if_true]
      exact ih post _ _
    · simp [h]

/-- C3: when the specs before `r` all succeed and the target of `r` is
negative or a shell FD at that point, `open_redirections` returns false with
the state and the save stack exactly as the earlier specs left them, apart
from the message: nothing is saved, opened, duplicated or closed for `r`,
and nothing after `r` is processed. When `r` is the first spec, the save
stack is empty and the descriptor table and `is_stdin_redirected` are
unchanged. -/
theorem open_redirections_unavailable_target (env : Env) (pre post : List redir_T)
    (r : redir_T) (s : State) (save : Option (List savefd_T))
    (hpre : (open_redirections env pre s save).1 = true)
    (hbad : r.rd_fd < 0 ∨ is_shellfd env r.rd_fd (open_redirections env pre s save).2.1 = true) :
    open_redirections env (pre ++ r :: post) s save =
      (false, xerror (Diag.fd_unavailable r.rd_fd) (open_redirections env pre s save).2.1,
       (open_redirections env pre s save).2.2) ∧
    (pre = [] →
      (open_redirections env (pre ++ r :: post) s save).2.2 = save.map (fun _ => []) ∧
      (open_redirections env (pre ++ r :: post) s save).2.1.fds = s.fds ∧
      (open_redirections env (pre ++ r :: post) s save).2.1.is_stdin_redirected =
        s.is_stdin_redirected) := by
  have key : open_redirections env (pre ++ r :: post) s save =
      (false, xerror (Diag.fd_unavailable r.rd_fd) (open_redirections env pre s save).2.1,
       (open_redirections env pre s save).2.2) := by
    unfold open_redirections at hpre hbad ⊢
    rw [open_redirections_loop_append]
    simp only [hpre, if_true, open_redirections_loop]
    have : open_redirection env r (open_redirections_loop env pre s (save.map (fun _ => []))).2.1
        (open_redirections_loop env pre s (save.map (fun _ => []))).2.2 =
        (false, xerror (Diag.fd_unavailable r.rd_fd)
          (open_redirections_loop env pre s (save.map (fun _ => []))).2.1,
          (open_redirections_loop env pre s (save.map (fun _ => []))).2.2) := by
      unfold open_redirection
      simp only [hbad, if_true]
    rw [this]
    simp
  refine ⟨key, ?_⟩
  intro hnil
  rw [key]
  subst hnil
  exact ⟨rfl, rfl, rfl⟩

theorem open_redirections_unavailable_target_witness :
    ((open_redirections envLinux [mkRedir redirtype_T.RT_OUTPUT 1 "out"]
        (stateStart 1024) (some [])).1 = true ∧
     ((mkRedir redirtype_T.RT_INPUT 10 "in").rd_fd < 0 ∨
       is_shellfd envLinux (mkRedir redirtype_T.RT_INPUT 10 "in").rd_fd
        (open_redirections envLinux [mkRedir redirtype_T.RT_OUTPUT 1 "out"]
          (stateStart 1024) (some [])).2.1 = true)) ∧
    (open_redirections envLinux
      ([mkRedir redirtype_T.RT_OUTPUT 1 "out"] ++
        mkRedir redirtype_T.RT_INPUT 10 "in" :: [mkRedir redirtype_T.RT_APPEND 2 "log"])
      (stateStart 1024) (some [])).1 = false :=
  ⟨⟨by decide, Or.inr (by decide)⟩,
   congrArg Prod.fst
     (open_redirections_unavailable_target envLinux [mkRedir redirtype_T.RT_OUTPUT 1 "out"]
       [mkRedir redirtype_T.RT_APPEND 2 "log"] (mkRedir redirtype_T.RT_INPUT 10 "in")
       (stateStart 1024) (some []) (by decide) (Or.inr (by decide))).1⟩

/-! ## Parsing the duplication text -/

theorem xisxdigit_head {num : List Char} (hx : xisxdigit num.head? = true) :
    ∃ c cs, num = c :: cs ∧ isspace c = false ∧ c.toNat ≠ 45 ∧ c.toNat ≠ 43 := by
  cases num with
  | nil => simp [xisxdigit] at hx
  | cons c cs =>
    refine ⟨c, cs, rfl, ?_⟩
    simp only [List.head?_cons, xisxdigit, Bool.or_eq_true, Bool.and_eq_true,
      decide_eq_true_eq] at hx
    refine ⟨?_, ?_, ?_⟩
    · simp only [isspace, Bool.or_eq_false_iff, decide_eq_false_iff_not, Bool.and_eq_false_iff]
      omega
    · omega
    · omega

theorem strtol_xdigit {num : List Char} (hx : xisxdigit num.head? = true) :
    strtol num =
      if num.takeWhile isdigit = [] then (0, num, 0)
      else if (digitsVal (num.takeWhile isdigit) : Int) > LONG_MAX then
        (LONG_MAX, num.dropWhile isdigit, ERANGE)
      else ((digitsVal (num.takeWhile isdigit) : Int), num.dropWhile isdigit, 0) := by
  obtain ⟨c, cs, rfl, h1, h2, h3⟩ := xisxdigit_head hx
  have hd : (c :: cs).dropWhile isspace = c :: cs := by
    simp [List.dropWhile, h1]
  unfold strtol
  simp only [hd, List.head?_cons, Option.map_some', Option.some.injEq, h2, h3, or_self,
    if_false, decide_False, Bool.false_eq_true]
  by_cases he : List.takeWhile isdigit (c :: cs) = []
  · simp only [he, if_true]
  · simp only [he, if_false]
    have : ¬ ((digitsVal (List.takeWhile isdigit (c :: cs)) : Int) < LONG_MIN) := by
      have : (0 : Int) ≤ (digitsVal (List.takeWhile isdigit (c :: cs)) : Int) :=
        Int.ofNat_nonneg _
      simp only [LONG_MIN]; omega
    simp only [this, if_false]

theorem isDecimal_iff {num : List Char} :
    isDecimal num = true ↔ num ≠ [] ∧ ∀ x ∈ num, isdigit x = true := by
  simp [isDecimal]

theorem xisxdigit_of_isDecimal {num : List Char} (h : isDecimal num = true) :
    xisxdigit num.head? = true := by
  obtain ⟨hne, hall⟩ := isDecimal_iff.mp h
  cases num with
  | nil => exact absurd rfl hne
  | cons c cs =>
    have := hall c (List.mem_cons_self _ _)
    simp only [isdigit, Bool.and_eq_true, decide_eq_true_eq] at this
    simp [xisxdigit, this]

theorem xstrtoi_decimal {num : List Char} (h1 : isDecimal num = true)
    (h2 : (digitsVal num : Int) ≤ INT_MAX) : xstrtoi num = (true, (digitsVal num : Int), 0) := by
  have hx := xisxdigit_of_isDecimal h1
  obtain ⟨hne, hall⟩ := isDecimal_iff.mp h1
  have ht : num.takeWhile isdigit = num := List.takeWhile_eq_self_iff.mpr hall
  have hdr : num.dropWhile isdigit = [] := List.dropWhile_eq_nil_iff.mpr hall
  unfold xstrtoi
  rw [strtol_xdigit hx, ht, hdr]
  have hl : ¬ ((digitsVal num : Int) > LONG_MAX) := by
    simp only [INT_MAX] at h2; simp only [LONG_MAX]; omega
  have h0 : (0 : Int) ≤ (digitsVal num : Int) := Int.ofNat_nonneg _
  have hi : ¬ ((digitsVal num : Int) < INT_MIN ∨ (digitsVal num : Int) > INT_MAX) := by
    simp only [INT_MIN]; omega
  simp [hne, hl, hi]

theorem xstrtoi_not_decimal {num : List Char} (hx : xisxdigit num.head? = true)
    (h : ¬ (isDecimal num = true ∧ (digitsVal num : Int) ≤ INT_MAX)) :
    (xstrtoi num).2.2 ≠ 0 := by
  obtain ⟨c, cs, hnum, _, _, _⟩ := xisxdigit_head hx
  have hne : num ≠ [] := by rw [hnum]; simp
  unfold xstrtoi
  rw [strtol_xdigit hx]
  simp only [hne, if_false]
  by_cases he : num.takeWhile isdigit = []
  · simp [he, hne]
  · simp only [he, if_false]
    by_cases hl : (digitsVal (num.takeWhile isdigit) : Int) > LONG_MAX
    · simp [hl]
    · simp only [hl, if_false]
      by_cases hr : num.dropWhile isdigit = []
      · have hall := List.dropWhile_eq_nil_iff.mp hr
        have ht : num.takeWhile isdigit = num := List.takeWhile_eq_self_iff.mpr hall
        have hdec : isDecimal num = true := isDecimal_iff.mpr ⟨hne, hall⟩
        have hbig : ¬ (digitsVal num : Int) ≤ INT_MAX := fun hc => h ⟨hdec, hc⟩
        rw [ht]
        have h0 : (0 : Int) ≤ (digitsVal num : Int) := Int.ofNat_nonneg _
        have hi : ((digitsVal num : Int) < INT_MIN ∨ (digitsVal num : Int) > INT_MAX) := by
          right; omega
        simp [hr, hi]
      · simp [hr]

/-- `xstrtoi` stores no negative value when the text starts with a
hexadecimal digit. -/
theorem xstrtoi_nonneg {num : List Char} (hx : xisxdigit num.head? = true) :
    0 ≤ (xstrtoi num).2.1 := by
  unfold xstrtoi
  rw [strtol_xdigit hx]
  have h0 : (0 : Int) ≤ (digitsVal (num.takeWhile isdigit) : Int) := Int.ofNat_nonneg _
  by_cases h1 : num = []
  · simp [h1]
  · by_cases he : num.takeWhile isdigit = []
    · simp [h1, he]
    · by_cases hl : (digitsVal (num.takeWhile isdigit) : Int) > LONG_MAX
      · simp [h1, he, hl]
      · simp only [h1, he, hl, if_false]
        split_ifs
        all_goals first | exact h0 | simp

theorem parse_fd_number_decimal {num : List Char} (s : State) (h1 : isDecimal num = true)
    (h2 : (digitsVal num : Int) ≤ INT_MAX) :
    parse_fd_number num s = ((digitsVal num : Int), { s with errno := 0 }) := by
  have h0 : ¬ ((digitsVal num : Int) < 0) := by
    have : (0 : Int) ≤ (digitsVal num : Int) := Int.ofNat_nonneg _
    omega
  simp [parse_fd_number, xisxdigit_of_isDecimal h1, xstrtoi_decimal h1 h2, h0]

theorem parse_fd_number_other {num : List Char} (s : State)
    (h : ¬ (isDecimal num = true ∧ (digitsVal num : Int) ≤ INT_MAX)) :
    (parse_fd_number num s).2.errno ≠ 0 := by
  unfold parse_fd_number
  by_cases hx : xisxdigit num.head? = true
  · have hn := xstrtoi_nonneg hx
    have hlt : ¬ ((xstrtoi num).2.1 < 0) := by omega
    simp only [hx, Bool.true_eq_false, if_false, hlt, and_false]
    exact xstrtoi_not_decimal hx h
  · simp [hx]

theorem parse_fd_number_state (num : List Char) (s : State) :
    ∃ err, (parse_fd_number num s).2 = { s with errno := err } := by
  simp only [parse_fd_number]
  split_ifs
  · exact ⟨_, rfl⟩
  · exact ⟨_, rfl⟩
  · exact ⟨_, rfl⟩

theorem parse_fd_number_ok {num : List Char} {s : State}
    (h : (parse_fd_number num s).2.errno = 0) :
    isDecimal num = true ∧ (digitsVal num : Int) ≤ INT_MAX ∧
      parse_fd_number num s = ((digitsVal num : Int), { s with errno := 0 }) := by
  by_cases hd : isDecimal num = true ∧ (digitsVal num : Int) ≤ INT_MAX
  · exact ⟨hd.1, hd.2, parse_fd_number_decimal s hd.1 hd.2⟩
  · exact absurd h (parse_fd_number_other s hd)

theorem is_shellfd_errno (env : Env) (fd : Int) (s : State) (err : Nat) :
    is_shellfd env fd { s with errno := err } = is_shellfd env fd s := rfl

/-- The result of `parse_and_check_dup` on a text that parses to `n`. -/
theorem parse_and_check_dup_number (env : Env) {num : List Char} (type : redirtype_T)
    (s : State) (hnum : num ≠ "-".toList) (h1 : isDecimal num = true)
    (h2 : (digitsVal num : Int) ≤ INT_MAX) :
    (parse_and_check_dup env num type s).1 =
      if is_shellfd env (digitsVal num) s = true then -2
      else if env.posixly_correct = true then
        (if accessOk type (s.fds (digitsVal num)) = true then (digitsVal num : Int) else -2)
      else (digitsVal num : Int) := by
  unfold parse_and_check_dup
  simp only [hnum, if_false, parse_fd_number_decimal s h1 h2, ne_eq, not_true_eq_false,
    is_shellfd_errno]
  by_cases hs : is_shellfd env (digitsVal num) s = true
  · simp [hs]
  · simp only [hs, if_false, Bool.false_eq_true]
    by_cases hp : env.posixly_correct = true
    · simp only [hp, if_true, sys_fcntl_getfl]
      cases hf : s.fds (digitsVal num : Int) with
      | none => simp [accessOk]
      | some e =>
        obtain ⟨⟨id, obj, acc⟩, ce⟩ := e
        simp only [accessOk]
        by_cases ht : type = redirtype_T.RT_DUPIN
        · cases acc <;> simp [ht]
        · cases acc <;> simp [ht]
    · simp [hp]

theorem parse_and_check_dup_bad (env : Env) {num : List Char} (type : redirtype_T)
    (s : State) (hnum : num ≠ "-".toList)
    (h : ¬ (isDecimal num = true ∧ (digitsVal num : Int) ≤ INT_MAX)) :
    (parse_and_check_dup env num type s).1 = -2 := by
  have hnum2 : ¬ num = ['-'] := hnum
  have he := parse_fd_number_other s h
  simp only [parse_and_check_dup]
  simp [hnum2, he]

theorem sys_fcntl_getfl_cases (fd : Int) (t : State) :
    sys_fcntl_getfl fd t = (none, { t with errno := EBADF }) ∨
      ∃ acc, sys_fcntl_getfl fd t = (some acc, t) := by
  unfold sys_fcntl_getfl
  cases t.fds fd with
  | none => exact Or.inl rfl
  | some e => exact Or.inr ⟨_, rfl⟩

theorem parse_and_check_dup_fds (env : Env) (num : List Char) (type : redirtype_T)
    (s : State) :
    (parse_and_check_dup env num type s).2.fds = s.fds ∧
      KStep s (parse_and_check_dup env num type s).2 := by
  obtain ⟨err, he⟩ := parse_fd_number_state num s
  have hk : KStep s (parse_fd_number num s).2 := by
    rw [he]; exact kstep_of_eq rfl rfl rfl rfl rfl rfl rfl rfl
  have hf : (parse_fd_number num s).2.fds = s.fds := by rw [he]
  have hx : ∀ (d : Diag) (t : State), isCannotSave d = false →
      ((t.fds = s.fds ∧ KStep s t) → ((xerror d t).fds = s.fds ∧ KStep s (xerror d t))) := by
    intro d t hd ht
    exact ⟨ht.1, KStep.trans ht.2 (kstep_xerror d hd t)⟩
  have hbad : ({ (parse_fd_number num s).2 with errno := EBADF } : State).fds = s.fds ∧
      KStep s { (parse_fd_number num s).2 with errno := EBADF } :=
    ⟨hf, KStep.trans hk (kstep_of_eq rfl rfl rfl rfl rfl rfl rfl rfl)⟩
  simp only [parse_and_check_dup]
  by_cases h1 : num = "-".toList
  · rw [if_pos h1]; exact ⟨rfl, KStep.refl s⟩
  · rw [if_neg h1]
    by_cases h2 : (parse_fd_number num s).2.errno ≠ 0
    · rw [if_pos h2]; exact hx _ _ (by rfl) ⟨hf, hk⟩
    · rw [if_neg h2]
      by_cases h3 : is_shellfd env (parse_fd_number num s).1 (parse_fd_number num s).2 = true
      · rw [if_pos h3]; exact hx _ _ (by rfl) ⟨hf, hk⟩
      · rw [if_neg h3]
        by_cases h4 : env.posixly_correct = true
        · rw [if_pos h4]
          rcases sys_fcntl_getfl_cases (parse_fd_number num s).1 (parse_fd_number num s).2
            with hg | ⟨acc, hg⟩
          · rw [hg]; exact hx _ _ (by rfl) hbad
          · rw [hg]
            by_cases h5 : type = redirtype_T.RT_DUPIN
            · cases acc <;> simp only [h5, if_true]
              · exact ⟨hf, hk⟩
              · exact hx _ _ (by rfl) ⟨hf, hk⟩
              · exact ⟨hf, hk⟩
              · exact hx _ _ (by rfl) ⟨hf, hk⟩
            · cases acc <;> simp only [h5, if_false]
              · exact hx _ _ (by rfl) ⟨hf, hk⟩
              · exact ⟨hf, hk⟩
              · exact ⟨hf, hk⟩
              · exact hx _ _ (by rfl) ⟨hf, hk⟩
        · rw [if_neg h4]; exact ⟨hf, hk⟩

theorem open_redirection_finish_fst (r : redir_T) (s : State) (save : Option (List savefd_T)) :
    (open_redirection_finish r s save).1 = true := rfl

theorem open_redirection_finish_fds (r : redir_T) (s : State) (save : Option (List savefd_T)) :
    (open_redirection_finish r s save).2.1.fds = s.fds := by
  unfold open_redirection_finish
  split <;> rfl

/-- One iteration of `open_redirections` on a duplication whose word expands
to `num`. -/
theorem open_redirection_dup (env : Env) (r : redir_T) (s : State)
    (save : Option (List savefd_T)) (num : List Char)
    (htype : r.rd_type = redirtype_T.RT_DUPIN ∨ r.rd_type = redirtype_T.RT_DUPOUT)
    (hfd : ¬ (r.rd_fd < 0 ∨ is_shellfd env r.rd_fd s = true))
    (hexp : (expand_redir_filename env r.rd_filename s).1 = some num) :
    open_redirection env r s save =
      if (parse_and_check_dup env num r.rd_type
            (save_fd env r.rd_fd (expand_redir_filename env r.rd_filename s).2 save).1).1 < -1
      then (false,
            (parse_and_check_dup env num r.rd_type
              (save_fd env r.rd_fd (expand_redir_filename env r.rd_filename s).2 save).1).2,
            (save_fd env r.rd_fd (expand_redir_filename env r.rd_filename s).2 save).2)
      else open_redirection_move r
            (parse_and_check_dup env num r.rd_type
              (save_fd env r.rd_fd (expand_redir_filename env r.rd_filename s).2 save).1).1 true
            (parse_and_check_dup env num r.rd_type
              (save_fd env r.rd_fd (expand_redir_filename env r.rd_filename s).2 save).1).2
            (save_fd env r.rd_fd (expand_redir_filename env r.rd_filename s).2 save).2 := by
  have hex : expands_filename r.rd_type = true := by
    rcases htype with h | h <;> rw [h] <;> rfl
  simp only [open_redirection]
  rw [if_neg hfd, if_pos hex, hexp]
  simp only [open_redirection_open]
  rcases htype with h | h
  · simp only [open_redirection_fd, h]
    split_ifs <;> rfl
  · simp only [open_redirection_fd, h]
    split_ifs <;> rfl

theorem accessOk_iff (type : redirtype_T) (o : Option FdEntry)
    (htype : type = redirtype_T.RT_DUPIN ∨ type = redirtype_T.RT_DUPOUT) :
    accessOk type o = true ↔
      ∃ e, o = some e ∧
        ((type = redirtype_T.RT_DUPIN ∧
            (e.ofd.acc = AccMode.O_RDONLY ∨ e.ofd.acc = AccMode.O_RDWR)) ∨
         (type = redirtype_T.RT_DUPOUT ∧
            (e.ofd.acc = AccMode.O_WRONLY ∨ e.ofd.acc = AccMode.O_RDWR))) := by
  cases o with
  | none => simp [accessOk]
  | some e =>
    rcases htype with h | h <;> subst h <;> simp [accessOk]

/-- C8: outside strict mode, `parse_and_check_dup` gives -1 on the text `-`,
the value `n` on a base-ten non-negative integer that fits in `int` and is
not a shell FD, and -2 on every other text; its result is -1, -2 or a
non-negative descriptor that is not a shell FD. In `open_redirections` a
result of -1 closes the target and the iteration succeeds, and a result
below -1 makes the call return false. -/
theorem parse_and_check_dup_result (env : Env) (hposix : env.posixly_correct = false)
    (num : List Char) (type : redirtype_T) (s : State) :
    (num = "-".toList → (parse_and_check_dup env num type s).1 = -1) ∧
    (isDecimal num = true → (digitsVal num : Int) ≤ INT_MAX →
      is_shellfd env (digitsVal num) s = false →
      (parse_and_check_dup env num type s).1 = (digitsVal num : Int)) ∧
    (num ≠ "-".toList →
      ¬ (isDecimal num = true ∧ (digitsVal num : Int) ≤ INT_MAX ∧
          is_shellfd env (digitsVal num) s = false) →
      (parse_and_check_dup env num type s).1 = -2) ∧
    ((parse_and_check_dup env num type s).1 = -1 ∨
      (parse_and_check_dup env num type s).1 = -2 ∨
      (0 ≤ (parse_and_check_dup env num type s).1 ∧
        is_shellfd env (parse_and_check_dup env num type s).1 s = false)) ∧
    (∀ (r : redir_T) (s0 : State) (save : Option (List savefd_T)),
      (r.rd_type = redirtype_T.RT_DUPIN ∨ r.rd_type = redirtype_T.RT_DUPOUT) →
      0 ≤ r.rd_fd → is_shellfd env r.rd_fd s0 = false →
      (expand_redir_filename env r.rd_filename s0).1 = some num →
      ((parse_and_check_dup env num r.rd_type
          (save_fd env r.rd_fd (expand_redir_filename env r.rd_filename s0).2 save).1).1 = -1 →
        (open_redirection env r s0 save).1 = true ∧
        (open_redirection env r s0 save).2.1.fds r.rd_fd = none) ∧
      ((parse_and_check_dup env num r.rd_type
          (save_fd env r.rd_fd (expand_redir_filename env r.rd_filename s0).2 save).1).1 < -1 →
        (open_redirection env r s0 save).1 = false)) := by
  have hdash : num = "-".toList → (parse_and_check_dup env num type s).1 = -1 := by
    intro h; simp only [parse_and_check_dup]; rw [if_pos h]
  have hnumber : isDecimal num = true → (digitsVal num : Int) ≤ INT_MAX →
      is_shellfd env (digitsVal num) s = false →
      (parse_and_check_dup env num type s).1 = (digitsVal num : Int) := by
    intro h1 h2 h3
    have hne : num ≠ "-".toList := by
      intro hc; rw [hc] at h1; revert h1; decide
    rw [parse_and_check_dup_number env type s hne h1 h2]
    simp [h3, hposix]
  have hother : num ≠ "-".toList →
      ¬ (isDecimal num = true ∧ (digitsVal num : Int) ≤ INT_MAX ∧
          is_shellfd env (digitsVal num) s = false) →
      (parse_and_check_dup env num type s).1 = -2 := by
    intro hne h
    by_cases hd : isDecimal num = true ∧ (digitsVal num : Int) ≤ INT_MAX
    · rw [parse_and_check_dup_number env type s hne hd.1 hd.2]
      have hs : is_shellfd env (digitsVal num) s = true := by
        by_contra hc
        exact h ⟨hd.1, hd.2, by simpa using hc⟩
      simp [hs]
    · exact parse_and_check_dup_bad env type s hne hd
  refine ⟨hdash, hnumber, hother, ?_, ?_⟩
  · by_cases h1 : num = "-".toList
    · exact Or.inl (hdash h1)
    · by_cases h2 : isDecimal num = true ∧ (digitsVal num : Int) ≤ INT_MAX ∧
          is_shellfd env (digitsVal num) s = false
      · right; right
        rw [hnumber h2.1 h2.2.1 h2.2.2]
        exact ⟨Int.ofNat_nonneg _, h2.2.2⟩
      · exact Or.inr (Or.inl (hother h1 h2))
  · intro r s0 save htype h0 hsh hexp
    have hfd : ¬ (r.rd_fd < 0 ∨ is_shellfd env r.rd_fd s0 = true) := by
      rw [hsh]; simp; omega
    rw [open_redirection_dup env r s0 save num htype hfd hexp]
    constructor
    · intro h
      have hlt : ¬ ((-1 : Int) < -1) := by decide
      rw [h, if_neg hlt]
      have hne : (-1 : Int) ≠ r.rd_fd := by omega
      have hneg : ¬ ((-1 : Int) ≥ 0) := by decide
      simp only [open_redirection_move]
      rw [if_pos hne, if_neg hneg]
      refine ⟨rfl, ?_⟩
      rw [open_redirection_finish_fds, xclose_fds]
      simp [upd]
    · intro h
      rw [if_pos h]

theorem parse_and_check_dup_result_witness :
    (envLinux.posixly_correct = false ∧ isDecimal "7".toList = true ∧
      (digitsVal "7".toList : Int) ≤ INT_MAX ∧
      is_shellfd envLinux (digitsVal "7".toList) (stateStart 1024) = false) ∧
    (parse_and_check_dup envLinux "7".toList redirtype_T.RT_DUPOUT (stateStart 1024)).1 =
      (digitsVal "7".toList : Int) :=
  ⟨⟨rfl, by decide, by decide, by decide⟩,
   (parse_and_check_dup_result envLinux rfl "7".toList redirtype_T.RT_DUPOUT
      (stateStart 1024)).2.1 (by decide) (by decide) (by decide)⟩

/-- C9: for a duplication text that parses to a descriptor `n` that is not a
shell FD, `parse_and_check_dup` in strict mode returns `n` exactly when `n`
is open with access mode read-only or read-write for `RT_DUPIN`, write-only
or read-write for `RT_DUPOUT`, and -2 otherwise; outside strict mode it
returns `n` whatever `n` refers to, open or not. -/
theorem parse_and_check_dup_strict_mode (env : Env) (num : List Char) (type : redirtype_T)
    (s : State) (n : Int)
    (htype : type = redirtype_T.RT_DUPIN ∨ type = redirtype_T.RT_DUPOUT)
    (hnum : num ≠ "-".toList) (herr : (parse_fd_number num s).2.errno = 0)
    (hn : (parse_fd_number num s).1 = n) (hsh : is_shellfd env n s = false) :
    0 ≤ n ∧
    (env.posixly_correct = true →
      (parse_and_check_dup env num type s).1 =
        if accessOk type (s.fds n) = true then n else -2) ∧
    (env.posixly_correct = true →
      ((parse_and_check_dup env num type s).1 = n ↔
        ∃ e, s.fds n = some e ∧
          ((type = redirtype_T.RT_DUPIN ∧
              (e.ofd.acc = AccMode.O_RDONLY ∨ e.ofd.acc = AccMode.O_RDWR)) ∨
           (type = redirtype_T.RT_DUPOUT ∧
              (e.ofd.acc = AccMode.O_WRONLY ∨ e.ofd.acc = AccMode.O_RDWR))))) ∧
    (env.posixly_correct = false → (parse_and_check_dup env num type s).1 = n) := by
  obtain ⟨h1, h2, h3⟩ := parse_fd_number_ok herr
  have hv : (digitsVal num : Int) = n := by rw [← hn, h3]
  have h0 : 0 ≤ n := by rw [← hv]; exact Int.ofNat_nonneg _
  have hres := parse_and_check_dup_number env type s hnum h1 h2
  rw [hv] at hres
  have hs : ¬ is_shellfd env n s = true := by rw [hsh]; simp
  rw [if_neg hs] at hres
  have hstrict : env.posixly_correct = true →
      (parse_and_check_dup env num type s).1 =
        if accessOk type (s.fds n) = true then n else -2 := by
    intro hp; rw [hres, if_pos hp]
  refine ⟨h0, hstrict, ?_, ?_⟩
  · intro hp
    rw [hstrict hp, ← accessOk_iff type (s.fds n) htype]
    by_cases ha : accessOk type (s.fds n) = true
    · simp [ha]
    · simp only [ha, if_false, Bool.false_eq_true, iff_false]
      omega
  · intro hp
    have : ¬ env.posixly_correct = true := by rw [hp]; simp
    rw [hres, if_neg this]

theorem parse_and_check_dup_strict_mode_witness :
    ((redirtype_T.RT_DUPOUT = redirtype_T.RT_DUPIN ∨
        redirtype_T.RT_DUPOUT = redirtype_T.RT_DUPOUT) ∧
      "5".toList ≠ "-".toList ∧
      (parse_fd_number "5".toList stateFiveReadOnly).2.errno = 0 ∧
      (parse_fd_number "5".toList stateFiveReadOnly).1 = 5 ∧
      is_shellfd envPosix 5 stateFiveReadOnly = false) ∧
    (parse_and_check_dup envPosix "5".toList redirtype_T.RT_DUPOUT stateFiveReadOnly).1 = -2 :=
  ⟨⟨Or.inr rfl, by decide, by decide, by decide, by decide⟩,
   ((parse_and_check_dup_strict_mode envPosix "5".toList redirtype_T.RT_DUPOUT
      stateFiveReadOnly 5 (Or.inr rfl) (by decide) (by decide) (by decide)
      (by decide)).2.1 rfl).trans (by decide)⟩

/-! ## Pipes -/

theorem bumpTick_fds (s : State) (n : Nat) : (bumpTick s n).fds = s.fds := rfl

theorem sys_pipe_cases (env : Env) (t : State) :
    ((sys_pipe env t).1 = -1 ∧ (sys_pipe env t).2.2.2.fds = t.fds ∧
      KStep t (sys_pipe env t).2.2.2) ∨
    ∃ r w, lowestFree t 0 = some r ∧
      lowestFree (setFd t r (some (freshEntry t.tick Obj.pipe_in AccMode.O_RDONLY))) 0 = some w ∧
      sys_pipe env t = (0, r, w,
        bumpTick (setFd (setFd t r (some (freshEntry t.tick Obj.pipe_in AccMode.O_RDONLY))) w
          (some (freshEntry t.tick Obj.pipe_out AccMode.O_WRONLY))) t.tick) := by
  unfold sys_pipe
  by_cases hok : env.pipe_ok t.tick = true
  · rw [if_pos hok]
    cases hr : lowestFree t 0 with
    | none => left; exact ⟨rfl, rfl, kstep_of_eq rfl rfl rfl rfl rfl rfl rfl rfl⟩
    | some r =>
      simp only []
      cases hw : lowestFree (setFd t r (some (freshEntry t.tick Obj.pipe_in AccMode.O_RDONLY))) 0 with
      | none => left; exact ⟨rfl, rfl, kstep_of_eq rfl rfl rfl rfl rfl rfl rfl rfl⟩
      | some w => right; exact ⟨r, w, rfl, hw, rfl⟩
  · rw [if_neg hok]
    left; exact ⟨rfl, rfl, kstep_of_eq rfl rfl rfl rfl rfl rfl rfl rfl⟩

theorem sys_dup_cases (fd : Int) (t : State) :
    ((sys_dup fd t).1 = -1 ∧ (sys_dup fd t).2.fds = t.fds ∧ KStep t (sys_dup fd t).2) ∨
    ∃ e c, t.fds fd = some e ∧ lowestFree t 0 = some c ∧
      sys_dup fd t = (c, setFd t c (some { ofd := e.ofd, cloexec := false })) := by
  unfold sys_dup
  cases he : t.fds fd with
  | none => left; exact ⟨rfl, rfl, kstep_of_eq rfl rfl rfl rfl rfl rfl rfl rfl⟩
  | some e =>
    simp only []
    cases hc : lowestFree t 0 with
    | none => left; exact ⟨rfl, rfl, kstep_of_eq rfl rfl rfl rfl rfl rfl rfl rfl⟩
    | some c => right; exact ⟨e, c, rfl, rfl, rfl⟩

theorem save_fd_none (env : Env) (fd : Int) (s : State) : save_fd env fd s none = (s, none) := rfl

/-- What `save_fd` can do to the table: nothing, or one new close-on-exec
duplicate on a descriptor that was closed. -/
theorem save_fd_table (env : Env) (fd : Int) (s : State) (save : Option (List savefd_T)) :
    (save_fd env fd s save).1.tick = s.tick ∧
    (save_fd env fd s save).1.openMax = s.openMax ∧
    ((save_fd env fd s save).1.fds = s.fds ∨
      ∃ e c, s.fds fd = some e ∧ s.fds c = none ∧ 0 ≤ c ∧ c < s.openMax ∧
        (save_fd env fd s save).1.fds = upd s.fds c (some { ofd := e.ofd, cloexec := true })) := by
  cases save with
  | none => exact ⟨rfl, rfl, Or.inl rfl⟩
  | some stack =>
    obtain ⟨h1, h2, h3⟩ := save_fd_cases env fd s stack
    cases he : s.fds fd with
    | none => rw [h1 he]; exact ⟨rfl, rfl, Or.inl rfl⟩
    | some e =>
      by_cases hbad : s.shellfdmin < 0 ∨ s.openMax ≤ s.shellfdmin ∨
          lowestFree s s.shellfdmin = none
      · obtain ⟨err, h⟩ := h3 e he hbad
        rw [h]; exact ⟨rfl, rfl, Or.inl rfl⟩
      · have ha : 0 ≤ s.shellfdmin := by
          by_contra hc; exact hbad (Or.inl (by omega))
        have hb : s.shellfdmin < s.openMax := by
          by_contra hc; exact hbad (Or.inr (Or.inl (by omega)))
        obtain ⟨c, hc⟩ : ∃ c, lowestFree s s.shellfdmin = some c := by
          cases hl : lowestFree s s.shellfdmin with
          | none => exact absurd (Or.inr (Or.inr hl)) hbad
          | some c => exact ⟨c, rfl⟩
        rw [h2 e c he ha hb hc]
        obtain ⟨l1, l2, l3, _⟩ := lowestFree_some hc
        obtain ⟨f1, f2, f3, f4, f5, f6, f7⟩ := add_shellfd_frame env c
          (setFd s c (some { ofd := e.ofd, cloexec := true }))
        refine ⟨f6, f2, Or.inr ⟨e, c, rfl, l3, by omega, l2, ?_⟩⟩
        simp only [add_shellfd_fds]; rfl

theorem idsFresh_save_fd (env : Env) (fd : Int) (s : State) (save : Option (List savefd_T))
    (h : IdsFresh s) : IdsFresh (save_fd env fd s save).1 := by
  obtain ⟨ht, _, hf⟩ := save_fd_table env fd s save
  intro x e hx
  rw [ht]
  rcases hf with hf | ⟨e0, c, he0, _, _, _, hf⟩
  · rw [hf] at hx; exact h x e hx
  · rw [hf] at hx
    simp only [upd] at hx
    by_cases hxc : x = c
    · simp only [hxc, if_true, Option.some.injEq] at hx
      rw [← hx]; exact h fd e0 he0
    · simp only [hxc, if_false] at hx; exact h x e hx

theorem kstep_sys_dup (fd : Int) (t : State) : KStep t (sys_dup fd t).2 := by
  rcases sys_dup_cases fd t with ⟨_, _, h⟩ | ⟨e, c, _, hc, h⟩
  · exact h
  · rw [h]
    obtain ⟨c0, c1, _, _⟩ := lowestFree_some hc
    exact kstep_setFd_some t c _ c0 c1

theorem kstep_sys_pipe (env : Env) (t : State) : KStep t (sys_pipe env t).2.2.2 := by
  rcases sys_pipe_cases env t with ⟨_, _, h⟩ | ⟨r, w, hr, hw, h⟩
  · exact h
  · rw [h]
    obtain ⟨r0, r1, _, _⟩ := lowestFree_some hr
    obtain ⟨w0, w1, _, _⟩ := lowestFree_some hw
    exact KStep.trans (KStep.trans (kstep_setFd_some t r _ r0 r1)
      (kstep_setFd_some _ w _ w0 w1)) (kstep_bumpTick _ _)

theorem kstep_pipe_error2 (a b c d : Int) (s : State) : KStep s (pipe_error2 a b c d s).2 :=
  KStep.trans (KStep.trans (kstep_xclose c s) (kstep_xclose d _))
    (kstep_xerror (Diag.pipe_error a b) rfl _)

theorem pipe_error2_fds (a b c d : Int) (s : State) :
    (pipe_error2 a b c d s).2.fds = upd (upd s.fds c none) d none := by
  simp only [pipe_error2]
  show (xclose d (xclose c s).2).2.fds = _
  rw [xclose_fds, xclose_fds]

theorem pipe_error2_fst (a b c d : Int) (s : State) : (pipe_error2 a b c d s).1 = -2 := rfl

theorem pipe_move_output_spec (inputfd w : Int) (s : State) (e : FdEntry)
    (hw : s.fds w = some e) :
    KStep s (pipe_move_output inputfd w s).2 ∧
    (((pipe_move_output inputfd w s).1 = none ∧ (pipe_move_output inputfd w s).2.fds = s.fds ∧
        w = inputfd) ∨
     ((pipe_move_output inputfd w s).1 = some w ∧ (pipe_move_output inputfd w s).2 = s ∧
        w ≠ inputfd) ∨
     (∃ c, (pipe_move_output inputfd w s).1 = some c ∧ w = inputfd ∧
        lowestFree s 0 = some c ∧
        (pipe_move_output inputfd w s).2.fds =
          upd (upd s.fds c (some { ofd := e.ofd, cloexec := false })) w none)) := by
  simp only [pipe_move_output]
  by_cases h : w = inputfd
  · rw [if_pos h]
    rcases sys_dup_cases w s with ⟨h1, h2, h3⟩ | ⟨e', c, he', hc, hd⟩
    · have : (sys_dup w s).1 < 0 := by rw [h1]; decide
      rw [if_pos this]
      exact ⟨h3, Or.inl ⟨rfl, h2, h⟩⟩
    · have hee : e' = e := by rw [hw] at he'; exact (Option.some.inj he').symm
      subst hee
      obtain ⟨c0, c1, _, _⟩ := lowestFree_some hc
      have : ¬ (sys_dup w s).1 < 0 := by rw [hd]; simpa using c0
      rw [if_neg this]
      refine ⟨KStep.trans (kstep_sys_dup w s) (kstep_xclose _ _), Or.inr (Or.inr ⟨c, ?_, h, hc, ?_⟩)⟩
      · rw [hd]
      · simp only [xclose_fds, hd, setFd]
  · rw [if_neg h]
    exact ⟨KStep.refl s, Or.inr (Or.inl ⟨rfl, rfl, h⟩)⟩

theorem pipe_move_input_spec (outputfd inputfd pin pout : Int) (s : State) (e : FdEntry)
    (hpin : s.fds pin = some e) :
    KStep s (pipe_move_input outputfd inputfd pin pout s).2 ∧
    ((pin = inputfd ∧ pipe_move_input outputfd inputfd pin pout s = (pout, s)) ∨
     (pin ≠ inputfd ∧ 0 ≤ inputfd ∧ inputfd < s.openMax ∧
        (pipe_move_input outputfd inputfd pin pout s).1 = pout ∧
        (pipe_move_input outputfd inputfd pin pout s).2.fds =
          upd (upd s.fds inputfd (some { ofd := e.ofd, cloexec := false })) pin none) ∨
     (pin ≠ inputfd ∧ (pipe_move_input outputfd inputfd pin pout s).1 = -2 ∧
        (pipe_move_input outputfd inputfd pin pout s).2.fds =
          upd (upd (upd s.fds inputfd none) pin none) pout none)) := by
  simp only [pipe_move_input]
  by_cases h : pin = inputfd
  · have : ¬ pin ≠ inputfd := by simpa using h
    rw [if_neg this]
    exact ⟨KStep.refl s, Or.inl ⟨h, rfl⟩⟩
  · rw [if_pos h]
    by_cases hr : 0 ≤ inputfd ∧ inputfd < s.openMax
    · obtain ⟨x1, x2⟩ := xdup2_ok hpin h hr.1 hr.2
      have : ¬ (xdup2 pin inputfd s).1 < 0 := by rw [x1]; omega
      rw [if_neg this]
      refine ⟨KStep.trans (kstep_xdup2 _ _ s) (kstep_xclose _ _),
        Or.inr (Or.inl ⟨h, hr.1, hr.2, rfl, ?_⟩)⟩
      simp only [xclose_fds, x2]
    · obtain ⟨x1, x2⟩ := xdup2_fail (s := s) (o := pin) (n := inputfd)
        (Or.inr (Or.inr (by omega)))
      have : (xdup2 pin inputfd s).1 < 0 := by rw [x1]; decide
      rw [if_pos this]
      refine ⟨KStep.trans (kstep_xdup2 _ _ s) (kstep_pipe_error2 _ _ _ _ _),
        Or.inr (Or.inr ⟨h, rfl, ?_⟩)⟩
      rw [pipe_error2_fds, x2]

theorem freshEntry_dup (n : Nat) (o : Obj) (a : AccMode) :
    ({ ofd := (freshEntry n o a).ofd, cloexec := false } : FdEntry) = freshEntry n o a := rfl

/-- What `pipe_open` does to the table. -/
theorem pipe_open_spec (env : Env) (outputfd inputfd : Int) (t : State) :
    KStep t (pipe_open env outputfd inputfd t).2 ∧
    (((pipe_open env outputfd inputfd t).1 = -2 ∧
        (∀ z, z ≠ inputfd → (pipe_open env outputfd inputfd t).2.fds z = t.fds z) ∧
        ((pipe_open env outputfd inputfd t).2.fds inputfd = none ∨
          (pipe_open env outputfd inputfd t).2.fds inputfd = t.fds inputfd)) ∨
     (0 ≤ (pipe_open env outputfd inputfd t).1 ∧
        (pipe_open env outputfd inputfd t).1 < t.openMax ∧
        0 ≤ inputfd ∧ inputfd < t.openMax ∧
        (pipe_open env outputfd inputfd t).1 ≠ inputfd ∧
        t.fds (pipe_open env outputfd inputfd t).1 = none ∧
        (pipe_open env outputfd inputfd t).2.fds inputfd =
          some (freshEntry t.tick Obj.pipe_in AccMode.O_RDONLY) ∧
        (pipe_open env outputfd inputfd t).2.fds (pipe_open env outputfd inputfd t).1 =
          some (freshEntry t.tick Obj.pipe_out AccMode.O_WRONLY) ∧
        (∀ z, z ≠ inputfd → z ≠ (pipe_open env outputfd inputfd t).1 →
          (pipe_open env outputfd inputfd t).2.fds z = t.fds z) ∧
        ((sys_pipe env t).2.2.1 = inputfd → inputfd < (pipe_open env outputfd inputfd t).1))) := by
  simp only [pipe_open]
  rcases sys_pipe_cases env t with ⟨hf, hfd, hk⟩ | ⟨r, w, hr, hw, hpipe⟩
  · have : (sys_pipe env t).1 < 0 := by rw [hf]; decide
    rw [if_pos this]
    refine ⟨KStep.trans hk (kstep_xerror (Diag.pipe_error outputfd inputfd) rfl _), Or.inl ⟨rfl, ?_, Or.inr ?_⟩⟩
    · intro z _; show (sys_pipe env t).2.2.2.fds z = _; rw [hfd]
    · show (sys_pipe env t).2.2.2.fds inputfd = _; rw [hfd]
  have hkp := kstep_sys_pipe env t
  rw [hpipe] at hkp ⊢
  simp only [lt_self_iff_false, if_false]
  obtain ⟨r0, r1, r2, r3⟩ := lowestFree_some hr
  obtain ⟨w0, w1, w2, w3⟩ := lowestFree_some hw
  have hwr : w ≠ r := by
    intro hc; rw [hc] at w2; simp [setFd, upd] at w2
  have hw2 : t.fds w = none := by
    simpa [setFd, upd, hwr] using w2
  have w1' : w < t.openMax := w1
  generalize hs2 : bumpTick (setFd (setFd t r (some (freshEntry t.tick Obj.pipe_in
    AccMode.O_RDONLY))) w (some (freshEntry t.tick Obj.pipe_out AccMode.O_WRONLY))) t.tick = s2
    at hkp ⊢
  have hs2f : s2.fds = upd (upd t.fds r (some (freshEntry t.tick Obj.pipe_in AccMode.O_RDONLY))) w
      (some (freshEntry t.tick Obj.pipe_out AccMode.O_WRONLY)) := by
    rw [← hs2]; rfl
  have hs2w : s2.fds w = some (freshEntry t.tick Obj.pipe_out AccMode.O_WRONLY) := by
    rw [hs2f]; simp [upd]
  have hs2r : s2.fds r = some (freshEntry t.tick Obj.pipe_in AccMode.O_RDONLY) := by
    rw [hs2f]; simp [upd, hwr.symm]
  simp only [pipe_wire]
  obtain ⟨hkm, hm⟩ := pipe_move_output_spec inputfd w s2 _ hs2w
  rcases hm with ⟨m1, m2, m3⟩ | ⟨m1, m2, m3⟩ | ⟨c, m1, m3, hc, m2⟩
  · -- `dup` failed
    rw [m1]
    simp only []
    refine ⟨KStep.trans hkp (KStep.trans hkm (kstep_pipe_error2 _ _ _ _ _)), Or.inl ⟨rfl, ?_, Or.inl ?_⟩⟩
    · intro z hz
      rw [pipe_error2_fds, m2, hs2f]
      simp only [upd_apply]
      split_ifs <;> simp_all
    · rw [pipe_error2_fds, m2, hs2f]
      simp [upd_apply, m3]
  · -- the write end stays where it is
    rw [m1]
    simp only []
    rw [m2]
    obtain ⟨hki, hi⟩ := pipe_move_input_spec outputfd inputfd r w s2 _ hs2r
    refine ⟨KStep.trans hkp hki, ?_⟩
    rcases hi with ⟨i1, i2⟩ | ⟨i1, i2, i3, i4, i5⟩ | ⟨i1, i4, i5⟩
    · right
      rw [i2]
      subst i1
      refine ⟨w0, w1', r0, r1, m3, hw2, hs2r, hs2w, ?_, ?_⟩
      · intro z hz1 hz2
        simp only [hs2f, upd_apply, hz1, hz2, if_false]
      · intro h; exact absurd h m3
    · right
      rw [i4, i5, freshEntry_dup]
      rw [hkp.openMax] at i3
      refine ⟨w0, w1', i2, i3, m3, hw2, ?_, ?_, ?_, ?_⟩
      · simp [upd_apply, Ne.symm i1]
      · simp [upd_apply, hwr, m3, hs2w]
      · intro z hz1 hz2
        simp only [hs2f, upd_apply]
        split_ifs <;> simp_all
      · intro h; exact absurd h m3
    · left
      rw [i4, i5]
      refine ⟨rfl, ?_, Or.inl ?_⟩
      · intro z hz
        simp only [hs2f, upd_apply]
        split_ifs <;> simp_all
      · simp [upd_apply, Ne.symm m3, Ne.symm i1]
  · -- the write end is relocated to `c`
    rw [m1]
    simp only []
    obtain ⟨c0, c1, c2, c3⟩ := lowestFree_some hc
    have c1' : c < t.openMax := by rw [← hkp.openMax]; exact c1
    have hcw : c ≠ w := by intro h; rw [h, hs2w] at c2; simp at c2
    have hcr : c ≠ r := by intro h; rw [h, hs2r] at c2; simp at c2
    have htc : t.fds c = none := by
      rw [hs2f] at c2; simpa [upd_apply, hcw, hcr] using c2
    have hwc : w < c := by
      rcases lt_trichotomy w c with h | h | h
      · exact h
      · exact absurd h.symm hcw
      · exfalso
        apply w3 c c0 h
        simp [setFd, upd, hcr, htc]
    have hmr : (pipe_move_output inputfd w s2).2.fds r =
        some (freshEntry t.tick Obj.pipe_in AccMode.O_RDONLY) := by
      rw [m2]; simp [upd_apply, Ne.symm hwr, Ne.symm hcr, hs2r]
    obtain ⟨hki, hi⟩ := pipe_move_input_spec outputfd inputfd r c
      (pipe_move_output inputfd w s2).2 _ hmr
    refine ⟨KStep.trans hkp (KStep.trans hkm hki), ?_⟩
    rcases hi with ⟨i1, i2⟩ | ⟨i1, i2, i3, i4, i5⟩ | ⟨i1, i4, i5⟩
    · exact absurd (i1.trans m3.symm) (Ne.symm hwr)
    · right
      rw [i4, i5, m2, freshEntry_dup, freshEntry_dup]
      subst m3
      refine ⟨c0, c1', w0, w1', hcw, htc, ?_, ?_, ?_, ?_⟩
      · simp [upd_apply, hwr]
      · simp [upd_apply, hcr, hcw]
      · intro z hz1 hz2
        simp only [hs2f, upd_apply]
        split_ifs <;> simp_all
      · intro _; exact hwc
    · left
      rw [i4, i5, m2]
      subst m3
      refine ⟨rfl, ?_, Or.inl ?_⟩
      · intro z hz
        simp only [hs2f, upd_apply]
        split_ifs <;> simp_all
      · simp [upd_apply, hwr, hcw.symm]

theorem idsFresh_stateWith (limit : Int) (extra : List Int) : IdsFresh (stateWith limit extra) := by
  intro fd e h
  simp only [stateWith, stateStart] at h ⊢
  split_ifs at h
  · cases h; decide
  · cases h; decide

/-- C10: for every successful `parse_and_exec_pipe` (result not negative) in a
state whose open file descriptions are older than the pipe to be created:
the companion descriptor parsed from `num` differs from `outputfd` and is
not a shell FD, afterwards it is the read end of the pipe created by this
call, the returned descriptor is the write end of the same pipe and is not
the companion, and no other descriptor refers to that pipe. When `pipe`
allocated the write end on the companion's number, the returned
descriptor is a higher number: the write end was moved away first (so for
target 3 and companion 5 it is neither 3 nor 5). -/
theorem parse_and_exec_pipe_wiring (env : Env) (outputfd : Int) (num : List Char) (s : State)
    (save : Option (List savefd_T)) (hids : IdsFresh s)
    (hsucc : 0 ≤ (parse_and_exec_pipe env outputfd num s save).1) :
    (parse_fd_number num s).1 ≠ outputfd ∧
    is_shellfd env (parse_fd_number num s).1 s = false ∧
    (parse_and_exec_pipe env outputfd num s save).2.1.fds (parse_fd_number num s).1 =
      some (freshEntry s.tick Obj.pipe_in AccMode.O_RDONLY) ∧
    (parse_and_exec_pipe env outputfd num s save).2.1.fds
        (parse_and_exec_pipe env outputfd num s save).1 =
      some (freshEntry s.tick Obj.pipe_out AccMode.O_WRONLY) ∧
    (parse_and_exec_pipe env outputfd num s save).1 ≠ (parse_fd_number num s).1 ∧
    (∀ z e, z ≠ (parse_fd_number num s).1 →
      z ≠ (parse_and_exec_pipe env outputfd num s save).1 →
      (parse_and_exec_pipe env outputfd num s save).2.1.fds z = some e → e.ofd.id ≠ s.tick) ∧
    ((sys_pipe env
        (save_fd env (parse_fd_number num s).1 (parse_fd_number num s).2 save).1).2.2.1 =
        (parse_fd_number num s).1 →
      (parse_fd_number num s).1 < (parse_and_exec_pipe env outputfd num s save).1) := by
  obtain ⟨err, hp⟩ := parse_fd_number_state num s
  generalize hin : (parse_fd_number num s).1 = inputfd at *
  simp only [parse_and_exec_pipe, hin] at hsucc ⊢
  by_cases h1 : (parse_fd_number num s).2.errno ≠ 0
  · rw [if_pos h1] at hsucc; simp at hsucc
  rw [if_neg h1] at hsucc ⊢
  by_cases h2 : outputfd = inputfd
  · rw [if_pos h2] at hsucc; simp at hsucc
  rw [if_neg h2] at hsucc ⊢
  by_cases h3 : is_shellfd env inputfd (parse_fd_number num s).2 = true
  · rw [if_pos h3] at hsucc; simp at hsucc
  rw [if_neg h3] at hsucc ⊢
  have hsh : is_shellfd env inputfd s = false := by
    rw [hp] at h3; simpa [is_shellfd_errno] using h3
  have hids1 : IdsFresh (parse_fd_number num s).2 := by rw [hp]; exact hids
  have htick1 : (parse_fd_number num s).2.tick = s.tick := by rw [hp]
  have hids2 := idsFresh_save_fd env inputfd _ save hids1
  obtain ⟨htick2, _, _⟩ := save_fd_table env inputfd (parse_fd_number num s).2 save
  rw [htick1] at htick2
  generalize (save_fd env inputfd (parse_fd_number num s).2 save) = sv at *
  obtain ⟨_, hspec⟩ := pipe_open_spec env outputfd inputfd sv.1
  simp only [] at hsucc ⊢
  rcases hspec with ⟨hf, _, _⟩ | ⟨p1, p2, p3, p4, p5, p6, p7, p8, p9, p10⟩
  · rw [hf] at hsucc; simp at hsucc
  · rw [htick2] at p7 p8
    refine ⟨Ne.symm h2, hsh, p7, p8, p5, ?_, p10⟩
    intro z e hz1 hz2 hze
    rw [p9 z hz1 hz2] at hze
    have := hids2 z e hze
    rw [htick2] at this
    omega

theorem parse_and_exec_pipe_wiring_witness :
    (IdsFresh (stateWith 1024 [3]) ∧
      0 ≤ (parse_and_exec_pipe envLinux 3 "5".toList (stateWith 1024 [3]) (some [])).1) ∧
    (parse_and_exec_pipe envLinux 3 "5".toList (stateWith 1024 [3]) (some [])).2.1.fds
        (parse_fd_number "5".toList (stateWith 1024 [3])).1 =
      some (freshEntry (stateWith 1024 [3]).tick Obj.pipe_in AccMode.O_RDONLY) ∧
    (parse_and_exec_pipe envLinux 3 "5".toList (stateWith 1024 [3]) (some [])).1 = 6 :=
  ⟨⟨idsFresh_stateWith 1024 [3], by decide⟩,
   (parse_and_exec_pipe_wiring envLinux 3 "5".toList (stateWith 1024 [3]) (some [])
      (idsFresh_stateWith 1024 [3]) (by decide)).2.2.1,
   by decide⟩

/-! ## Functions that open one new descriptor -/

theorem neg_one_lt : (-1 : Int) < 0 := by decide

theorem SameFds.step_refl (s : State) : SameFds s s := ⟨rfl, KStep.refl s⟩

theorem SameFds.step_trans {s t u : State} (h1 : SameFds s t) (h2 : SameFds t u) : SameFds s u :=
  ⟨h2.1.trans h1.1, KStep.trans h1.2 h2.2⟩

theorem sameFds_of_eq {s t : State} (h1 : t.fds = s.fds) (h2 : t.openMax = s.openMax)
    (h3 : t.shellfds = s.shellfds) (h4 : t.shellfdmin = s.shellfdmin)
    (h5 : t.shellfdmax = s.shellfdmax) (h6 : t.is_stdin_redirected = s.is_stdin_redirected)
    (h7 : t.ttyfd = s.ttyfd) (h8 : t.diag = s.diag) : SameFds s t :=
  ⟨h1, kstep_of_eq h1 h2 h3 h4 h5 h6 h7 h8⟩

theorem sameFds_xerror (d : Diag) (hd : isCannotSave d = false) (s : State) :
    SameFds s (xerror d s) := ⟨rfl, kstep_xerror d hd s⟩

theorem SameFds.and_xerror {s t : State} (h : SameFds s t) (d : Diag)
    (hd : isCannotSave d = false) : SameFds s (xerror d t) :=
  SameFds.step_trans h (sameFds_xerror d hd t)

theorem Produced.pre {s s' t : State} {fd : Int} (h1 : SameFds s s') (h2 : Produced s' fd t) :
    Produced s fd t := by
  obtain ⟨hk, h⟩ := h2
  refine ⟨KStep.trans h1.2 hk, ?_⟩
  rcases h with ⟨a, b⟩ | ⟨a, b, c, y, d⟩
  · exact Or.inl ⟨a, b.trans h1.1⟩
  · refine Or.inr ⟨a, ?_, ?_, y, ?_⟩
    · rw [← h1.2.openMax]; exact b
    · rw [← h1.1]; exact c
    · rw [d, h1.1]

theorem Produced.post {s t t' : State} {fd : Int} (h1 : Produced s fd t) (h2 : SameFds t t') :
    Produced s fd t' := by
  obtain ⟨hk, h⟩ := h1
  refine ⟨KStep.trans hk h2.2, ?_⟩
  rcases h with ⟨a, b⟩ | ⟨a, b, c, y, d⟩
  · exact Or.inl ⟨a, h2.1.trans b⟩
  · exact Or.inr ⟨a, b, c, y, h2.1.trans d⟩

theorem produced_fail {s t : State} {fd : Int} (h : SameFds s t) (hfd : fd < 0) :
    Produced s fd t := ⟨h.2, Or.inl ⟨hfd, h.1⟩⟩

theorem allocFd_produced (obj : Obj) (acc : AccMode) (s : State) :
    Produced s (allocFd obj acc s).1 (allocFd obj acc s).2 := by
  unfold allocFd
  cases h : lowestFree s 0 with
  | none =>
    exact produced_fail (sameFds_of_eq rfl rfl rfl rfl rfl rfl rfl rfl) neg_one_lt
  | some fd =>
    obtain ⟨h0, h1, h2, _⟩ := lowestFree_some h
    exact ⟨KStep.trans (kstep_setFd_some s fd _ h0 h1) (kstep_bumpTick _ _),
      Or.inr ⟨h0, h1, h2, _, rfl⟩⟩

theorem sys_open_produced (env : Env) (path : List Char) (oflag : OFlags) (s : State) :
    Produced s (sys_open env path oflag s).1 (sys_open env path oflag s).2 := by
  unfold sys_open
  cases env.fs_open s.tick path oflag with
  | none => exact produced_fail (sameFds_of_eq rfl rfl rfl rfl rfl rfl rfl rfl) neg_one_lt
  | some obj => exact allocFd_produced obj oflag.acc s

/-- A producer whose descriptor is closed again leaves the table as it was. -/
theorem Produced.closed {s t : State} {fd : Int} (h : Produced s fd t) (h0 : 0 ≤ fd) :
    SameFds s (xclose fd t).2 := by
  obtain ⟨hk, h⟩ := h
  refine ⟨?_, KStep.trans hk (kstep_xclose fd t)⟩
  rw [xclose_fds]
  rcases h with ⟨a, _⟩ | ⟨a, b, c, y, d⟩
  · omega
  · rw [d]
    funext z
    by_cases hz : z = fd
    · subst hz; simp [upd_apply, c]
    · simp [upd_apply, hz]

theorem sameFds_xclose_closed {s : State} {fd : Int} (h : s.fds fd = none) :
    SameFds s (xclose fd s).2 := by
  refine ⟨?_, kstep_xclose fd s⟩
  rw [xclose_fds, upd_none_of_none h]

theorem sys_socket_produced (env : Env) (hp : List Char) (b : Bool) (s : State) :
    Produced s (sys_socket env hp b s).1 (sys_socket env hp b s).2 := by
  unfold sys_socket
  by_cases hs : env.socket_ok s.tick = true
  · rw [if_pos hs]; exact allocFd_produced _ _ _
  · rw [if_neg hs]
    exact produced_fail (sameFds_of_eq rfl rfl rfl rfl rfl rfl rfl rfl) neg_one_lt

theorem sys_connect_sameFds (env : Env) (s : State) : SameFds s (sys_connect env s).2 := by
  unfold sys_connect
  split
  · exact sameFds_of_eq rfl rfl rfl rfl rfl rfl rfl rfl
  · exact sameFds_of_eq rfl rfl rfl rfl rfl rfl rfl rfl

theorem open_socket_produced (env : Env) (hp : List Char) (b : Bool) (s : State) :
    Produced s (open_socket env hp b s).1 (open_socket env hp b s).2 := by
  unfold open_socket
  cases env.malloc_mbstowcs hp with
  | none =>
    exact produced_fail (sameFds_of_eq rfl rfl rfl rfl rfl rfl rfl rfl) neg_one_lt
  | some _ =>
    simp only []
    have hpre : SameFds s (sys_getaddrinfo env hp s).2 :=
      sameFds_of_eq rfl rfl rfl rfl rfl rfl rfl rfl
    generalize sys_getaddrinfo env hp s = g at hpre ⊢
    by_cases hg : g.1 = false
    · rw [if_pos hg]
      refine produced_fail ?_ neg_one_lt
      exact SameFds.step_trans hpre (SameFds.step_trans (sameFds_xerror (Diag.socket_resolve hp) rfl g.2)
        (sameFds_of_eq rfl rfl rfl rfl rfl rfl rfl rfl))
    · rw [if_neg hg]
      have hr := sys_socket_produced env hp b g.2
      generalize sys_socket env hp b g.2 = r at hr ⊢
      by_cases h0 : r.1 ≥ 0
      · rw [if_pos h0]
        have hc := sys_connect_sameFds env r.2
        generalize sys_connect env r.2 = c at hc ⊢
        by_cases hlt : c.1 < 0
        · rw [if_pos hlt]
          exact produced_fail (SameFds.step_trans hpre ((hr.post hc).closed h0)) neg_one_lt
        · rw [if_neg hlt]
          exact (hr.post hc).pre hpre
      · rw [if_neg h0]
        exact hr.pre hpre

/-- Trying again after a failed producer. -/
theorem Produced.retry {s t u : State} {fd fd2 : Int} (h1 : Produced s fd t) (hfd : fd < 0)
    (h2 : Produced t fd2 u) : Produced s fd2 u := by
  obtain ⟨hk, h⟩ := h1
  rcases h with ⟨_, b⟩ | ⟨a, _⟩
  · exact h2.pre ⟨b, hk⟩
  · omega

theorem open_file_socket_produced (env : Env) (path pre : List Char) (b : Bool) (s : State)
    (r : Int × State) (h0 : Produced s r.1 r.2) :
    Produced s (open_file_socket env path pre b r).1 (open_file_socket env path pre b r).2 := by
  unfold open_file_socket
  by_cases hr : r.1 < 0
  · rw [if_pos hr]
    cases matchstrprefix path pre with
    | none => exact h0
    | some hp => exact h0.retry hr (open_socket_produced env hp b r.2)
  · rw [if_neg hr]; exact h0

theorem open_file_produced (env : Env) (path : List Char) (oflag : OFlags) (s : State) :
    Produced s (open_file env path oflag s).1 (open_file env path oflag s).2 := by
  have h0 := sys_open_produced env path oflag s
  unfold open_file
  simp only []
  by_cases hy : env.YASH_ENABLE_SOCKET = true
  · rw [if_pos hy]
    exact open_file_socket_produced _ _ _ _ _ _ (open_file_socket_produced _ _ _ _ _ _ h0)
  · rw [if_neg hy]; exact h0

theorem sys_write_sameFds (env : Env) (fd : Int) (bytes : List Char) (s : State) :
    SameFds s (sys_write env fd bytes s).2 := by
  unfold sys_write
  cases s.fds fd with
  | none => exact sameFds_of_eq rfl rfl rfl rfl rfl rfl rfl rfl
  | some e =>
    simp only []
    split
    · cases env.write_count s.tick bytes.length with
      | none => exact sameFds_of_eq rfl rfl rfl rfl rfl rfl rfl rfl
      | some n =>
        simp only []
        split
        · exact sameFds_of_eq rfl rfl rfl rfl rfl rfl rfl rfl
        · exact sameFds_of_eq rfl rfl rfl rfl rfl rfl rfl rfl
    · exact sameFds_of_eq rfl rfl rfl rfl rfl rfl rfl rfl

theorem write_all_loop_sameFds (env : Env) (fd : Int) (bytes : List Char) :
    ∀ (fuel done : Nat) (s : State), SameFds s (write_all_loop env fd bytes fuel done s).2 := by
  intro fuel
  induction fuel with
  | zero => intro done s; exact SameFds.step_refl s
  | succ n ih =>
    intro done s
    unfold write_all_loop
    by_cases hd : done < bytes.length
    · rw [if_pos hd]
      simp only []
      by_cases hr : (sys_write env fd (List.drop done bytes) s).1 < 0
      · rw [if_pos hr]; exact sys_write_sameFds _ _ _ _
      · rw [if_neg hr]
        exact SameFds.step_trans (sys_write_sameFds _ _ _ _) (ih _ _)
    · rw [if_neg hd]; exact SameFds.step_refl s

theorem write_all_sameFds (env : Env) (fd : Int) (bytes : List Char) (s : State) :
    SameFds s (write_all env fd bytes s).2 :=
  write_all_loop_sameFds env fd bytes _ _ s

theorem sys_lseek0_sameFds (env : Env) (fd : Int) (s : State) :
    SameFds s (sys_lseek0 env fd s).2 := by
  unfold sys_lseek0
  cases s.fds fd with
  | none => exact sameFds_of_eq rfl rfl rfl rfl rfl rfl rfl rfl
  | some e =>
    simp only []
    split
    · exact sameFds_of_eq rfl rfl rfl rfl rfl rfl rfl rfl
    · exact sameFds_of_eq rfl rfl rfl rfl rfl rfl rfl rfl

theorem sameFds_ite_xerror (c : Prop) [Decidable c] (d : Diag) (hd : isCannotSave d = false)
    (s : State) : SameFds s (if c then xerror d s else s) := by
  split
  · exact sameFds_xerror d hd s
  · exact SameFds.step_refl s

theorem sameFds_ite_xerror' (c : Prop) [Decidable c] (d : Diag) (hd : isCannotSave d = false)
    (s : State) : SameFds s (if c then s else xerror d s) := by
  split
  · exact SameFds.step_refl s
  · exact sameFds_xerror d hd s

theorem open_herestring_tempfile_produced (env : Env) (body : List Char) (s : State) :
    Produced s (open_herestring_tempfile env body s).1
      (open_herestring_tempfile env body s).2 := by
  unfold open_herestring_tempfile
  cases env.create_temporary_file s.tick with
  | none =>
    refine produced_fail ?_ neg_one_lt
    refine SameFds.and_xerror ?_ _ rfl
    exact sameFds_of_eq rfl rfl rfl rfl rfl rfl rfl rfl
  | some tempfile =>
    simp only []
    have hf := allocFd_produced (Obj.tempfile tempfile) AccMode.O_RDWR s
    generalize allocFd (Obj.tempfile tempfile) AccMode.O_RDWR s = f at hf ⊢
    by_cases h0 : f.1 < 0
    · rw [if_pos h0]
      obtain ⟨hk, h⟩ := hf
      rcases h with ⟨_, b⟩ | ⟨a, _⟩
      · exact produced_fail (SameFds.step_trans ⟨b, hk⟩ (sameFds_xerror Diag.heredoc_tempfile rfl _))
          neg_one_lt
      · omega
    · rw [if_neg h0]
      refine hf.post ?_
      have h1 : SameFds f.2
          (if env.unlink_ok f.2.tick = true then { f.2 with tick := f.2.tick + 1 }
           else xerror (Diag.heredoc_unlink tempfile) { f.2 with tick := f.2.tick + 1 }) := by
        split
        · exact sameFds_of_eq rfl rfl rfl rfl rfl rfl rfl rfl
        · refine SameFds.and_xerror ?_ _ rfl
          exact sameFds_of_eq rfl rfl rfl rfl rfl rfl rfl rfl
      generalize (if env.unlink_ok f.2.tick = true then { f.2 with tick := f.2.tick + 1 }
           else xerror (Diag.heredoc_unlink tempfile) { f.2 with tick := f.2.tick + 1 }) = s2
        at h1 ⊢
      have h2 := write_all_sameFds env f.1 body s2
      generalize write_all env f.1 body s2 = w at h2 ⊢
      have h3 := sameFds_ite_xerror' (w.1 = true) Diag.heredoc_write rfl w.2
      generalize (if w.1 = true then w.2 else xerror Diag.heredoc_write w.2) = s3 at h3 ⊢
      have h4 := sys_lseek0_sameFds env f.1 s3
      generalize sys_lseek0 env f.1 s3 = l at h4 ⊢
      have h5 := sameFds_ite_xerror (l.1 ≠ 0) Diag.heredoc_seek rfl l.2
      exact SameFds.step_trans h1 (SameFds.step_trans h2 (SameFds.step_trans h3 (SameFds.step_trans h4 h5)))

theorem sys_pipe_ok {env : Env} {t : State} (h : ¬ (sys_pipe env t).1 < 0) :
    ∃ rd wr, 0 ≤ (sys_pipe env t).2.1 ∧ (sys_pipe env t).2.1 < t.openMax ∧
      0 ≤ (sys_pipe env t).2.2.1 ∧ (sys_pipe env t).2.2.1 < t.openMax ∧
      (sys_pipe env t).2.2.1 ≠ (sys_pipe env t).2.1 ∧
      t.fds (sys_pipe env t).2.1 = none ∧ t.fds (sys_pipe env t).2.2.1 = none ∧
      (sys_pipe env t).2.2.2.fds =
        upd (upd t.fds (sys_pipe env t).2.1 (some rd)) (sys_pipe env t).2.2.1 (some wr) := by
  rcases sys_pipe_cases env t with ⟨hf, _, _⟩ | ⟨r, w, hr, hw, hpipe⟩
  · exfalso; apply h; rw [hf]; decide
  · rw [hpipe]
    obtain ⟨r0, r1, r2, _⟩ := lowestFree_some hr
    obtain ⟨w0, w1, w2, _⟩ := lowestFree_some hw
    have hwr : w ≠ r := by
      intro hc; rw [hc] at w2; simp [setFd, upd] at w2
    have hw2 : t.fds w = none := by
      simpa [setFd, upd, hwr] using w2
    exact ⟨_, _, r0, r1, w0, w1, hwr, r2, hw2, rfl⟩

theorem sys_pipe_fail {env : Env} {t : State} (h : (sys_pipe env t).1 < 0) :
    SameFds t (sys_pipe env t).2.2.2 := by
  rcases sys_pipe_cases env t with ⟨_, hf, hk⟩ | ⟨r, w, _, _, hpipe⟩
  · exact ⟨hf, hk⟩
  · rw [hpipe] at h; simp at h

/-- After a successful `pipe`, closing the write end leaves the read end as
the one new descriptor. -/
theorem pipe_keep_in {env : Env} {t u : State} (h : ¬ (sys_pipe env t).1 < 0)
    (hu : SameFds (sys_pipe env t).2.2.2 u) :
    Produced t (sys_pipe env t).2.1 (xclose (sys_pipe env t).2.2.1 u).2 := by
  obtain ⟨rd, wr, r0, r1, w0, w1, hwr, r2, w2, hf⟩ := sys_pipe_ok h
  refine ⟨KStep.trans (kstep_sys_pipe env t) (KStep.trans hu.2 (kstep_xclose _ _)),
    Or.inr ⟨r0, r1, r2, rd, ?_⟩⟩
  rw [xclose_fds, hu.1, hf]
  funext z
  simp only [upd_apply]
  split_ifs <;> simp_all

/-- After a successful `pipe`, closing the read end leaves the write end as
the one new descriptor. -/
theorem pipe_keep_out {env : Env} {t u : State} (h : ¬ (sys_pipe env t).1 < 0)
    (hu : SameFds (sys_pipe env t).2.2.2 u) :
    Produced t (sys_pipe env t).2.2.1 (xclose (sys_pipe env t).2.1 u).2 := by
  obtain ⟨rd, wr, r0, r1, w0, w1, hwr, r2, w2, hf⟩ := sys_pipe_ok h
  refine ⟨KStep.trans (kstep_sys_pipe env t) (KStep.trans hu.2 (kstep_xclose _ _)),
    Or.inr ⟨w0, w1, w2, wr, ?_⟩⟩
  rw [xclose_fds, hu.1, hf]
  funext z
  simp only [upd_apply]
  split_ifs <;> simp_all

/-- After a successful `pipe`, closing both ends leaves the table as it was. -/
theorem pipe_close_both {env : Env} {t u : State} (h : ¬ (sys_pipe env t).1 < 0)
    (hu : SameFds (sys_pipe env t).2.2.2 u) :
    SameFds t (xclose (sys_pipe env t).2.2.1 (xclose (sys_pipe env t).2.1 u).2).2 := by
  obtain ⟨rd, wr, r0, r1, w0, w1, hwr, r2, w2, hf⟩ := sys_pipe_ok h
  refine ⟨?_, KStep.trans (kstep_sys_pipe env t) (KStep.trans hu.2
    (KStep.trans (kstep_xclose _ _) (kstep_xclose _ _)))⟩
  rw [xclose_fds, xclose_fds, hu.1, hf]
  funext z
  simp only [upd_apply]
  split_ifs <;> simp_all

theorem open_herestring_pipe_produced {env : Env} {t : State} (body : List Char)
    (h : ¬ (sys_pipe env t).1 < 0) :
    Produced t
      (open_herestring_pipe env body (sys_pipe env t).2.1 (sys_pipe env t).2.2.1
        (sys_pipe env t).2.2.2).1
      (open_herestring_pipe env body (sys_pipe env t).2.1 (sys_pipe env t).2.2.1
        (sys_pipe env t).2.2.2).2 := by
  unfold open_herestring_pipe
  simp only []
  apply pipe_keep_in h
  exact SameFds.step_trans (sys_write_sameFds env (sys_pipe env t).2.2.1 body (sys_pipe env t).2.2.2)
    (sameFds_ite_xerror _ Diag.heredoc_write rfl _)

theorem open_herestring_produced (env : Env) (str : List Char) (nl : Bool) (s : State) :
    Produced s (open_herestring env str nl s).1 (open_herestring env str nl s).2 := by
  unfold open_herestring
  have hd : Produced s
      (if str = [] ∧ nl = false then
          sys_open env "/dev/null".toList
            { acc := AccMode.O_RDONLY, creat := false, excl := false, trunc := false,
              append := false } s
        else (-1, s)).1
      (if str = [] ∧ nl = false then
          sys_open env "/dev/null".toList
            { acc := AccMode.O_RDONLY, creat := false, excl := false, trunc := false,
              append := false } s
        else (-1, s)).2 := by
    split
    · exact sys_open_produced _ _ _ _
    · exact produced_fail (SameFds.step_refl s) neg_one_lt
  generalize (if str = [] ∧ nl = false then
          sys_open env "/dev/null".toList
            { acc := AccMode.O_RDONLY, creat := false, excl := false, trunc := false,
              append := false } s
        else (-1, s)) = devnull at hd ⊢
  simp only []
  by_cases h0 : devnull.1 ≥ 0
  · rw [if_pos h0]; exact hd
  · rw [if_neg h0]
    have hlt : devnull.1 < 0 := by omega
    generalize (if nl = true then str ++ ['\n'] else str) = body
    cases env.PIPE_BUF with
    | none => exact hd.retry hlt (open_herestring_tempfile_produced env body _)
    | some limit =>
      simp only []
      by_cases hl : body.length ≤ limit
      · rw [if_pos hl]
        by_cases hp : (sys_pipe env devnull.2).1 ≥ 0
        · rw [if_pos hp]
          exact hd.retry hlt (open_herestring_pipe_produced body (by omega))
        · rw [if_neg hp]
          have hsf := @sys_pipe_fail env devnull.2 (by omega)
          exact hd.retry hlt ((open_herestring_tempfile_produced env body _).pre hsf)
      · rw [if_neg hl]
        exact hd.retry hlt (open_herestring_tempfile_produced env body _)

theorem open_heredocument_produced (env : Env) (contents : List Char) (s : State) :
    Produced s (open_heredocument env contents s).1 (open_heredocument env contents s).2 := by
  unfold open_heredocument
  cases env.expand_string contents with
  | none => exact produced_fail (SameFds.step_refl s) neg_one_lt
  | some w =>
    simp only []
    cases env.realloc_wcstombs w with
    | none => exact produced_fail (sameFds_xerror Diag.heredoc_encode rfl s) neg_one_lt
    | some m => exact open_herestring_produced env m false s

theorem open_process_redirection_produced (env : Env) (type : redirtype_T) (s : State) :
    Produced s (open_process_redirection env type s).1
      (open_process_redirection env type s).2 := by
  unfold open_process_redirection
  simp only []
  by_cases hp : (sys_pipe env s).1 < 0
  · rw [if_pos hp]
    exact produced_fail ((sys_pipe_fail hp).and_xerror Diag.procredir_pipe rfl) neg_one_lt
  · rw [if_neg hp]
    by_cases hf : env.fork_ok (sys_pipe env s).2.2.2.tick = false
    · rw [if_pos hf]
      refine produced_fail ?_ neg_one_lt
      have hb := @pipe_close_both env s
        { (sys_pipe env s).2.2.2 with tick := (sys_pipe env s).2.2.2.tick + 1,
                                      errno := EAGAIN } hp
        (sameFds_of_eq rfl rfl rfl rfl rfl rfl rfl rfl)
      exact hb
    · rw [if_neg hf]
      by_cases ht : type = redirtype_T.RT_PROCIN
      · rw [if_pos ht]
        exact pipe_keep_in hp (sameFds_of_eq rfl rfl rfl rfl rfl rfl rfl rfl)
      · rw [if_neg ht]
        exact pipe_keep_out hp (sameFds_of_eq rfl rfl rfl rfl rfl rfl rfl rfl)



/-! ## `undo_redirections` and `clear_savefd` -/

theorem FdEq.eq_refl (s : State) : FdEq s s := ⟨fun _ => rfl, rfl, rfl⟩

theorem FdEq.eq_symm {s t : State} (h : FdEq s t) : FdEq t s :=
  ⟨fun z => (h.1 z).symm, h.2.1.symm, h.2.2.symm⟩

theorem FdEq.eq_trans {s t u : State} (h1 : FdEq s t) (h2 : FdEq t u) : FdEq s u :=
  ⟨fun z => (h1.1 z).trans (h2.1 z), h1.2.1.trans h2.2.1, h1.2.2.trans h2.2.2⟩

theorem fileOf_upd (s t : State) (fd : Int) (e : Option FdEntry) (z : Int)
    (h : t.fds = upd s.fds fd e) :
    fileOf t z = if z = fd then e.map FdEntry.ofd else fileOf s z := by
  unfold fileOf
  rw [h]
  by_cases hz : z = fd <;> simp [upd_apply, hz]

theorem undo_redirection_stdin (env : Env) (e : savefd_T) (s : State) :
    (undo_redirection env e s).is_stdin_redirected = e.sf_stdin_redirected := rfl

theorem undo_redirection_frame (env : Env) (e : savefd_T) (s : State) :
    (undo_redirection env e s).openMax = s.openMax ∧
    (undo_redirection env e s).shellfdmin = s.shellfdmin := by
  unfold undo_redirection
  by_cases hc : e.sf_copyfd ≥ 0
  · simp only [hc, if_true]
    have h1 := kstep_xclose e.sf_copyfd
      (xdup2 e.sf_copyfd e.sf_origfd (remove_shellfd env e.sf_copyfd s)).2
    have h2 := kstep_xdup2 e.sf_copyfd e.sf_origfd (remove_shellfd env e.sf_copyfd s)
    obtain ⟨_, f2, f3, _⟩ := remove_shellfd_frame env e.sf_copyfd s
    exact ⟨h1.openMax.trans (h2.openMax.trans f2), h1.shellfdmin.trans (h2.shellfdmin.trans f3)⟩
  · simp only [hc, if_false]
    have h1 := kstep_xclose e.sf_origfd s
    exact ⟨h1.openMax, h1.shellfdmin⟩

theorem undo_redirection_shellfds (env : Env) (e : savefd_T) (s : State) (x : Int) :
    (undo_redirection env e s).shellfds x =
      if 0 ≤ e.sf_copyfd ∧ x = e.sf_copyfd ∧ e.sf_copyfd < env.FD_SETSIZE then false
      else s.shellfds x := by
  unfold undo_redirection
  by_cases hc : e.sf_copyfd ≥ 0
  · simp only [hc, if_true]
    have h1 := kstep_xclose e.sf_copyfd
      (xdup2 e.sf_copyfd e.sf_origfd (remove_shellfd env e.sf_copyfd s)).2
    have h2 := kstep_xdup2 e.sf_copyfd e.sf_origfd (remove_shellfd env e.sf_copyfd s)
    show (xclose e.sf_copyfd
      (xdup2 e.sf_copyfd e.sf_origfd (remove_shellfd env e.sf_copyfd s)).2).2.shellfds x = _
    rw [h1.shellfds, h2.shellfds, remove_shellfd_shellfds]
    have hc' : 0 ≤ e.sf_copyfd := hc
    simp only [hc', true_and]
  · simp only [hc, if_false]
    have hc' : ¬ 0 ≤ e.sf_copyfd := hc
    simp only [hc', false_and, if_false]
    exact congrFun (kstep_xclose e.sf_origfd s).shellfds x

/-- What `undo_redirections` does to one descriptor when it consumes the
entry `e`. -/
theorem fileOf_undo_redirection (env : Env) (e : savefd_T) (s : State) (z : Int) :
    fileOf (undo_redirection env e s) z =
      if 0 ≤ e.sf_copyfd then
        (if z = e.sf_copyfd then none
         else if z = e.sf_origfd then
           (if e.sf_copyfd ≠ e.sf_origfd ∧ 0 ≤ e.sf_origfd ∧ e.sf_origfd < s.openMax then
              fileOf s e.sf_copyfd
            else none)
         else fileOf s z)
      else (if z = e.sf_origfd then none else fileOf s z) := by
  unfold undo_redirection
  by_cases hc : 0 ≤ e.sf_copyfd
  · have hc' : e.sf_copyfd ≥ 0 := hc
    simp only [hc, hc', if_true]
    show Option.map FdEntry.ofd ((xclose e.sf_copyfd
      (xdup2 e.sf_copyfd e.sf_origfd (remove_shellfd env e.sf_copyfd s)).2).2.fds z) = _
    rw [xclose_fds]
    have hrf := remove_shellfd_fds env e.sf_copyfd s
    have hro := (remove_shellfd_frame env e.sf_copyfd s).2.1
    generalize remove_shellfd env e.sf_copyfd s = s' at hrf hro ⊢
    by_cases hok : e.sf_copyfd ≠ e.sf_origfd ∧ 0 ≤ e.sf_origfd ∧ e.sf_origfd < s.openMax
    · cases hy : s.fds e.sf_copyfd with
      | none =>
        have hf := (xdup2_fail (s := s') (o := e.sf_copyfd) (n := e.sf_origfd)
          (Or.inl (by rw [hrf]; exact hy))).2
        rw [hf, hrf]
        simp only [upd_apply, fileOf, hy, hok]
        split_ifs <;> simp_all
      | some y =>
        have hf := (xdup2_ok (s := s') (o := e.sf_copyfd) (n := e.sf_origfd) (e := y)
          (by rw [hrf]; exact hy) hok.1 hok.2.1 (by rw [hro]; exact hok.2.2)).2
        rw [hf, hrf]
        simp only [upd_apply, fileOf, hy, hok]
        split_ifs <;> simp_all
    · have hf := (xdup2_fail (s := s') (o := e.sf_copyfd) (n := e.sf_origfd)
        (by rw [hro]; by_cases h1 : e.sf_copyfd = e.sf_origfd
            · exact Or.inr (Or.inl h1)
            · right; right
              by_contra hcon
              exact hok ⟨h1, by omega, by omega⟩)).2
      rw [hf, hrf]
      simp only [upd_apply, fileOf, hok]
      split_ifs <;> simp_all
  · have hc' : ¬ e.sf_copyfd ≥ 0 := hc
    simp only [hc, hc', if_false]
    show Option.map FdEntry.ofd ((xclose e.sf_origfd s).2.fds z) = _
    rw [xclose_fds]
    simp only [upd_apply, fileOf]
    split_ifs <;> simp_all

theorem FdEq.undo_one {s t : State} (env : Env) (e : savefd_T) (h : FdEq s t) :
    FdEq (undo_redirection env e s) (undo_redirection env e t) := by
  refine ⟨?_, ?_, ?_⟩
  · intro z
    rw [fileOf_undo_redirection, fileOf_undo_redirection, h.1 z, h.1 e.sf_copyfd, h.2.2]
  · rfl
  · rw [(undo_redirection_frame env e s).1, (undo_redirection_frame env e t).1]; exact h.2.2

theorem FdEq.undo_all (env : Env) : ∀ (stack : List savefd_T) {s t : State}, FdEq s t →
    FdEq (undo_redirections env stack s) (undo_redirections env stack t) := by
  intro stack
  induction stack with
  | nil => intro s t h; exact h
  | cons e rest ih =>
    intro s t h
    simp only [undo_redirections]
    exact ih (h.undo_one env e)

theorem undo_redirections_append (env : Env) : ∀ (a b : List savefd_T) (s : State),
    undo_redirections env (a ++ b) s = undo_redirections env b (undo_redirections env a s) := by
  intro a
  induction a with
  | nil => intro b s; rfl
  | cons e rest ih => intro b s; simp only [List.cons_append, undo_redirections]; exact ih b _

theorem undo_redirections_shellfds_le (env : Env) : ∀ (stack : List savefd_T) (s : State)
    (x : Int), (undo_redirections env stack s).shellfds x = true → s.shellfds x = true := by
  intro stack
  induction stack with
  | nil => intro s x h; exact h
  | cons e rest ih =>
    intro s x h
    simp only [undo_redirections] at h
    have h2 := ih _ x h
    rw [undo_redirection_shellfds] at h2
    split_ifs at h2
    exact h2

theorem undo_redirections_unregisters (env : Env) : ∀ (stack : List savefd_T) (s : State)
    (e : savefd_T), e ∈ stack → 0 ≤ e.sf_copyfd → e.sf_copyfd < env.FD_SETSIZE →
    is_shellfd env e.sf_copyfd (undo_redirections env stack s) = false := by
  intro stack
  induction stack with
  | nil => intro s e h; simp at h
  | cons e0 rest ih =>
    intro s e he h0 h1
    rcases List.mem_cons.mp he with h | h
    · subst h
      have hn : ¬ is_shellfd env e.sf_copyfd (undo_redirections env (e :: rest) s) = true := by
        rw [is_shellfd_iff]
        rintro (hc | ⟨_, hc⟩)
        · omega
        · simp only [undo_redirections] at hc
          have := undo_redirections_shellfds_le env rest _ _ hc
          rw [undo_redirection_shellfds] at this
          simp [h0, h1] at this
      simpa using hn
    · simp only [undo_redirections]
      exact ih _ e h h0 h1

theorem clear_savefd_shellfds_le (env : Env) : ∀ (stack : List savefd_T) (s : State)
    (x : Int), (clear_savefd env stack s).shellfds x = true → s.shellfds x = true := by
  intro stack
  induction stack with
  | nil => intro s x h; exact h
  | cons e rest ih =>
    intro s x h
    simp only [clear_savefd] at h
    have h2 := ih _ x h
    split_ifs at h2
    · rw [(kstep_xclose _ _).shellfds, remove_shellfd_shellfds] at h2
      split_ifs at h2
      exact h2
    · exact h2

theorem clear_savefd_closed_stays (env : Env) : ∀ (stack : List savefd_T) (s : State)
    (z : Int), s.fds z = none → (clear_savefd env stack s).fds z = none := by
  intro stack
  induction stack with
  | nil => intro s z h; exact h
  | cons e rest ih =>
    intro s z h
    simp only [clear_savefd]
    apply ih
    split_ifs
    · rw [xclose_fds, remove_shellfd_fds]
      simp only [upd_apply]
      split_ifs
      · rfl
      · exact h
    · exact h

theorem clear_savefd_releases (env : Env) : ∀ (stack : List savefd_T) (s : State)
    (e : savefd_T), e ∈ stack → 0 ≤ e.sf_copyfd →
    (clear_savefd env stack s).fds e.sf_copyfd = none ∧
    (e.sf_copyfd < env.FD_SETSIZE →
      is_shellfd env e.sf_copyfd (clear_savefd env stack s) = false) := by
  intro stack
  induction stack with
  | nil => intro s e h; simp at h
  | cons e0 rest ih =>
    intro s e he h0
    rcases List.mem_cons.mp he with h | h
    · subst h
      have hge : e.sf_copyfd ≥ 0 := h0
      simp only [clear_savefd, hge, if_true]
      constructor
      · apply clear_savefd_closed_stays
        rw [xclose_fds]; simp [upd_apply]
      · intro h1
        have hn : ¬ is_shellfd env e.sf_copyfd (clear_savefd env rest
            (xclose e.sf_copyfd (remove_shellfd env e.sf_copyfd s)).2) = true := by
          rw [is_shellfd_iff]
          rintro (hc | ⟨_, hc⟩)
          · omega
          · have := clear_savefd_shellfds_le env rest _ _ hc
            rw [(kstep_xclose _ _).shellfds, remove_shellfd_shellfds] at this
            simp [h0, h1] at this
        simpa using hn
    · simp only [clear_savefd]
      exact ih _ e h h0

theorem undo_redirections_closed_stays (env : Env) : ∀ (stack : List savefd_T) (s : State)
    (z : Int), (∀ e ∈ stack, e.sf_origfd ≠ z) → fileOf s z = none →
    fileOf (undo_redirections env stack s) z = none := by
  intro stack
  induction stack with
  | nil => intro s z _ h; exact h
  | cons e rest ih =>
    intro s z hne h
    simp only [undo_redirections]
    apply ih _ z (fun e' he' => hne e' (List.mem_cons_of_mem _ he'))
    rw [fileOf_undo_redirection]
    have hz : z ≠ e.sf_origfd := fun hc => hne e (List.mem_cons_self _ _) hc.symm
    split_ifs <;> simp_all

theorem undo_redirections_closes_copy (env : Env) (pre post : List savefd_T) (e : savefd_T)
    (s : State) (h0 : 0 ≤ e.sf_copyfd) (hpost : ∀ e' ∈ post, e'.sf_origfd ≠ e.sf_copyfd) :
    (undo_redirections env (pre ++ e :: post) s).fds e.sf_copyfd = none := by
  rw [undo_redirections_append]
  simp only [undo_redirections]
  have := undo_redirections_closed_stays env post
    (undo_redirection env e (undo_redirections env pre s)) e.sf_copyfd hpost
    (by rw [fileOf_undo_redirection]; simp [h0])
  simpa [fileOf] using this

/-! ## The steps of `open_redirections` -/

theorem RStep.r_refl (s : State) : RStep s s :=
  ⟨rfl, rfl, fun _ h => h, le_refl _, id⟩

theorem RStep.r_trans {s t u : State} (h1 : RStep s t) (h2 : RStep t u) : RStep s u :=
  ⟨h2.openMax.trans h1.openMax, h2.shellfdmin.trans h1.shellfdmin,
   fun x h => h2.shellfds x (h1.shellfds x h), le_trans h1.saves h2.saves,
   fun h => h2.ok (h1.ok h)⟩

theorem KStep.rstep {s t : State} (h : KStep s t) : RStep s t :=
  ⟨h.openMax, h.shellfdmin, fun x hx => by rw [h.shellfds]; exact hx, le_of_eq h.saves.symm,
   h.ok⟩

theorem rstep_set_stdin (s : State) (b : Bool) :
    RStep s { s with is_stdin_redirected := b } :=
  ⟨rfl, rfl, fun _ h => h, le_refl _, id⟩

theorem is_shellfd_mono (env : Env) {s t : State} (h : RStep s t) (x : Int)
    (hx : is_shellfd env x s = true) : is_shellfd env x t = true := by
  rw [is_shellfd_iff] at hx ⊢
  rcases hx with hx | ⟨h0, hx⟩
  · exact Or.inl hx
  · exact Or.inr ⟨h0, h.shellfds x hx⟩

theorem Pushed.none_pushed (env : Env) (save : Option (List savefd_T)) (t : State) :
    Pushed env save save t :=
  ⟨[], by cases save <;> simp, fun e he => by simp at he⟩

theorem Pushed.later {env : Env} {save save' : Option (List savefd_T)} {t u : State}
    (h : Pushed env save save' t) (hu : RStep t u) : Pushed env save save' u := by
  obtain ⟨new, h1, h2⟩ := h
  exact ⟨new, h1, fun e he h0 => is_shellfd_mono env hu _ (h2 e he h0)⟩

theorem Pushed.push_trans {env : Env} {a b c : Option (List savefd_T)} {t u : State}
    (h1 : Pushed env a b t) (hu : RStep t u) (h2 : Pushed env b c u) : Pushed env a c u := by
  obtain ⟨n1, e1, r1⟩ := h1
  obtain ⟨n2, e2, r2⟩ := h2
  refine ⟨n2 ++ n1, ?_, ?_⟩
  · rw [e2, e1]; cases a <;> simp
  · intro e he h0
    rcases List.mem_append.mp he with h | h
    · exact r2 e h h0
    · exact is_shellfd_mono env hu _ (r1 e h h0)

theorem rstep_save_fd (env : Env) (fd : Int) (s : State) (save : Option (List savefd_T)) :
    RStep s (save_fd env fd s save).1 ∧ Pushed env save (save_fd env fd s save).2
      (save_fd env fd s save).1 := by
  cases save with
  | none => exact ⟨RStep.r_refl s, Pushed.none_pushed env none s⟩
  | some stack =>
    obtain ⟨h1, h2, h3⟩ := save_fd_cases env fd s stack
    cases he : s.fds fd with
    | none =>
      rw [h1 he]
      refine ⟨KStep.rstep ?_, ⟨[_], rfl, ?_⟩⟩
      · exact kstep_of_eq rfl rfl rfl rfl rfl rfl rfl rfl
      intro e hmem h0
      simp only [List.mem_singleton] at hmem
      subst hmem
      simp at h0
    | some e0 =>
      by_cases hbad : s.shellfdmin < 0 ∨ s.openMax ≤ s.shellfdmin ∨
          lowestFree s s.shellfdmin = none
      · obtain ⟨err, h⟩ := h3 e0 he hbad
        rw [h]
        refine ⟨⟨rfl, rfl, fun _ hx => hx, ?_, fun hk => hk⟩, Pushed.none_pushed env _ _⟩
        rw [saveFailures_xerror]
        show saveFailures s ≤ saveFailures s + _
        omega
      · have ha : 0 ≤ s.shellfdmin := by
          by_contra hc; exact hbad (Or.inl (by omega))
        have hb : s.shellfdmin < s.openMax := by
          by_contra hc; exact hbad (Or.inr (Or.inl (by omega)))
        obtain ⟨c, hc⟩ : ∃ c, lowestFree s s.shellfdmin = some c := by
          cases hl : lowestFree s s.shellfdmin with
          | none => exact absurd (Or.inr (Or.inr hl)) hbad
          | some c => exact ⟨c, rfl⟩
        rw [h2 e0 c he ha hb hc]
        obtain ⟨l1, l2, l3, _⟩ := lowestFree_some hc
        obtain ⟨f1, f2, f3, f4, f5, f6, f7⟩ := add_shellfd_frame env c
          (setFd s c (some { ofd := e0.ofd, cloexec := true }))
        have hfds := add_shellfd_fds env c (setFd s c (some { ofd := e0.ofd, cloexec := true }))
        refine ⟨⟨f2, f3, ?_, ?_, ?_⟩, ⟨[_], rfl, ?_⟩⟩
        · intro x hx
          rw [add_shellfd_shellfds]
          split_ifs
          · rfl
          · exact hx
        · apply le_of_eq
          simp only [saveFailures, f4]; rfl
        · intro hk x e hx
          rw [hfds] at hx
          rw [f2]
          simp only [setFd, upd_apply] at hx
          by_cases hxc : x = c
          · subst hxc; exact ⟨by omega, l2⟩
          · simp only [hxc, if_false] at hx; exact hk x e hx
        · intro e hmem h0
          simp only [List.mem_singleton] at hmem
          subst hmem
          exact is_shellfd_add_shellfd_self env c _ (by omega)

theorem parse_fd_number_sameFds (num : List Char) (s : State) :
    SameFds s (parse_fd_number num s).2 := by
  obtain ⟨err, h⟩ := parse_fd_number_state num s
  rw [h]; exact sameFds_of_eq rfl rfl rfl rfl rfl rfl rfl rfl

theorem rstep_parse_and_exec_pipe (env : Env) (outputfd : Int) (num : List Char) (s : State)
    (save : Option (List savefd_T)) :
    RStep s (parse_and_exec_pipe env outputfd num s save).2.1 ∧
    Pushed env save (parse_and_exec_pipe env outputfd num s save).2.2
      (parse_and_exec_pipe env outputfd num s save).2.1 := by
  have hp := parse_fd_number_sameFds num s
  simp only [parse_and_exec_pipe]
  generalize parse_fd_number num s = p at hp ⊢
  have hx : ∀ d : Diag, isCannotSave d = false →
      RStep s (xerror d p.2) ∧ Pushed env save save (xerror d p.2) :=
    fun d hd => ⟨(hp.and_xerror d hd).2.rstep, Pushed.none_pushed env _ _⟩
  split_ifs
  · exact hx _ rfl
  · exact hx _ rfl
  · exact hx _ rfl
  · obtain ⟨h1, h2⟩ := rstep_save_fd env p.1 p.2 save
    have h3 := (pipe_open_spec env outputfd p.1 (save_fd env p.1 p.2 save).1).1.rstep
    exact ⟨(hp.2.rstep.r_trans h1).r_trans h3, h2.later h3⟩

theorem stepOk_produced (env : Env) {s : State} (save : Option (List savefd_T))
    (d : Int × State) (hd : Produced s d.1 d.2) :
    StepOk env s save
      (if d.1 < 0 then ((none : Option (Int × Bool)), d.2, save)
        else (some (d.1, false), d.2, save)).2.1
      (if d.1 < 0 then ((none : Option (Int × Bool)), d.2, save)
        else (some (d.1, false), d.2, save)).2.2 := by
  split_ifs
  · exact ⟨hd.1.rstep, Pushed.none_pushed env _ _⟩
  · exact ⟨hd.1.rstep, Pushed.none_pushed env _ _⟩

theorem stepOk_file (env : Env) (s : State) (save : Option (List savefd_T))
    (filename : List Char) (fl : OFlags) :
    StepOk env s save
      (if (open_file env filename fl s).1 < 0 then
          ((none : Option (Int × Bool)),
            xerror (Diag.cannot_open filename) (open_file env filename fl s).2, save)
        else (some ((open_file env filename fl s).1, false),
          (open_file env filename fl s).2, save)).2.1
      (if (open_file env filename fl s).1 < 0 then
          ((none : Option (Int × Bool)),
            xerror (Diag.cannot_open filename) (open_file env filename fl s).2, save)
        else (some ((open_file env filename fl s).1, false),
          (open_file env filename fl s).2, save)).2.2 := by
  have hd := open_file_produced env filename fl s
  split_ifs
  · exact ⟨(KStep.trans hd.1 (kstep_xerror (Diag.cannot_open filename) rfl _)).rstep,
      Pushed.none_pushed env _ _⟩
  · exact ⟨hd.1.rstep, Pushed.none_pushed env _ _⟩

theorem stepOk_dup (env : Env) (s : State) (save : Option (List savefd_T))
    (filename : List Char) (ty : redirtype_T) :
    StepOk env s save
      (if (parse_and_check_dup env filename ty s).1 < -1 then
          ((none : Option (Int × Bool)), (parse_and_check_dup env filename ty s).2, save)
        else (some ((parse_and_check_dup env filename ty s).1, true),
          (parse_and_check_dup env filename ty s).2, save)).2.1
      (if (parse_and_check_dup env filename ty s).1 < -1 then
          ((none : Option (Int × Bool)), (parse_and_check_dup env filename ty s).2, save)
        else (some ((parse_and_check_dup env filename ty s).1, true),
          (parse_and_check_dup env filename ty s).2, save)).2.2 := by
  have hd := (parse_and_check_dup_fds env filename ty s).2
  split_ifs
  · exact ⟨hd.rstep, Pushed.none_pushed env _ _⟩
  · exact ⟨hd.rstep, Pushed.none_pushed env _ _⟩

theorem stepOk_pipe (env : Env) (s : State) (save : Option (List savefd_T))
    (filename : List Char) (fd : Int) :
    StepOk env s save
      (if (parse_and_exec_pipe env fd filename s save).1 < -1 then
          ((none : Option (Int × Bool)), (parse_and_exec_pipe env fd filename s save).2.1,
            (parse_and_exec_pipe env fd filename s save).2.2)
        else (some ((parse_and_exec_pipe env fd filename s save).1, false),
          (parse_and_exec_pipe env fd filename s save).2.1,
          (parse_and_exec_pipe env fd filename s save).2.2)).2.1
      (if (parse_and_exec_pipe env fd filename s save).1 < -1 then
          ((none : Option (Int × Bool)), (parse_and_exec_pipe env fd filename s save).2.1,
            (parse_and_exec_pipe env fd filename s save).2.2)
        else (some ((parse_and_exec_pipe env fd filename s save).1, false),
          (parse_and_exec_pipe env fd filename s save).2.1,
          (parse_and_exec_pipe env fd filename s save).2.2)).2.2 := by
  have hd := rstep_parse_and_exec_pipe env fd filename s save
  split_ifs
  · exact hd
  · exact hd

theorem stepOk_open_redirection_fd (env : Env) (r : redir_T) (filename : List Char) (s : State)
    (save : Option (List savefd_T)) :
    StepOk env s save (open_redirection_fd env r filename s save).2.1
      (open_redirection_fd env r filename s save).2.2 := by
  obtain ⟨ty, fd, fname, here, cmd⟩ := r
  unfold open_redirection_fd
  cases ty
  case RT_DUPIN => exact stepOk_dup env s save filename _
  case RT_DUPOUT => exact stepOk_dup env s save filename _
  case RT_PIPE => exact stepOk_pipe env s save filename fd
  case RT_HERE => exact stepOk_produced env save _ (open_heredocument_produced env here s)
  case RT_HERERT => exact stepOk_produced env save _ (open_heredocument_produced env here s)
  case RT_HERESTR => exact stepOk_produced env save _ (open_herestring_produced env filename true s)
  case RT_PROCIN => exact stepOk_produced env save _ (open_process_redirection_produced env _ s)
  case RT_PROCOUT => exact stepOk_produced env save _ (open_process_redirection_produced env _ s)
  all_goals exact stepOk_file env s save filename _

theorem rstep_open_redirection_finish (r : redir_T) (s : State)
    (save : Option (List savefd_T)) : RStep s (open_redirection_finish r s save).2.1 := by
  unfold open_redirection_finish
  split
  · exact rstep_set_stdin s true
  · exact RStep.r_refl s

theorem open_redirection_finish_save (r : redir_T) (s : State)
    (save : Option (List savefd_T)) : (open_redirection_finish r s save).2.2 = save := rfl

theorem rstep_open_redirection_move (r : redir_T) (fd : Int) (k : Bool) (s : State)
    (save : Option (List savefd_T)) :
    RStep s (open_redirection_move r fd k s save).2.1 ∧
      (open_redirection_move r fd k s save).2.2 = save := by
  simp only [open_redirection_move]
  by_cases h1 : fd ≠ r.rd_fd
  · rw [if_pos h1]
    by_cases h2 : fd ≥ 0
    · rw [if_pos h2]
      have hx := (kstep_xdup2 fd r.rd_fd s).rstep
      by_cases h3 : (xdup2 fd r.rd_fd s).1 < 0
      · rw [if_pos h3]; exact ⟨hx, rfl⟩
      · rw [if_neg h3]
        refine ⟨?_, rfl⟩
        refine RStep.r_trans ?_ (rstep_open_redirection_finish _ _ _)
        by_cases hk : k = true
        · rw [if_pos hk]; exact hx
        · rw [if_neg hk]; exact hx.r_trans (kstep_xclose _ _).rstep
    · rw [if_neg h2]
      exact ⟨(kstep_xclose _ _).rstep.r_trans (rstep_open_redirection_finish _ _ _), rfl⟩
  · rw [if_neg h1]
    exact ⟨rstep_open_redirection_finish _ _ _, rfl⟩

theorem stepOk_open_redirection_open (env : Env) (r : redir_T) (filename : List Char)
    (s : State) (save : Option (List savefd_T)) :
    StepOk env s save (open_redirection_open env r filename s save).2.1
      (open_redirection_open env r filename s save).2.2 := by
  obtain ⟨h1, h2⟩ := stepOk_open_redirection_fd env r filename s save
  unfold open_redirection_open
  simp only []
  generalize open_redirection_fd env r filename s save = o at h1 h2 ⊢
  cases ho : o.1 with
  | none => exact ⟨h1, h2⟩
  | some fk =>
    simp only []
    obtain ⟨m1, m2⟩ := rstep_open_redirection_move r fk.1 fk.2 o.2.1 o.2.2
    rw [m2]
    exact ⟨h1.r_trans m1, h2.later m1⟩

theorem expand_redir_filename_sameFds (env : Env) (w : List Char) (s : State) :
    SameFds s (expand_redir_filename env w s).2 := by
  unfold expand_redir_filename
  split
  · exact SameFds.step_refl s
  · cases env.expand_single w with
    | none => exact SameFds.step_refl s
    | some res =>
      simp only []
      cases env.realloc_wcstombs res with
      | none => exact sameFds_xerror Diag.redirection_eilseq rfl s
      | some m => exact SameFds.step_refl s

theorem stepOk_open_redirection (env : Env) (r : redir_T) (s : State)
    (save : Option (List savefd_T)) :
    StepOk env s save (open_redirection env r s save).2.1 (open_redirection env r s save).2.2 := by
  simp only [open_redirection]
  by_cases hb : r.rd_fd < 0 ∨ is_shellfd env r.rd_fd s = true
  · rw [if_pos hb]
    exact ⟨(kstep_xerror (Diag.fd_unavailable r.rd_fd) rfl s).rstep, Pushed.none_pushed env _ _⟩
  · rw [if_neg hb]
    have he : SameFds s (if expands_filename r.rd_type = true then
        expand_redir_filename env r.rd_filename s else (some [], s)).2 := by
      split
      · exact expand_redir_filename_sameFds env _ s
      · exact SameFds.step_refl s
    generalize (if expands_filename r.rd_type = true then
        expand_redir_filename env r.rd_filename s else (some [], s)) = e at he ⊢
    cases hf : e.1 with
    | none => exact ⟨he.2.rstep, Pushed.none_pushed env _ _⟩
    | some filename =>
      simp only []
      obtain ⟨s1, s2⟩ := rstep_save_fd env r.rd_fd e.2 save
      obtain ⟨o1, o2⟩ := stepOk_open_redirection_open env r filename
        (save_fd env r.rd_fd e.2 save).1 (save_fd env r.rd_fd e.2 save).2
      exact ⟨(he.2.rstep.r_trans s1).r_trans o1, s2.push_trans o1 o2⟩

theorem stepOk_open_redirections_loop (env : Env) : ∀ (rs : List redir_T) (s : State)
    (save : Option (List savefd_T)),
    StepOk env s save (open_redirections_loop env rs s save).2.1
      (open_redirections_loop env rs s save).2.2 := by
  intro rs
  induction rs with
  | nil => intro s save; exact ⟨RStep.r_refl s, Pushed.none_pushed env _ _⟩
  | cons r rest ih =>
    intro s save
    simp only [open_redirections_loop]
    obtain ⟨h1, h2⟩ := stepOk_open_redirection env r s save
    by_cases ho : (open_redirection env r s save).1 = true
    · rw [if_pos ho]
      obtain ⟨i1, i2⟩ := ih (open_redirection env r s save).2.1 (open_redirection env r s save).2.2
      exact ⟨h1.r_trans i1, h2.push_trans i1 i2⟩
    · rw [if_neg ho]
      exact ⟨h1, h2⟩

/-! ## Claims about the save stack -/

/-- C6 (as amended): every saved copy on the stack `open_redirections` builds
is a shell FD in the state the call ends in, whatever the specs and whether
the call succeeds. After `undo_redirections` or `clear_savefd` of any stack,
`is_shellfd` is false for every saved copy below `FD_SETSIZE`; after
`clear_savefd` every saved copy is closed; after `undo_redirections` a saved
copy is closed when no older entry of the stack has that number as its
original descriptor. -/
theorem saved_copies_registered_until_released (env : Env) :
    (∀ (specs : List redir_T) (s : State) (save : Option (List savefd_T))
        (stack : List savefd_T),
      (open_redirections env specs s save).2.2 = some stack →
      ∀ e ∈ stack, 0 ≤ e.sf_copyfd →
        is_shellfd env e.sf_copyfd (open_redirections env specs s save).2.1 = true) ∧
    (∀ (stack : List savefd_T) (s : State) (e : savefd_T), e ∈ stack → 0 ≤ e.sf_copyfd →
      e.sf_copyfd < env.FD_SETSIZE →
      is_shellfd env e.sf_copyfd (undo_redirections env stack s) = false ∧
      is_shellfd env e.sf_copyfd (clear_savefd env stack s) = false) ∧
    (∀ (stack : List savefd_T) (s : State) (e : savefd_T), e ∈ stack → 0 ≤ e.sf_copyfd →
      (clear_savefd env stack s).fds e.sf_copyfd = none) ∧
    (∀ (pre post : List savefd_T) (e : savefd_T) (s : State), 0 ≤ e.sf_copyfd →
      (∀ older ∈ post, older.sf_origfd ≠ e.sf_copyfd) →
      (undo_redirections env (pre ++ e :: post) s).fds e.sf_copyfd = none) := by
  refine ⟨?_, ?_, ?_, ?_⟩
  · intro specs s save stack hst e he h0
    obtain ⟨_, new, hnew, hreg⟩ :=
      stepOk_open_redirections_loop env specs s (save.map (fun _ => []))
    have hst2 : (open_redirections_loop env specs s (save.map (fun _ => []))).2.2 = some stack :=
      hst
    rw [hst2] at hnew
    cases save with
    | none => simp at hnew
    | some st0 =>
      simp only [Option.map_some', List.append_nil, Option.some.injEq] at hnew
      subst hnew
      exact hreg e he h0
  · intro stack s e he h0 h1
    exact ⟨undo_redirections_unregisters env stack s e he h0 h1,
      (clear_savefd_releases env stack s e he h0).2 h1⟩
  · intro stack s e he h0
    exact (clear_savefd_releases env stack s e he h0).1
  · intro pre post e s h0 hpost
    exact undo_redirections_closes_copy env pre post e s h0 hpost

/-- C6, counterexample: with the user's descriptors 11 and 12 open,
`12>&-` saves 12 on 10 and `1>&-` then saves 1 on the number 12, which is
closed by then. `undo_redirections` restores the original descriptor 12
after it has consumed the entry whose saved copy is 12, so that saved copy
is not closed when it returns. -/
theorem saved_copy_open_after_undo :
    (open_redirections envLinux specsCloseTwice (stateWith 1024 [11, 12]) (some [])).2.2 =
      some [{ sf_origfd := 1, sf_copyfd := 12, sf_stdin_redirected := false },
            { sf_origfd := 12, sf_copyfd := 10, sf_stdin_redirected := false }] ∧
    (undo_redirections envLinux
        [{ sf_origfd := 1, sf_copyfd := 12, sf_stdin_redirected := false },
         { sf_origfd := 12, sf_copyfd := 10, sf_stdin_redirected := false }]
        (open_redirections envLinux specsCloseTwice (stateWith 1024 [11, 12])
          (some [])).2.1).fds 12 ≠ none := by
  constructor
  · decide
  · decide

theorem xdup2_fds_other (o n : Int) (s : State) (z : Int) (hz : z ≠ n) :
    (xdup2 o n s).2.fds z = s.fds z := by
  by_cases h : (∃ e, s.fds o = some e) ∧ o ≠ n ∧ 0 ≤ n ∧ n < s.openMax
  · obtain ⟨⟨e, he⟩, h1, h2, h3⟩ := h
    rw [(xdup2_ok he h1 h2 h3).2]; simp [upd_apply, hz]
  · have : s.fds o = none ∨ o = n ∨ n < 0 ∨ s.openMax ≤ n := by
      by_contra hc
      push_neg at hc
      apply h
      refine ⟨?_, hc.2.1, by omega, by omega⟩
      cases hs : s.fds o with
      | none => exact absurd hs hc.1
      | some e => exact ⟨e, rfl⟩
    rw [(xdup2_fail this).2]; simp [upd_apply, hz]

/-- Moving a descriptor that is kept open touches the target only. -/
theorem open_redirection_move_keep (r : redir_T) (fd : Int) (s : State)
    (save : Option (List savefd_T)) (z : Int) (hz : z ≠ r.rd_fd) :
    (open_redirection_move r fd true s save).2.1.fds z = s.fds z := by
  simp only [open_redirection_move]
  by_cases h1 : fd ≠ r.rd_fd
  · rw [if_pos h1]
    by_cases h2 : fd ≥ 0
    · rw [if_pos h2]
      by_cases h3 : (xdup2 fd r.rd_fd s).1 < 0
      · rw [if_pos h3]; exact xdup2_fds_other _ _ _ _ hz
      · rw [if_neg h3]
        rw [open_redirection_finish_fds]
        simp only [if_true]
        exact xdup2_fds_other _ _ _ _ hz
    · rw [if_neg h2, open_redirection_finish_fds, xclose_fds]
      simp [upd_apply, hz]
  · rw [if_neg h1, open_redirection_finish_fds]

/-- Moving a freshly opened descriptor touches the target and closes the
descriptor, unless `dup2` onto the target fails. -/
theorem open_redirection_move_fresh (r : redir_T) (fd : Int) (s : State)
    (save : Option (List savefd_T)) (y : FdEntry) (h0 : 0 ≤ fd) (hy : s.fds fd = some y)
    (hr : 0 ≤ r.rd_fd)
    (hleak : (open_redirection_move r fd false s save).1 = true ∨ r.rd_fd < s.openMax)
    (z : Int) (hz : z ≠ r.rd_fd) :
    (open_redirection_move r fd false s save).2.1.fds z = if z = fd then none else s.fds z := by
  simp only [open_redirection_move] at hleak ⊢
  by_cases h1 : fd ≠ r.rd_fd
  · rw [if_pos h1] at hleak ⊢
    have h2 : fd ≥ 0 := h0
    rw [if_pos h2] at hleak ⊢
    by_cases hrange : r.rd_fd < s.openMax
    · obtain ⟨x1, x2⟩ := xdup2_ok hy h1 hr hrange
      have h3 : ¬ (xdup2 fd r.rd_fd s).1 < 0 := by rw [x1]; omega
      rw [if_neg h3, open_redirection_finish_fds]
      simp only [Bool.false_eq_true, if_false]
      rw [xclose_fds, x2]
      simp only [upd_apply, hz, if_false]
    · obtain ⟨x1, _⟩ := xdup2_fail (s := s) (o := fd) (n := r.rd_fd)
        (Or.inr (Or.inr (Or.inr (by omega))))
      have h3 : (xdup2 fd r.rd_fd s).1 < 0 := by rw [x1]; decide
      rw [if_pos h3] at hleak
      rcases hleak with h | h
      · simp at h
      · exact absurd h hrange
  · have h1' : fd = r.rd_fd := by simpa using h1
    rw [if_neg h1, open_redirection_finish_fds]
    have : z ≠ fd := by rw [h1']; exact hz
    simp [this]

theorem open_redirection_move_save (r : redir_T) (fd : Int) (k : Bool) (s : State)
    (save : Option (List savefd_T)) : (open_redirection_move r fd k s save).2.2 = save :=
  (rstep_open_redirection_move r fd k s save).2

theorem openedOther_produced {s : State} (save : Option (List savefd_T))
    (d : Int × State) (hd : Produced s d.1 d.2) :
    OpenedOther s save
      (if d.1 < 0 then ((none : Option (Int × Bool)), d.2, save)
        else (some (d.1, false), d.2, save)) := by
  obtain ⟨_, hd⟩ := hd
  by_cases h : d.1 < 0
  · rw [if_pos h]
    rcases hd with ⟨_, b⟩ | ⟨a, _⟩
    · exact ⟨rfl, Or.inl ⟨rfl, b⟩⟩
    · omega
  · rw [if_neg h]
    rcases hd with ⟨a, _⟩ | ⟨a, _, c, y, d'⟩
    · omega
    · exact ⟨rfl, Or.inr (Or.inr ⟨d.1, y, rfl, a, c, d'⟩)⟩

theorem openedOther_file (env : Env) (s : State) (save : Option (List savefd_T))
    (filename : List Char) (fl : OFlags) :
    OpenedOther s save
      (if (open_file env filename fl s).1 < 0 then
          ((none : Option (Int × Bool)),
            xerror (Diag.cannot_open filename) (open_file env filename fl s).2, save)
        else (some ((open_file env filename fl s).1, false),
          (open_file env filename fl s).2, save)) := by
  obtain ⟨_, hd⟩ := open_file_produced env filename fl s
  by_cases h : (open_file env filename fl s).1 < 0
  · rw [if_pos h]
    rcases hd with ⟨_, b⟩ | ⟨a, _⟩
    · exact ⟨rfl, Or.inl ⟨rfl, b⟩⟩
    · omega
  · rw [if_neg h]
    rcases hd with ⟨a, _⟩ | ⟨a, _, c, y, d'⟩
    · omega
    · exact ⟨rfl, Or.inr (Or.inr ⟨_, y, rfl, a, c, d'⟩)⟩

theorem openedOther_dup (env : Env) (s : State) (save : Option (List savefd_T))
    (filename : List Char) (ty : redirtype_T) :
    OpenedOther s save
      (if (parse_and_check_dup env filename ty s).1 < -1 then
          ((none : Option (Int × Bool)), (parse_and_check_dup env filename ty s).2, save)
        else (some ((parse_and_check_dup env filename ty s).1, true),
          (parse_and_check_dup env filename ty s).2, save)) := by
  have hd := (parse_and_check_dup_fds env filename ty s).1
  by_cases h : (parse_and_check_dup env filename ty s).1 < -1
  · rw [if_pos h]; exact ⟨rfl, Or.inl ⟨rfl, hd⟩⟩
  · rw [if_neg h]; exact ⟨rfl, Or.inr (Or.inl ⟨_, rfl, hd⟩)⟩

theorem openedOther_open_redirection_fd (env : Env) (r : redir_T) (filename : List Char)
    (s : State) (save : Option (List savefd_T)) (hne : r.rd_type ≠ redirtype_T.RT_PIPE) :
    OpenedOther s save (open_redirection_fd env r filename s save) := by
  obtain ⟨ty, fd, fname, here, cmd⟩ := r
  unfold open_redirection_fd
  cases ty
  case RT_DUPIN => exact openedOther_dup env s save filename _
  case RT_DUPOUT => exact openedOther_dup env s save filename _
  case RT_PIPE => exact absurd rfl hne
  case RT_HERE => exact openedOther_produced save _ (open_heredocument_produced env here s)
  case RT_HERERT => exact openedOther_produced save _ (open_heredocument_produced env here s)
  case RT_HERESTR => exact openedOther_produced save _ (open_herestring_produced env filename true s)
  case RT_PROCIN => exact openedOther_produced save _ (open_process_redirection_produced env _ s)
  case RT_PROCOUT => exact openedOther_produced save _ (open_process_redirection_produced env _ s)
  all_goals exact openedOther_file env s save filename _

/-- A redirection that is not a pipe changes the target descriptor only,
unless `dup2` onto the target fails with the new descriptor open. -/
theorem open_redirection_open_other (env : Env) (r : redir_T) (filename : List Char)
    (s : State) (save : Option (List savefd_T)) (hne : r.rd_type ≠ redirtype_T.RT_PIPE)
    (hr : 0 ≤ r.rd_fd)
    (hleak : (open_redirection_open env r filename s save).1 = true ∨ r.rd_fd < s.openMax) :
    (open_redirection_open env r filename s save).2.2 = save ∧
    ∀ z, z ≠ r.rd_fd → (open_redirection_open env r filename s save).2.1.fds z = s.fds z := by
  obtain ⟨h1, h2⟩ := openedOther_open_redirection_fd env r filename s save hne
  have hom := (stepOk_open_redirection_fd env r filename s save).1.openMax
  simp only [open_redirection_open] at hleak ⊢
  generalize open_redirection_fd env r filename s save = o at h1 h2 hleak hom ⊢
  rcases h2 with ⟨a, b⟩ | ⟨fd, a, b⟩ | ⟨fd, y, a, b, c, d⟩
  · rw [a]
    exact ⟨h1, fun z _ => by rw [b]⟩
  · rw [a]
    simp only []
    refine ⟨(open_redirection_move_save _ _ _ _ _).trans h1, fun z hz => ?_⟩
    rw [open_redirection_move_keep r fd o.2.1 o.2.2 z hz, b]
  · rw [a] at hleak ⊢
    simp only [] at hleak ⊢
    refine ⟨(open_redirection_move_save _ _ _ _ _).trans h1, fun z hz => ?_⟩
    have hy : o.2.1.fds fd = some y := by rw [d]; simp [upd_apply]
    rw [open_redirection_move_fresh r fd o.2.1 o.2.2 y b hy hr
      (by rw [hom]; exact hleak) z hz, d]
    by_cases hzf : z = fd
    · rw [if_pos hzf, hzf, c]
    · rw [if_neg hzf]; simp [upd_apply, hzf]

theorem save_fd_savedAs (env : Env) (fd : Int) (s : State) (stack : List savefd_T)
    (hsave : saveFailures (save_fd env fd s (some stack)).1 = saveFailures s) :
    ∃ e, (save_fd env fd s (some stack)).2 = some (e :: stack) ∧ e.sf_origfd = fd ∧
      SavedAs s e (save_fd env fd s (some stack)).1.fds ∧
      (0 ≤ e.sf_copyfd → is_shellfd env e.sf_copyfd (save_fd env fd s (some stack)).1 = true) := by
  obtain ⟨h1, h2, h3⟩ := save_fd_cases env fd s stack
  cases he : s.fds fd with
  | none =>
    rw [h1 he]
    refine ⟨_, rfl, rfl, ⟨rfl, Or.inl ⟨rfl, he, rfl⟩⟩, ?_⟩
    intro h0; simp at h0
  | some e0 =>
    by_cases hbad : s.shellfdmin < 0 ∨ s.openMax ≤ s.shellfdmin ∨
        lowestFree s s.shellfdmin = none
    · exfalso
      obtain ⟨err, h⟩ := h3 e0 he hbad
      rw [h] at hsave
      simp only [saveFailures_xerror] at hsave
      have : saveFailures { s with errno := err } = saveFailures s := rfl
      rw [this] at hsave
      simp [isCannotSave] at hsave
    · have ha : 0 ≤ s.shellfdmin := by
        by_contra hc; exact hbad (Or.inl (by omega))
      have hb : s.shellfdmin < s.openMax := by
        by_contra hc; exact hbad (Or.inr (Or.inl (by omega)))
      obtain ⟨c, hc⟩ : ∃ c, lowestFree s s.shellfdmin = some c := by
        cases hl : lowestFree s s.shellfdmin with
        | none => exact absurd (Or.inr (Or.inr hl)) hbad
        | some c => exact ⟨c, rfl⟩
      rw [h2 e0 c he ha hb hc]
      obtain ⟨l1, l2, l3, _⟩ := lowestFree_some hc
      have hc0 : (0 : Int) ≤ c := by omega
      refine ⟨_, rfl, rfl, ⟨rfl, Or.inr ⟨hc0, l1, l3, e0, he, ?_⟩⟩, ?_⟩
      · simp only [add_shellfd_fds]; rfl
      · intro _; exact is_shellfd_add_shellfd_self env c _ hc0

theorem SavedAs.of_sameFds {s s' : State} {e : savefd_T} {T : Int → Option FdEntry}
    (h : SameFds s s') (hs : SavedAs s' e T) : SavedAs s e T := by
  obtain ⟨h1, h2⟩ := hs
  refine ⟨h1.trans h.2.stdin, ?_⟩
  rcases h2 with ⟨a, b, c⟩ | ⟨a, b, c, x, d, f⟩
  · exact Or.inl ⟨a, by rw [← h.1]; exact b, by rw [c, h.1]⟩
  · refine Or.inr ⟨a, by rw [← h.2.shellfdmin]; exact b, by rw [← h.1]; exact c, x,
      by rw [← h.1]; exact d, by rw [f, h.1]⟩

/-- What `parse_and_exec_pipe` does to the stack and the table when `save_fd`
does not fail. -/
theorem parse_and_exec_pipe_table (env : Env) (outputfd : Int) (num : List Char) (s : State)
    (stack : List savefd_T)
    (hsave : saveFailures (parse_and_exec_pipe env outputfd num s (some stack)).2.1 =
      saveFailures s) :
    ((parse_and_exec_pipe env outputfd num s (some stack)).1 = -2 ∧
      (parse_and_exec_pipe env outputfd num s (some stack)).2.2 = some stack ∧
      (parse_and_exec_pipe env outputfd num s (some stack)).2.1.fds = s.fds) ∨
    (∃ e2 B, (parse_and_exec_pipe env outputfd num s (some stack)).2.2 = some (e2 :: stack) ∧
      e2.sf_origfd ≠ outputfd ∧ is_shellfd env e2.sf_origfd s = false ∧ SavedAs s e2 B ∧
      (((parse_and_exec_pipe env outputfd num s (some stack)).1 = -2 ∧
          ∀ z, z ≠ e2.sf_origfd →
            (parse_and_exec_pipe env outputfd num s (some stack)).2.1.fds z = B z) ∨
       (0 ≤ (parse_and_exec_pipe env outputfd num s (some stack)).1 ∧
          (parse_and_exec_pipe env outputfd num s (some stack)).1 ≠ e2.sf_origfd ∧
          B (parse_and_exec_pipe env outputfd num s (some stack)).1 = none ∧
          (∃ y, (parse_and_exec_pipe env outputfd num s (some stack)).2.1.fds
              (parse_and_exec_pipe env outputfd num s (some stack)).1 = some y) ∧
          ∀ z, z ≠ e2.sf_origfd →
            z ≠ (parse_and_exec_pipe env outputfd num s (some stack)).1 →
            (parse_and_exec_pipe env outputfd num s (some stack)).2.1.fds z = B z))) := by
  have hp := parse_fd_number_sameFds num s
  simp only [parse_and_exec_pipe] at hsave ⊢
  generalize parse_fd_number num s = p at hp hsave ⊢
  by_cases h1 : p.2.errno ≠ 0
  · rw [if_pos h1]; exact Or.inl ⟨rfl, rfl, hp.1⟩
  rw [if_neg h1] at hsave ⊢
  by_cases h2 : outputfd = p.1
  · rw [if_pos h2]; exact Or.inl ⟨rfl, rfl, hp.1⟩
  rw [if_neg h2] at hsave ⊢
  by_cases h3 : is_shellfd env p.1 p.2 = true
  · rw [if_pos h3]; exact Or.inl ⟨rfl, rfl, hp.1⟩
  rw [if_neg h3] at hsave ⊢
  right
  simp only [] at hsave ⊢
  have hsh : is_shellfd env p.1 s = false := by
    have : is_shellfd env p.1 p.2 = is_shellfd env p.1 s := by
      simp only [is_shellfd, FD_ISSET, hp.2.shellfds]
    rw [this] at h3; simpa using h3
  obtain ⟨hk, hspec⟩ := pipe_open_spec env outputfd p.1 (save_fd env p.1 p.2 (some stack)).1
  have hsv : saveFailures (save_fd env p.1 p.2 (some stack)).1 = saveFailures p.2 := by
    have a1 := (rstep_save_fd env p.1 p.2 (some stack)).1.saves
    have a2 := hk.saves
    have a3 := hp.2.saves
    omega
  obtain ⟨e2, he2, ho, hsa, _⟩ := save_fd_savedAs env p.1 p.2 stack hsv
  refine ⟨e2, (save_fd env p.1 p.2 (some stack)).1.fds, he2, ?_, ?_, hsa.of_sameFds hp, ?_⟩
  · rw [ho]; exact fun h => h2 h.symm
  · rw [ho]; exact hsh
  · rw [ho]
    rcases hspec with ⟨a, b, _⟩ | ⟨a, _, _, _, b, c, _, d, f, _⟩
    · exact Or.inl ⟨a, b⟩
    · exact Or.inr ⟨a, b, c, ⟨_, d⟩, f⟩

/-- A pipe redirection either is rejected before the companion descriptor
is saved, or pushes the entry of the companion and changes nothing beyond
the target, the companion and its saved copy. -/
theorem open_redirection_open_pipe (env : Env) (r : redir_T) (filename : List Char)
    (s : State) (stack : List savefd_T) (hp : r.rd_type = redirtype_T.RT_PIPE)
    (hr : 0 ≤ r.rd_fd)
    (hsave : saveFailures (open_redirection_open env r filename s (some stack)).2.1 =
      saveFailures s)
    (hleak : (open_redirection_open env r filename s (some stack)).1 = true ∨
      r.rd_fd < s.openMax) :
    ((open_redirection_open env r filename s (some stack)).2.2 = some stack ∧
      ∀ z, z ≠ r.rd_fd →
        (open_redirection_open env r filename s (some stack)).2.1.fds z = s.fds z) ∨
    (∃ e2 B, (open_redirection_open env r filename s (some stack)).2.2 = some (e2 :: stack) ∧
      e2.sf_origfd ≠ r.rd_fd ∧ SavedAs s e2 B ∧
      ∀ z, z ≠ r.rd_fd → z ≠ e2.sf_origfd →
        (open_redirection_open env r filename s (some stack)).2.1.fds z = B z) := by
  obtain ⟨ty, fd, fname, here, cmd⟩ := r
  simp only at hp hr
  subst hp
  have hst := stepOk_pipe env s (some stack) filename fd
  have htab := parse_and_exec_pipe_table env fd filename s stack
  simp only [open_redirection_open, open_redirection_fd] at hsave hleak hst ⊢
  generalize parse_and_exec_pipe env fd filename s (some stack) = d at hsave hleak hst htab ⊢
  by_cases hd : d.1 < -1
  · rw [if_pos hd] at hsave hleak ⊢
    simp only [] at hsave hleak ⊢
    rcases htab hsave with ⟨_, a, b⟩ | ⟨e2, B, a, b, _, c, h⟩
    · exact Or.inl ⟨a, fun z _ => by rw [b]⟩
    · refine Or.inr ⟨e2, B, a, b, c, fun z _ hz => ?_⟩
      rcases h with ⟨_, h⟩ | ⟨h, _⟩
      · exact h z hz
      · omega
  · rw [if_neg hd] at hsave hleak hst ⊢
    simp only [] at hsave hleak hst ⊢
    have hm := rstep_open_redirection_move
      { rd_type := redirtype_T.RT_PIPE, rd_fd := fd, rd_filename := fname,
        rd_herecontent := here, rd_command := cmd } d.1 false d.2.1 d.2.2
    have hsv : saveFailures d.2.1 = saveFailures s := by
      have a1 := hst.1.saves
      have a2 := hm.1.saves
      omega
    rw [hm.2]
    rcases htab hsv with ⟨a, _, _⟩ | ⟨e2, B, a, b, _, c, h⟩
    · omega
    · refine Or.inr ⟨e2, B, a, b, c, fun z hz hz2 => ?_⟩
      rcases h with ⟨h, _⟩ | ⟨h0, h1, h2, ⟨y, h3⟩, h4⟩
      · omega
      · rw [open_redirection_move_fresh _ d.1 d.2.1 d.2.2 y h0 h3 hr
          (by rw [hst.1.openMax]; exact hleak) z hz]
        by_cases hzd : z = d.1
        · rw [if_pos hzd, hzd, h2]
        · rw [if_neg hzd]; exact h4 z hz2 hzd

/-- Undoing the entry `e` that `save_fd` pushed in state `s` puts every
descriptor outside `X` back to what it was in `s`, when the current state
agrees with the table `save_fd` left on every descriptor outside `X` other
than the original. -/
theorem undo_redirection_restores (env : Env) (e : savefd_T) (s t : State)
    (T : Int → Option FdEntry) (X : Int → Prop) (hs : SavedAs s e T) (hok : TableOk s)
    (hom : t.openMax = s.openMax) (hX : ¬ X e.sf_copyfd)
    (hframe : ∀ z, ¬ X z → z ≠ e.sf_origfd → fileOf t z = (T z).map FdEntry.ofd) :
    ∀ z, ¬ X z → fileOf (undo_redirection env e t) z = fileOf s z := by
  intro z hz
  rw [fileOf_undo_redirection]
  obtain ⟨_, hs⟩ := hs
  rcases hs with ⟨a, b, c⟩ | ⟨a, _, b, x, c, d⟩
  · have hn : ¬ (0 : Int) ≤ e.sf_copyfd := by rw [a]; decide
    rw [if_neg hn]
    by_cases h1 : z = e.sf_origfd
    · rw [if_pos h1, h1]; simp [fileOf, b]
    · rw [if_neg h1, hframe z hz h1, c]; rfl
  · rw [if_pos a]
    have hne : e.sf_copyfd ≠ e.sf_origfd := by
      intro h; rw [h, c] at b; exact Option.noConfusion b
    by_cases h1 : z = e.sf_copyfd
    · rw [if_pos h1, h1]; simp [fileOf, b]
    · rw [if_neg h1]
      by_cases h2 : z = e.sf_origfd
      · rw [if_pos h2]
        have hr := hok _ _ c
        rw [if_pos ⟨hne, hr.1, by rw [hom]; exact hr.2⟩, hframe _ hX hne, d, h2]
        simp [fileOf, upd_apply, c]
      · rw [if_neg h2, hframe z hz h2, d]
        simp [fileOf, upd_apply, h1]

theorem fdEq_of_sameFds {s t : State} (h : SameFds s t) : FdEq t s :=
  ⟨fun z => by simp only [fileOf, h.1], h.2.stdin, h.2.openMax⟩

/-- One iteration of `open_redirections` followed by undoing the entries it
pushed gives back the table and `is_stdin_redirected` it started from, when
`save_fd` did not fail, a pipe target is below `shellfdmin`, and either the
iteration succeeded or the target is below the descriptor limit. -/
theorem open_redirection_restores (env : Env) (r : redir_T) (s : State)
    (stack : List savefd_T) (hok : TableOk s)
    (hsave : saveFailures (open_redirection env r s (some stack)).2.1 = saveFailures s)
    (hpipe : r.rd_type = redirtype_T.RT_PIPE → r.rd_fd < s.shellfdmin)
    (hleak : (open_redirection env r s (some stack)).1 = true ∨ r.rd_fd < s.openMax) :
    ∃ new, (open_redirection env r s (some stack)).2.2 = some (new ++ stack) ∧
      FdEq (undo_redirections env new (open_redirection env r s (some stack)).2.1) s := by
  simp only [open_redirection] at hsave hleak ⊢
  by_cases hb : r.rd_fd < 0 ∨ is_shellfd env r.rd_fd s = true
  · rw [if_pos hb]
    exact ⟨[], rfl, fdEq_of_sameFds (sameFds_xerror (Diag.fd_unavailable r.rd_fd) rfl s)⟩
  rw [if_neg hb] at hsave hleak ⊢
  have hr : 0 ≤ r.rd_fd := by
    by_contra hc; exact hb (Or.inl (by omega))
  have he : SameFds s (if expands_filename r.rd_type = true then
      expand_redir_filename env r.rd_filename s else (some [], s)).2 := by
    split
    · exact expand_redir_filename_sameFds env _ s
    · exact SameFds.step_refl s
  generalize (if expands_filename r.rd_type = true then
      expand_redir_filename env r.rd_filename s else (some [], s)) = e at he hsave hleak ⊢
  cases hf : e.1 with
  | none => exact ⟨[], rfl, fdEq_of_sameFds he⟩
  | some filename =>
    rw [hf] at hsave hleak
    simp only [] at hsave hleak ⊢
    have hs1 := (rstep_save_fd env r.rd_fd e.2 (some stack)).1
    have ho := (stepOk_open_redirection_open env r filename
      (save_fd env r.rd_fd e.2 (some stack)).1 (save_fd env r.rd_fd e.2 (some stack)).2).1
    have hsv1 : saveFailures (save_fd env r.rd_fd e.2 (some stack)).1 = saveFailures e.2 := by
      have a1 := hs1.saves
      have a2 := ho.saves
      have a3 := he.2.saves
      omega
    obtain ⟨e1, hst1, ho1, hsa1, _⟩ := save_fd_savedAs env r.rd_fd e.2 stack hsv1
    have hoke : TableOk e.2 := he.2.ok hok
    rw [hst1] at hsave hleak ho ⊢
    generalize (save_fd env r.rd_fd e.2 (some stack)).1 = s1 at hsave hleak ho hs1 hsv1 hsa1 ⊢
    have hsv2 : saveFailures (open_redirection_open env r filename s1 (some (e1 :: stack))).2.1 =
        saveFailures s1 := by
      rw [hsave, hsv1, he.2.saves]
    have hleak2 : (open_redirection_open env r filename s1 (some (e1 :: stack))).1 = true ∨
        r.rd_fd < s1.openMax := by
      rw [hs1.openMax, he.2.openMax]; exact hleak
    have hfin : ∀ u : State, u.openMax = e.2.openMax →
        (∀ z, z ≠ e1.sf_origfd → fileOf u z = (s1.fds z).map FdEntry.ofd) →
        FdEq (undo_redirection env e1 u) s := by
      intro u hu1 hu2
      have := undo_redirection_restores env e1 e.2 u s1.fds (fun _ => False) hsa1 hoke hu1
        (fun h => h) (fun z _ hz => hu2 z hz)
      refine ⟨fun z => ?_, ?_, ?_⟩
      · rw [this z (fun h => h)]; simp only [fileOf, he.1]
      · rw [undo_redirection_stdin, hsa1.1]; exact he.2.stdin
      · rw [(undo_redirection_frame env e1 u).1, hu1]; exact he.2.openMax
    by_cases hp : r.rd_type = redirtype_T.RT_PIPE
    · rcases open_redirection_open_pipe env r filename s1 (e1 :: stack) hp hr hsv2 hleak2 with
        ⟨a, b⟩ | ⟨e2, B, a, b, c, d⟩
      · refine ⟨[e1], a, ?_⟩
        simp only [undo_redirections]
        refine hfin _ ?_ ?_
        · rw [ho.openMax, hs1.openMax]
        · intro z hz; rw [ho1] at hz; simp only [fileOf, b z hz]
      · refine ⟨[e2, e1], a, ?_⟩
        simp only [undo_redirections]
        have hc2 : ¬ e2.sf_copyfd = r.rd_fd := by
          have h1 := hpipe hp
          have h2 : s1.shellfdmin = s.shellfdmin := by rw [hs1.shellfdmin, he.2.shellfdmin]
          rcases c.2 with ⟨x, _, _⟩ | ⟨_, x, _⟩
          · omega
          · omega
        have h2 := undo_redirection_restores env e2 s1
          (open_redirection_open env r filename s1 (some (e1 :: stack))).2.1 B
          (fun z => z = r.rd_fd) c (hs1.ok hoke) ho.openMax hc2
          (fun z hz hz2 => by simp only [fileOf, d z hz hz2])
        refine hfin _ ?_ ?_
        · rw [(undo_redirection_frame env e2 _).1, ho.openMax, hs1.openMax]
        · intro z hz; rw [ho1] at hz; exact h2 z hz
    · obtain ⟨a, b⟩ := open_redirection_open_other env r filename s1 (some (e1 :: stack)) hp hr
        hleak2
      refine ⟨[e1], a, ?_⟩
      simp only [undo_redirections]
      refine hfin _ ?_ ?_
      · rw [ho.openMax, hs1.openMax]
      · intro z hz; rw [ho1] at hz; simp only [fileOf, b z hz]

/-- The loop of `open_redirections` followed by undoing the entries it pushed
gives back the table and `is_stdin_redirected` it started from, when
`save_fd` did not fail, pipe targets are below `shellfdmin`, and either the
loop succeeded or every target is below the descriptor limit. -/
theorem open_redirections_loop_restores (env : Env) : ∀ (rs : List redir_T) (s : State)
    (stack : List savefd_T), TableOk s →
    saveFailures (open_redirections_loop env rs s (some stack)).2.1 = saveFailures s →
    (∀ r ∈ rs, r.rd_type = redirtype_T.RT_PIPE → r.rd_fd < s.shellfdmin) →
    ((open_redirections_loop env rs s (some stack)).1 = true ∨
      ∀ r ∈ rs, r.rd_fd < s.openMax) →
    ∃ new, (open_redirections_loop env rs s (some stack)).2.2 = some (new ++ stack) ∧
      FdEq (undo_redirections env new (open_redirections_loop env rs s (some stack)).2.1) s := by
  intro rs
  induction rs with
  | nil =>
    intro s stack _ _ _ _
    exact ⟨[], rfl, FdEq.eq_refl _⟩
  | cons r rest ih =>
    intro s stack hok hsave hpipe hleak
    have hst := (stepOk_open_redirection env r s (some stack)).1
    simp only [open_redirections_loop] at hsave hleak ⊢
    by_cases ho : (open_redirection env r s (some stack)).1 = true
    · rw [if_pos ho] at hsave hleak ⊢
      have hl := (stepOk_open_redirections_loop env rest
        (open_redirection env r s (some stack)).2.1
        (open_redirection env r s (some stack)).2.2).1
      have hsv1 : saveFailures (open_redirection env r s (some stack)).2.1 = saveFailures s := by
        have a1 := hst.saves
        have a2 := hl.saves
        omega
      obtain ⟨new1, hn1, hf1⟩ := open_redirection_restores env r s stack hok hsv1
        (hpipe r (List.mem_cons_self _ _)) (Or.inl ho)
      rw [hn1] at hsave hleak hl ⊢
      obtain ⟨new2, hn2, hf2⟩ := ih (open_redirection env r s (some stack)).2.1 (new1 ++ stack)
        (hst.ok hok) (by rw [hsave, hsv1])
        (fun q hq hq2 => by rw [hst.shellfdmin]; exact hpipe q (List.mem_cons_of_mem _ hq) hq2)
        (by
          rcases hleak with h | h
          · exact Or.inl h
          · exact Or.inr (fun q hq => by
              rw [hst.openMax]; exact h q (List.mem_cons_of_mem _ hq)))
      refine ⟨new2 ++ new1, by rw [hn2, List.append_assoc], ?_⟩
      rw [undo_redirections_append]
      exact (hf2.undo_all env new1).eq_trans hf1
    · rw [if_neg ho] at hsave hleak ⊢
      refine open_redirection_restores env r s stack hok hsave
        (hpipe r (List.mem_cons_self _ _)) ?_
      rcases hleak with h | h
      · exact absurd h ho
      · exact Or.inr (h r (List.mem_cons_self _ _))

/-! ## `open_redirections` followed by `undo_redirections` -/

theorem tableOk_stateWith (limit : Int) (extra : List Int) (h3 : 3 ≤ limit)
    (hx : ∀ x ∈ extra, 0 ≤ x ∧ x < limit) : TableOk (stateWith limit extra) := by
  intro fd e he
  show 0 ≤ fd ∧ fd < limit
  simp only [stateWith] at he
  by_cases h : fd = 0 ∨ fd = 1 ∨ fd = 2
  · omega
  · rw [if_neg h] at he
    by_cases h2 : fd ∈ extra
    · exact hx fd h2
    · rw [if_neg h2] at he; exact Option.noConfusion he

theorem open_redirections_loop_failing_spec (env : Env) : ∀ (rs : List redir_T) (s : State)
    (save : Option (List savefd_T)), (open_redirections_loop env rs s save).1 = false →
    ∃ k, k < rs.length ∧ (open_redirections_loop env (rs.take k) s save).1 = true ∧
      ∀ tail, open_redirections_loop env (rs.take (k + 1) ++ tail) s save =
        open_redirections_loop env rs s save := by
  intro rs
  induction rs with
  | nil => intro s save h; simp [open_redirections_loop] at h
  | cons r rest ih =>
    intro s save h
    by_cases ho : (open_redirection env r s save).1 = true
    · simp only [open_redirections_loop, ho, if_true] at h
      obtain ⟨k, hk, h1, h2⟩ := ih _ _ h
      refine ⟨k + 1, by simp only [List.length_cons]; omega, ?_, ?_⟩
      · simp only [List.take_succ_cons, open_redirections_loop, ho, if_true]; exact h1
      · intro tail
        simp only [List.take_succ_cons, List.cons_append, open_redirections_loop, ho, if_true]
        exact h2 tail
    · refine ⟨0, by simp, by simp [open_redirections_loop], ?_⟩
      intro tail
      simp only [List.take_succ_cons, List.take_zero, List.cons_append, List.nil_append,
        open_redirections_loop, ho]
      simp

/-- C1 (amended): when `open_redirections` with a save stack returns true, no
`save_fd` call reported a failure, and the target of every pipe redirection
is below `shellfdmin`, then `undo_redirections` on the resulting stack leaves
every descriptor as it was before the call (closed if it was closed,
otherwise on the same open file, hence the same access mode) and
`is_stdin_redirected` at its value before the call. The list may name a
target more than once. -/
theorem open_then_undo_restores (env : Env) (rs : List redir_T) (s : State)
    (save : List savefd_T) (hok : TableOk s)
    (hres : (open_redirections env rs s (some save)).1 = true)
    (hsave : saveFailures (open_redirections env rs s (some save)).2.1 = saveFailures s)
    (hpipe : ∀ r ∈ rs, r.rd_type = redirtype_T.RT_PIPE → r.rd_fd < s.shellfdmin) :
    ∃ stack, (open_redirections env rs s (some save)).2.2 = some stack ∧
      (∀ fd, fileOf (undo_redirections env stack (open_redirections env rs s (some save)).2.1) fd
        = fileOf s fd) ∧
      (undo_redirections env stack
        (open_redirections env rs s (some save)).2.1).is_stdin_redirected =
        s.is_stdin_redirected := by
  simp only [open_redirections, Option.map_some'] at hres hsave ⊢
  obtain ⟨new, h1, h2⟩ := open_redirections_loop_restores env rs s [] hok hsave hpipe
    (Or.inl hres)
  rw [List.append_nil] at h1
  exact ⟨new, h1, h2.1, h2.2.1⟩

theorem open_then_undo_restores_witness :
    (open_redirections envLinux
      [mkRedir redirtype_T.RT_OUTPUT 1 "out", mkRedir redirtype_T.RT_DUPOUT 2 "1",
       mkRedir redirtype_T.RT_APPEND 1 "log", mkRedir redirtype_T.RT_PIPE 4 "0"]
      (stateStart 1024) (some [])).1 = true ∧
    ∃ stack, (open_redirections envLinux
      [mkRedir redirtype_T.RT_OUTPUT 1 "out", mkRedir redirtype_T.RT_DUPOUT 2 "1",
       mkRedir redirtype_T.RT_APPEND 1 "log", mkRedir redirtype_T.RT_PIPE 4 "0"]
      (stateStart 1024) (some [])).2.2 = some stack ∧
      (∀ fd, fileOf (undo_redirections envLinux stack (open_redirections envLinux
        [mkRedir redirtype_T.RT_OUTPUT 1 "out", mkRedir redirtype_T.RT_DUPOUT 2 "1",
         mkRedir redirtype_T.RT_APPEND 1 "log", mkRedir redirtype_T.RT_PIPE 4 "0"]
        (stateStart 1024) (some [])).2.1) fd = fileOf (stateStart 1024) fd) ∧
      (undo_redirections envLinux stack (open_redirections envLinux
        [mkRedir redirtype_T.RT_OUTPUT 1 "out", mkRedir redirtype_T.RT_DUPOUT 2 "1",
         mkRedir redirtype_T.RT_APPEND 1 "log", mkRedir redirtype_T.RT_PIPE 4 "0"]
        (stateStart 1024) (some [])).2.1).is_stdin_redirected =
        (stateStart 1024).is_stdin_redirected :=
  ⟨by decide,
   open_then_undo_restores envLinux
    [mkRedir redirtype_T.RT_OUTPUT 1 "out", mkRedir redirtype_T.RT_DUPOUT 2 "1",
     mkRedir redirtype_T.RT_APPEND 1 "log", mkRedir redirtype_T.RT_PIPE 4 "0"]
    (stateStart 1024) [] (tableOk_stateWith 1024 [] (by decide) (by simp))
    (by decide) (by decide) (by decide)⟩

/-- C1 as stated fails: with every descriptor from `shellfdmin` up to the
limit in use, `1>out` succeeds, `save_fd` pushes nothing, and after
`undo_redirections` on the resulting (empty) stack descriptor 1 is on the
file `out`, not on the terminal as before the call. -/
theorem open_then_undo_not_restored_when_save_fails :
    TableOk stateNoRoom ∧
    (open_redirections envLinux [mkRedir redirtype_T.RT_OUTPUT 1 "out"] stateNoRoom
      (some [])).1 = true ∧
    (open_redirections envLinux [mkRedir redirtype_T.RT_OUTPUT 1 "out"] stateNoRoom
      (some [])).2.2 = some [] ∧
    fileOf (undo_redirections envLinux []
      (open_redirections envLinux [mkRedir redirtype_T.RT_OUTPUT 1 "out"] stateNoRoom
        (some [])).2.1) 1 ≠ fileOf stateNoRoom 1 :=
  ⟨tableOk_stateWith 12 [10, 11] (by decide) (by simp), by decide, by decide, by decide⟩

/-- C2 (amended): when `open_redirections` with a save stack returns false,
the specs before some spec `k` all succeeded and nothing after spec `k` is
processed (the result is the same whatever follows it). When moreover no
`save_fd` call reported a failure, every target is below the descriptor
limit and the target of every pipe redirection is below `shellfdmin`,
`undo_redirections` on the stack left by the failed call leaves every
descriptor as it was before the call and `is_stdin_redirected` at its value
before the call. -/
theorem failed_open_then_undo_restores (env : Env) (rs : List redir_T) (s : State)
    (save : List savefd_T) (hok : TableOk s)
    (hfail : (open_redirections env rs s (some save)).1 = false)
    (hsave : saveFailures (open_redirections env rs s (some save)).2.1 = saveFailures s)
    (hlim : ∀ r ∈ rs, r.rd_fd < s.openMax)
    (hpipe : ∀ r ∈ rs, r.rd_type = redirtype_T.RT_PIPE → r.rd_fd < s.shellfdmin) :
    (∃ k, k < rs.length ∧ (open_redirections env (rs.take k) s (some save)).1 = true ∧
      ∀ tail, open_redirections env (rs.take (k + 1) ++ tail) s (some save) =
        open_redirections env rs s (some save)) ∧
    ∃ stack, (open_redirections env rs s (some save)).2.2 = some stack ∧
      (∀ fd, fileOf (undo_redirections env stack (open_redirections env rs s (some save)).2.1) fd
        = fileOf s fd) ∧
      (undo_redirections env stack
        (open_redirections env rs s (some save)).2.1).is_stdin_redirected =
        s.is_stdin_redirected := by
  simp only [open_redirections, Option.map_some'] at hfail hsave ⊢
  refine ⟨open_redirections_loop_failing_spec env rs s (some []) hfail, ?_⟩
  obtain ⟨new, h1, h2⟩ := open_redirections_loop_restores env rs s [] hok hsave hpipe
    (Or.inr hlim)
  rw [List.append_nil] at h1
  exact ⟨new, h1, h2.1, h2.2.1⟩

theorem failed_open_then_undo_restores_witness :
    (open_redirections envLinux
      [mkRedir redirtype_T.RT_OUTPUT 1 "out", mkRedir redirtype_T.RT_INPUT 0 "in",
       mkRedir redirtype_T.RT_DUPOUT 2 "x", mkRedir redirtype_T.RT_APPEND 1 "log"]
      (stateStart 1024) (some [])).1 = false ∧
    fileOf (open_redirections envLinux
      [mkRedir redirtype_T.RT_OUTPUT 1 "out", mkRedir redirtype_T.RT_INPUT 0 "in",
       mkRedir redirtype_T.RT_DUPOUT 2 "x", mkRedir redirtype_T.RT_APPEND 1 "log"]
      (stateStart 1024) (some [])).2.1 1 ≠ fileOf (stateStart 1024) 1 ∧
    ∃ stack, (open_redirections envLinux
      [mkRedir redirtype_T.RT_OUTPUT 1 "out", mkRedir redirtype_T.RT_INPUT 0 "in",
       mkRedir redirtype_T.RT_DUPOUT 2 "x", mkRedir redirtype_T.RT_APPEND 1 "log"]
      (stateStart 1024) (some [])).2.2 = some stack ∧
      (∀ fd, fileOf (undo_redirections envLinux stack (open_redirections envLinux
        [mkRedir redirtype_T.RT_OUTPUT 1 "out", mkRedir redirtype_T.RT_INPUT 0 "in",
         mkRedir redirtype_T.RT_DUPOUT 2 "x", mkRedir redirtype_T.RT_APPEND 1 "log"]
        (stateStart 1024) (some [])).2.1) fd = fileOf (stateStart 1024) fd) ∧
      (undo_redirections envLinux stack (open_redirections envLinux
        [mkRedir redirtype_T.RT_OUTPUT 1 "out", mkRedir redirtype_T.RT_INPUT 0 "in",
         mkRedir redirtype_T.RT_DUPOUT 2 "x", mkRedir redirtype_T.RT_APPEND 1 "log"]
        (stateStart 1024) (some [])).2.1).is_stdin_redirected =
        (stateStart 1024).is_stdin_redirected :=
  ⟨by decide, by decide,
   (failed_open_then_undo_restores envLinux
    [mkRedir redirtype_T.RT_OUTPUT 1 "out", mkRedir redirtype_T.RT_INPUT 0 "in",
     mkRedir redirtype_T.RT_DUPOUT 2 "x", mkRedir redirtype_T.RT_APPEND 1 "log"]
    (stateStart 1024) [] (tableOk_stateWith 1024 [] (by decide) (by simp))
    (by decide) (by decide) (by decide) (by decide)).2⟩

/-- C2 as stated fails: with every descriptor from `shellfdmin` up to the
limit in use, `1>out 2>&x` returns false at the second spec, the stack left
by the call is empty because `save_fd` pushed nothing, and after
`undo_redirections` descriptor 1 is on the file `out`, not on the terminal
as before the call. -/
theorem failed_open_then_undo_not_restored_when_save_fails :
    TableOk stateNoRoom ∧
    (open_redirections envLinux
      [mkRedir redirtype_T.RT_OUTPUT 1 "out", mkRedir redirtype_T.RT_DUPOUT 2 "x"] stateNoRoom
      (some [])).1 = false ∧
    (open_redirections envLinux
      [mkRedir redirtype_T.RT_OUTPUT 1 "out", mkRedir redirtype_T.RT_DUPOUT 2 "x"] stateNoRoom
      (some [])).2.2 = some [] ∧
    fileOf (undo_redirections envLinux []
      (open_redirections envLinux
        [mkRedir redirtype_T.RT_OUTPUT 1 "out", mkRedir redirtype_T.RT_DUPOUT 2 "x"] stateNoRoom
        (some [])).2.1) 1 ≠ fileOf stateNoRoom 1 :=
  ⟨tableOk_stateWith 12 [10, 11] (by decide) (by simp), by decide, by decide, by decide⟩

/-- The target of a pipe redirection can take the number of a saved copy:
in `10>>|1` the closed target 10 is saved as closed, the copy of descriptor 1
is made on 10, the lowest closed descriptor from `shellfdmin`, and the write
end of the pipe is then moved onto 10. After `undo_redirections` descriptor 1
is the read end of the pipe, not the terminal. -/
theorem pipe_target_overwrites_saved_copy :
    (open_redirections envLinux [mkRedir redirtype_T.RT_PIPE 10 "1"] (stateStart 1024)
      (some [])).1 = true ∧
    saveFailures (open_redirections envLinux [mkRedir redirtype_T.RT_PIPE 10 "1"]
      (stateStart 1024) (some [])).2.1 = saveFailures (stateStart 1024) ∧
    (open_redirections envLinux [mkRedir redirtype_T.RT_PIPE 10 "1"] (stateStart 1024)
      (some [])).2.2 =
      some [{ sf_origfd := 1, sf_copyfd := 10, sf_stdin_redirected := false },
            { sf_origfd := 10, sf_copyfd := -1, sf_stdin_redirected := false }] ∧
    fileOf (undo_redirections envLinux
      [{ sf_origfd := 1, sf_copyfd := 10, sf_stdin_redirected := false },
       { sf_origfd := 10, sf_copyfd := -1, sf_stdin_redirected := false }]
      (open_redirections envLinux [mkRedir redirtype_T.RT_PIPE 10 "1"] (stateStart 1024)
        (some [])).2.1) 1 ≠ fileOf (stateStart 1024) 1 := by
  refine ⟨by decide, by decide, by decide, by decide⟩

/-- When `dup2` onto a target at or above the descriptor limit fails, the
descriptor just opened is left open: `25>out` with a limit of 20 returns
false, the target was saved as closed, and after `undo_redirections`
descriptor 3, closed before the call, is open on the file `out`. -/
theorem failed_dup2_leaves_descriptor_open :
    (open_redirections envLinux [mkRedir redirtype_T.RT_OUTPUT 25 "out"] (stateStart 20)
      (some [])).1 = false ∧
    saveFailures (open_redirections envLinux [mkRedir redirtype_T.RT_OUTPUT 25 "out"]
      (stateStart 20) (some [])).2.1 = saveFailures (stateStart 20) ∧
    (open_redirections envLinux [mkRedir redirtype_T.RT_OUTPUT 25 "out"] (stateStart 20)
      (some [])).2.2 = some [{ sf_origfd := 25, sf_copyfd := -1, sf_stdin_redirected := false }] ∧
    fileOf (stateStart 20) 3 = none ∧
    fileOf (undo_redirections envLinux
      [{ sf_origfd := 25, sf_copyfd := -1, sf_stdin_redirected := false }]
      (open_redirections envLinux [mkRedir redirtype_T.RT_OUTPUT 25 "out"] (stateStart 20)
        (some [])).2.1) 3 ≠ none := by
  refine ⟨by decide, by decide, by decide, by decide, by decide⟩

/-! ## The open flags of the file redirections -/

/-- C11: for the five redirection kinds that open a file by name, the flags
`open_redirections` passes to `open_file` are those the specification gives
from the kind, the noclobber option and whether the target is an irregular
file (`O_RDONLY` for read; `O_WRONLY|O_CREAT|O_EXCL` for write-truncate
exactly when noclobber is on and the target is not irregular, and
`O_WRONLY|O_CREAT|O_TRUNC` otherwise; `O_WRONLY|O_CREAT|O_TRUNC` for
write-clobber; `O_WRONLY|O_CREAT|O_APPEND` for write-append; `O_RDWR|O_CREAT`
for read-write), and the second `switch` opens the file with them. -/
theorem open_redirections_open_flags (env : Env) (r : redir_T) (filename : List Char)
    (s : State) (save : Option (List savefd_T)) (fl : OFlags)
    (hk : open_flags_spec r.rd_type env.shopt_noclobber (env.is_irregular_file filename) =
      some fl) :
    redir_open_flags env r.rd_type filename = fl ∧
    open_redirection_fd env r filename s save =
      (if (open_file env filename fl s).1 < 0 then
        (none, xerror (Diag.cannot_open filename) (open_file env filename fl s).2, save)
       else (some ((open_file env filename fl s).1, false), (open_file env filename fl s).2,
         save)) := by
  obtain ⟨ty, fd, fname, here, cmd⟩ := r
  simp only at hk
  have hfl : redir_open_flags env ty filename = fl := by
    cases ty <;> simp only [open_flags_spec] at hk <;> try exact Option.noConfusion hk
    · exact Option.some.inj hk
    · simp only [redir_open_flags]
      by_cases hn : env.shopt_noclobber = true ∧ env.is_irregular_file filename = false
      · rw [if_pos hn]
        simp only [hn.1, hn.2, Bool.not_false, Bool.and_self, if_true] at hk
        exact Option.some.inj hk
      · rw [if_neg hn]
        have hb : (env.shopt_noclobber && !env.is_irregular_file filename) = false := by
          cases h1 : env.shopt_noclobber <;> cases h2 : env.is_irregular_file filename <;>
            simp_all
        rw [hb] at hk
        exact Option.some.inj hk
    · exact Option.some.inj hk
    · exact Option.some.inj hk
    · exact Option.some.inj hk
  refine ⟨hfl, ?_⟩
  cases ty <;> simp only [open_flags_spec] at hk <;> try exact Option.noConfusion hk
  all_goals simp only [open_redirection_fd]; rw [hfl]

theorem open_redirections_open_flags_witness :
    open_flags_spec (mkRedir redirtype_T.RT_OUTPUT 1 "out").rd_type envNoclobber.shopt_noclobber
      (envNoclobber.is_irregular_file "out".toList) =
      some { acc := AccMode.O_WRONLY, creat := true, excl := true, trunc := false,
             append := false } ∧
    redir_open_flags envNoclobber (mkRedir redirtype_T.RT_OUTPUT 1 "out").rd_type "out".toList =
      { acc := AccMode.O_WRONLY, creat := true, excl := true, trunc := false, append := false } :=
  ⟨by decide,
   (open_redirections_open_flags envNoclobber (mkRedir redirtype_T.RT_OUTPUT 1 "out")
      "out".toList (stateStart 1024) (some [])
      { acc := AccMode.O_WRONLY, creat := true, excl := true, trunc := false, append := false }
      (by decide)).1⟩

/-! ## `reset_shellfdmin` -/

theorem long_to_int_of_fits {v : Int} (h1 : INT_MIN ≤ v) (h2 : v ≤ INT_MAX) :
    long_to_int v = v := by
  unfold long_to_int
  unfold INT_MIN at h1
  unfold INT_MAX at h2
  omega

theorem reset_shellfdmin_eq (env : Env) (s : State) :
    (reset_shellfdmin env s).shellfdmin =
      (if long_to_int env.sysconf_OPEN_MAX = -1 then
        (if env.sysconf_errno ≠ 0 then 10 else 100)
       else max 10 (min 100 (Int.tdiv (long_to_int env.sysconf_OPEN_MAX) 2))) := by
  simp only [reset_shellfdmin, SHELLFDMINMAX]
  generalize long_to_int env.sysconf_OPEN_MAX = v
  by_cases h1 : v = -1
  · rw [if_pos h1, if_pos h1]
    by_cases h2 : env.sysconf_errno ≠ 0
    · rw [if_pos h2, if_pos h2]
    · rw [if_neg h2, if_neg h2]
  · rw [if_neg h1, if_neg h1]
    generalize Int.tdiv v 2 = h
    by_cases h3 : h > 100
    · rw [if_pos h3]; show (100 : Int) = _; omega
    · rw [if_neg h3]
      by_cases h4 : h < 10
      · rw [if_pos h4]; show (10 : Int) = _; omega
      · rw [if_neg h4]; show h = _; omega

theorem reset_shellfdmin_range (env : Env) (s : State) :
    10 ≤ (reset_shellfdmin env s).shellfdmin ∧ (reset_shellfdmin env s).shellfdmin ≤ 100 := by
  rw [reset_shellfdmin_eq]
  split
  · split <;> decide
  · omega

/-- C14 (amended): whatever `sysconf(_SC_OPEN_MAX)` returns, `reset_shellfdmin`
sets `shellfdmin` between 10 and `SHELLFDMINMAX` (100) inclusive. The value
is first stored in the `int` variable: when the stored value is -1,
`shellfdmin` is 10 if the query set `errno` and 100 if it did not; otherwise
it is the stored value halved by integer division and clamped into
[10, 100]. For every value that fits in `int` the stored value is the value
the query returned. -/
theorem reset_shellfdmin_value (env : Env) (s : State) :
    10 ≤ (reset_shellfdmin env s).shellfdmin ∧
    (reset_shellfdmin env s).shellfdmin ≤ SHELLFDMINMAX ∧ SHELLFDMINMAX = 100 ∧
    (reset_shellfdmin env s).shellfdmin =
      (if long_to_int env.sysconf_OPEN_MAX = -1 then
        (if env.sysconf_errno ≠ 0 then 10 else 100)
       else max 10 (min 100 (Int.tdiv (long_to_int env.sysconf_OPEN_MAX) 2))) ∧
    (INT_MIN ≤ env.sysconf_OPEN_MAX → env.sysconf_OPEN_MAX ≤ INT_MAX →
      long_to_int env.sysconf_OPEN_MAX = env.sysconf_OPEN_MAX) :=
  ⟨(reset_shellfdmin_range env s).1, (reset_shellfdmin_range env s).2, rfl,
   reset_shellfdmin_eq env s, fun h1 h2 => long_to_int_of_fits h1 h2⟩

theorem reset_shellfdmin_value_witness :
    (INT_MIN ≤ (envOpenMax 64 0).sysconf_OPEN_MAX ∧ (envOpenMax 64 0).sysconf_OPEN_MAX ≤ INT_MAX) ∧
    long_to_int (envOpenMax 64 0).sysconf_OPEN_MAX = 64 ∧
    (reset_shellfdmin (envOpenMax 64 0) (stateStart 1024)).shellfdmin = 32 :=
  ⟨⟨by decide, by decide⟩,
   (reset_shellfdmin_value (envOpenMax 64 0) (stateStart 1024)).2.2.2.2 (by decide) (by decide),
   by decide⟩

/-- C14 as stated fails for a value that does not fit in `int`: when the
query returns 4294967300, the `int` variable holds 4, and `shellfdmin` is
set to 10, whereas the value halved and clamped into [10, 100] is 100. -/
theorem reset_shellfdmin_of_value_beyond_int :
    (envOpenMax 4294967300 0).sysconf_OPEN_MAX ≠ -1 ∧
    (reset_shellfdmin (envOpenMax 4294967300 0) (stateStart 1024)).shellfdmin = 10 ∧
    max 10 (min 100 (Int.tdiv (envOpenMax 4294967300 0).sysconf_OPEN_MAX 2)) = 100 := by
  refine ⟨by decide, by decide, by decide⟩

/-! ## `shellfdmax` -/

theorem init_shellfds_registry (env : Env) (s : State) :
    (init_shellfds env s).shellfds = FD_ZERO ∧ (init_shellfds env s).shellfdmax = -1 ∧
    (init_shellfds env s).shellfdmin = (reset_shellfdmin env s).shellfdmin ∧
    (init_shellfds env s).openMax = s.openMax := by
  simp only [init_shellfds, reset_shellfdmin]
  split
  · split <;> simp
  · split
    · simp
    · split <;> simp

theorem shellFdMaxOk_add (env : Env) (fd : Int) (s : State) (h : ShellFdMaxOk s)
    (h0 : 0 ≤ fd) (h1 : fd < env.FD_SETSIZE) : ShellFdMaxOk (add_shellfd env fd s) := by
  obtain ⟨ha, hb⟩ := h
  refine ⟨?_, ?_⟩
  · intro x hx
    rw [add_shellfd_shellfds] at hx
    rw [add_shellfd_shellfdmax]
    by_cases hc : x = fd ∧ fd < (env.FD_SETSIZE : Int)
    · rw [hc.1]; exact le_max_right _ _
    · rw [if_neg hc] at hx
      exact le_trans (ha x hx) (le_max_left _ _)
  · left
    rw [add_shellfd_shellfds, add_shellfd_shellfdmax]
    by_cases hm : s.shellfdmax < fd
    · rw [max_eq_right (le_of_lt hm), if_pos ⟨rfl, h1⟩]
    · have hle : fd ≤ s.shellfdmax := by omega
      rw [max_eq_left hle]
      rcases hb with hb | ⟨hb, _⟩
      · by_cases hc : s.shellfdmax = fd ∧ fd < (env.FD_SETSIZE : Int)
        · rw [if_pos hc]
        · rw [if_neg hc]; exact hb
      · omega

theorem shellFdMaxOk_remove (env : Env) (fd : Int) (s : State) (h : ShellFdMaxOk s)
    (hr : RegistryOk env s) (hfd : fd ≠ -1) : ShellFdMaxOk (remove_shellfd env fd s) := by
  obtain ⟨ha, hb⟩ := h
  have hmax : -1 ≤ s.shellfdmax := by
    rcases hb with hb | ⟨hb, _⟩
    · have := (hr _ hb).1; omega
    · omega
  have hok := registryOk_remove env fd s hr
  refine ⟨fun x hx => (hok x hx).2.1, ?_⟩
  by_cases hm : fd = s.shellfdmax
  · -- the maximum is removed: the scan finds the next member or reaches -1
    have h0 : 0 ≤ fd := by omega
    have hmem : s.shellfds fd = true := by
      rcases hb with hb | ⟨hb, _⟩
      · rw [hm]; exact hb
      · omega
    have hlt : fd < (env.FD_SETSIZE : Int) := (hr fd hmem).2.2
    have hset : ∀ x, (remove_shellfd env fd s).shellfds x = FD_CLR fd s.shellfds x := by
      intro x
      rw [remove_shellfd_shellfds]
      by_cases hx : x = fd
      · simp [hx, h0, hlt, FD_CLR]
      · simp [hx, FD_CLR]
    have hmx : (remove_shellfd env fd s).shellfdmax =
        remove_shellfd_scan (FD_CLR fd s.shellfds) fd.toNat (fd - 1) := by
      unfold remove_shellfd
      have hc : 0 ≤ fd ∧ fd < (env.FD_SETSIZE : Int) := ⟨h0, hlt⟩
      simp only [hc, and_self, if_true]
      rw [if_pos hm]
    have hdone := remove_shellfd_scan_done (FD_CLR fd s.shellfds) fd.toNat (fd - 1) (by omega)
    have hbound := remove_shellfd_scan_bound (FD_CLR fd s.shellfds) fd.toNat (fd - 1)
    have hlow : ∀ (k : Nat) (m : Int), -1 ≤ m →
        -1 ≤ remove_shellfd_scan (FD_CLR fd s.shellfds) k m := by
      intro k
      induction k with
      | zero => intro m hm0; simpa [remove_shellfd_scan] using hm0
      | succ k ih =>
        intro m hm0
        unfold remove_shellfd_scan
        split
        · exact ih (m - 1) (by omega)
        · exact hm0
    have hr1 := hlow fd.toNat (fd - 1) (by omega)
    rw [hmx, hset]
    generalize remove_shellfd_scan (FD_CLR fd s.shellfds) fd.toNat (fd - 1) = r
      at hdone hbound hr1
    rcases hdone with hd | hd
    · right
      refine ⟨by omega, fun x => ?_⟩
      rw [hset]
      cases hx : FD_CLR fd s.shellfds x with
      | false => rfl
      | true =>
        exfalso
        have hx2 : x ≠ fd ∧ s.shellfds x = true := by
          by_cases hxf : x = fd
          · simp [FD_CLR, hxf] at hx
          · simpa [FD_CLR, hxf] using hx
        have h3 := ha x hx2.2
        have h4 := (hr x hx2.2).1
        have h5 := hbound.2 x hx (by omega)
        omega
    · exact Or.inl hd
  · have hmx : (remove_shellfd env fd s).shellfdmax = s.shellfdmax := by
      unfold remove_shellfd
      by_cases hc : 0 ≤ fd ∧ fd < (env.FD_SETSIZE : Int)
      · simp only [hc, and_self, if_true, hm, if_false]
      · simp only [hc, if_false, hm]
    rw [hmx]
    rcases hb with hb | ⟨hb, hall⟩
    · left
      rw [remove_shellfd_shellfds]
      have : ¬ (s.shellfdmax = fd ∧ 0 ≤ fd ∧ fd < (env.FD_SETSIZE : Int)) :=
        fun hc => hm hc.1.symm
      rw [if_neg this]; exact hb
    · right
      refine ⟨hb, fun x => ?_⟩
      rw [remove_shellfd_shellfds]
      split
      · rfl
      · exact hall x

theorem clear_shellfds_loop_openMax :
    ∀ (l : List Int) (s : State), (clear_shellfds_loop l s).openMax = s.openMax := by
  intro l
  induction l with
  | nil => intro s; rfl
  | cons fd rest ih =>
    intro s
    simp only [clear_shellfds_loop]
    rw [ih]
    split
    · exact (kstep_xclose fd s).openMax
    · rfl

/-- What the registry calls keep: the invariant of the registered set,
`shellfdmax` exact, `shellfdmin` and the descriptor limit. -/
theorem shellFdMaxOk_step (env : Env) (c : ShellFdCall) (s : State)
    (hreg : RegistryOk env s) (hmax : ShellFdMaxOk s) (hmin : 0 ≤ s.shellfdmin)
    (hlim : s.openMax ≤ env.FD_SETSIZE) (hc : c.inRange env s.shellfdmin = true) :
    RegistryOk env (runShellFdCalls env [c] s) ∧ ShellFdMaxOk (runShellFdCalls env [c] s) ∧
    (runShellFdCalls env [c] s).shellfdmin = s.shellfdmin ∧
    (runShellFdCalls env [c] s).openMax = s.openMax := by
  cases c with
  | add fd =>
    simp only [ShellFdCall.inRange, Bool.and_eq_true, decide_eq_true_eq] at hc
    simp only [runShellFdCalls]
    have h0 : 0 ≤ fd := by omega
    exact ⟨registryOk_add env fd s hreg h0, shellFdMaxOk_add env fd s hmax h0 hc.2,
      (add_shellfd_frame env fd s).2.2.1, (add_shellfd_frame env fd s).2.1⟩
  | remove fd =>
    simp only [ShellFdCall.inRange, decide_eq_true_eq] at hc
    simp only [runShellFdCalls]
    exact ⟨registryOk_remove env fd s hreg, shellFdMaxOk_remove env fd s hmax hreg hc,
      (remove_shellfd_frame env fd s).2.2.1, (remove_shellfd_frame env fd s).2.1⟩
  | copy fd =>
    simp only [runShellFdCalls]
    cases he : s.fds fd with
    | none =>
      rw [copy_as_shellfd_closed env he]
      exact ⟨hreg, hmax, rfl, rfl⟩
    | some e =>
      by_cases hbad : s.shellfdmin < 0 ∨ s.openMax ≤ s.shellfdmin ∨
          lowestFree s s.shellfdmin = none
      · obtain ⟨err, _, h⟩ := copy_as_shellfd_fail env he hbad
        rw [h]
        exact ⟨hreg, hmax, rfl, rfl⟩
      · have hb : s.shellfdmin < s.openMax := by
          by_contra hcon; exact hbad (Or.inr (Or.inl (by omega)))
        obtain ⟨n, hn⟩ : ∃ n, lowestFree s s.shellfdmin = some n := by
          cases hl : lowestFree s s.shellfdmin with
          | none => exact absurd (Or.inr (Or.inr hl)) hbad
          | some n => exact ⟨n, rfl⟩
        rw [copy_as_shellfd_ok env he hmin hb hn]
        obtain ⟨l1, l2, _, _⟩ := lowestFree_some hn
        have h0 : 0 ≤ n := by omega
        have h1 : n < (env.FD_SETSIZE : Int) := by omega
        exact ⟨registryOk_add env n _ hreg h0, shellFdMaxOk_add env n _ hmax h0 h1,
          (add_shellfd_frame env n _).2.2.1, (add_shellfd_frame env n _).2.1⟩
  | clear leavefds =>
    simp only [runShellFdCalls]
    cases leavefds with
    | true => exact ⟨hreg, hmax, rfl, rfl⟩
    | false =>
      refine ⟨?_, ?_, ?_, ?_⟩
      · intro x hx
        simp [clear_shellfds, FD_ZERO] at hx
      · exact ⟨fun x hx => by simp [clear_shellfds, FD_ZERO] at hx,
          Or.inr ⟨rfl, fun x => rfl⟩⟩
      · exact (clear_shellfds_loop_other _ s).2.2
      · exact clear_shellfds_loop_openMax _ s

theorem shellFdMaxOk_run (env : Env) : ∀ (calls : List ShellFdCall) (s : State),
    RegistryOk env s → ShellFdMaxOk s → 0 ≤ s.shellfdmin → s.openMax ≤ env.FD_SETSIZE →
    (∀ c ∈ calls, c.inRange env s.shellfdmin = true) →
    ShellFdMaxOk (runShellFdCalls env calls s) := by
  intro calls
  induction calls with
  | nil => intro s _ h _ _ _; exact h
  | cons c rest ih =>
    intro s hreg hmax hmin hlim hc
    obtain ⟨a, b, d, e⟩ := shellFdMaxOk_step env c s hreg hmax hmin hlim
      (hc c (List.mem_cons_self _ _))
    have hrun : runShellFdCalls env (c :: rest) s =
        runShellFdCalls env rest (runShellFdCalls env [c] s) := by
      cases c <;> rfl
    rw [hrun]
    exact ih _ a b (by rw [d]; exact hmin) (by rw [e]; exact hlim)
      (fun x hx => by rw [d]; exact hc x (List.mem_cons_of_mem _ hx))

/-- Where the code keeps `shellfdmax` exact: when the descriptor limit is at
most `FD_SETSIZE`, after `init_shellfds` and any sequence of `add_shellfd` (on
descriptors from `shellfdmin` that are below `FD_SETSIZE`), `remove_shellfd`
(on descriptors other than -1), `copy_as_shellfd` and `clear_shellfds` calls,
`shellfdmax` is the greatest descriptor of the registered set, or -1 when the
set is empty. -/
theorem shellfdmax_is_greatest (env : Env) (s : State) (calls : List ShellFdCall)
    (hlim : s.openMax ≤ env.FD_SETSIZE)
    (hcalls : ∀ c ∈ calls, c.inRange env (init_shellfds env s).shellfdmin = true) :
    ShellFdMaxOk (runShellFdCalls env calls (init_shellfds env s)) := by
  obtain ⟨h1, h2, h3, h4⟩ := init_shellfds_registry env s
  have hmin : 0 ≤ (init_shellfds env s).shellfdmin := by
    rw [h3]
    have := (reset_shellfdmin_range env s).1
    omega
  refine shellFdMaxOk_run env calls _ (registryOk_init env s) ?_ hmin
    (by rw [h4]; exact hlim) hcalls
  refine ⟨fun x hx => ?_, Or.inr ⟨h2, fun x => ?_⟩⟩
  · rw [h1] at hx; simp [FD_ZERO] at hx
  · rw [h1]; rfl

theorem shellfdmax_is_greatest_witness :
    ((stateStart 1024).openMax ≤ envLinux.FD_SETSIZE ∧
      ∀ c ∈ [ShellFdCall.add 112, ShellFdCall.copy 1, ShellFdCall.add 200,
              ShellFdCall.remove 200, ShellFdCall.clear true, ShellFdCall.remove 100],
        c.inRange envLinux (init_shellfds envLinux (stateStart 1024)).shellfdmin = true) ∧
    ShellFdMaxOk (runShellFdCalls envLinux
      [ShellFdCall.add 112, ShellFdCall.copy 1, ShellFdCall.add 200,
       ShellFdCall.remove 200, ShellFdCall.clear true, ShellFdCall.remove 100]
      (init_shellfds envLinux (stateStart 1024))) ∧
    (runShellFdCalls envLinux
      [ShellFdCall.add 112, ShellFdCall.copy 1, ShellFdCall.add 200,
       ShellFdCall.remove 200, ShellFdCall.clear true, ShellFdCall.remove 100]
      (init_shellfds envLinux (stateStart 1024))).shellfdmax = 112 :=
  ⟨⟨by decide, by decide⟩,
   shellfdmax_is_greatest envLinux (stateStart 1024)
     [ShellFdCall.add 112, ShellFdCall.copy 1, ShellFdCall.add 200,
      ShellFdCall.remove 200, ShellFdCall.clear true, ShellFdCall.remove 100]
     (by decide) (by decide),
   by decide⟩

/-- C13 at a failing input: `shellfdmax` should be the greatest descriptor
of the registered set, or -1 when the set is empty, but `add_shellfd` on a
descriptor at or above `FD_SETSIZE` leaves the set as it is and still raises
`shellfdmax`. After `init_shellfds` and `add_shellfd (2000)` with `FD_SETSIZE`
1024 the set is empty and `shellfdmax` is 2000, not -1. -/
theorem shellfdmax_above_registered_set :
    (init_shellfds envLinux (stateStart 4096)).shellfdmin ≤ 2000 ∧
    (∀ x, (runShellFdCalls envLinux [ShellFdCall.add 2000]
      (init_shellfds envLinux (stateStart 4096))).shellfds x = false) ∧
    (runShellFdCalls envLinux [ShellFdCall.add 2000]
      (init_shellfds envLinux (stateStart 4096))).shellfdmax = 2000 ∧
    ¬ ShellFdMaxOk (runShellFdCalls envLinux [ShellFdCall.add 2000]
      (init_shellfds envLinux (stateStart 4096))) := by
  have hset : ∀ x, (runShellFdCalls envLinux [ShellFdCall.add 2000]
      (init_shellfds envLinux (stateStart 4096))).shellfds x = false := by
    intro x
    simp only [runShellFdCalls]
    rw [add_shellfd_shellfds]
    have hn : ¬ (x = 2000 ∧ (2000 : Int) < (envLinux.FD_SETSIZE : Int)) := by
      intro h
      have : (envLinux.FD_SETSIZE : Int) = 1024 := rfl
      omega
    rw [if_neg hn, (init_shellfds_registry envLinux (stateStart 4096)).1]
    rfl
  have hmax : (runShellFdCalls envLinux [ShellFdCall.add 2000]
      (init_shellfds envLinux (stateStart 4096))).shellfdmax = 2000 := by decide
  refine ⟨by decide, hset, hmax, ?_⟩
  rintro ⟨_, h | ⟨h, _⟩⟩
  · rw [hset] at h; exact Bool.noConfusion h
  · rw [hmax] at h; exact absurd h (by decide)

/-- Calling `remove_shellfd (-1)` on the empty registry moves `shellfdmax`
to -2: the test `fd == shellfdmax` holds, and the scan does not run. -/
theorem remove_shellfd_minus_one_on_empty :
    (∀ x, (runShellFdCalls envLinux [ShellFdCall.remove (-1)]
      (init_shellfds envLinux (stateStart 1024))).shellfds x = false) ∧
    (runShellFdCalls envLinux [ShellFdCall.remove (-1)]
      (init_shellfds envLinux (stateStart 1024))).shellfdmax = -2 := by
  refine ⟨fun x => ?_, by decide⟩
  simp only [runShellFdCalls]
  rw [remove_shellfd_shellfds, (init_shellfds_registry envLinux (stateStart 1024)).1]
  split <;> rfl

/-! ## What the system calls print -/

theorem xclose_diag (fd : Int) (s : State) : (xclose fd s).2.diag = s.diag := by
  unfold xclose sys_close
  cases h : s.fds fd <;> simp [setFd]

theorem allocFd_diag (obj : Obj) (acc : AccMode) (s : State) :
    (allocFd obj acc s).2.diag = s.diag := by
  unfold allocFd
  cases lowestFree s 0 <;> rfl

theorem sys_open_diag (env : Env) (path : List Char) (fl : OFlags) (s : State) :
    (sys_open env path fl s).2.diag = s.diag := by
  unfold sys_open
  cases env.fs_open s.tick path fl with
  | none => rfl
  | some obj => exact allocFd_diag obj fl.acc s

theorem sys_pipe_diag (env : Env) (s : State) : (sys_pipe env s).2.2.2.diag = s.diag := by
  unfold sys_pipe
  split
  · cases lowestFree s 0 with
    | none => rfl
    | some r =>
      simp only []
      split <;> rfl
  · rfl

theorem sys_write_diag (env : Env) (fd : Int) (bytes : List Char) (s : State) :
    (sys_write env fd bytes s).2.diag = s.diag := by
  unfold sys_write
  cases s.fds fd with
  | none => rfl
  | some e =>
    simp only []
    split
    · cases env.write_count s.tick bytes.length with
      | none => rfl
      | some n =>
        simp only []
        split <;> rfl
    · rfl

theorem write_all_loop_diag (env : Env) (fd : Int) (bytes : List Char) :
    ∀ (fuel done : Nat) (s : State), (write_all_loop env fd bytes fuel done s).2.diag = s.diag := by
  intro fuel
  induction fuel with
  | zero => intro done s; rfl
  | succ n ih =>
    intro done s
    unfold write_all_loop
    by_cases hd : done < bytes.length
    · rw [if_pos hd]
      simp only []
      by_cases hr : (sys_write env fd (List.drop done bytes) s).1 < 0
      · rw [if_pos hr]; exact sys_write_diag _ _ _ _
      · rw [if_neg hr, ih]; exact sys_write_diag _ _ _ _
    · rw [if_neg hd]

theorem sys_lseek0_diag (env : Env) (fd : Int) (s : State) :
    (sys_lseek0 env fd s).2.diag = s.diag := by
  unfold sys_lseek0
  cases s.fds fd with
  | none => rfl
  | some e =>
    simp only []
    split <;> rfl

theorem contentsFailures_xerror (d : Diag) (s : State) :
    contentsFailures (xerror d s) =
      contentsFailures s + (if isContentsFailure d = true then 1 else 0) := by
  simp [contentsFailures, xerror, List.countP_append, List.countP_cons]

theorem contentsFailures_of_diag {s t : State} (h : t.diag = s.diag) :
    contentsFailures t = contentsFailures s := by
  simp only [contentsFailures, h]

/-! ## What a reader of a here-string gets -/

/-- A descriptor that `open` just returned is at end-of-file: the new open
file description has no contents in the model. -/
theorem readAll_sys_open (env : Env) (path : List Char) (fl : OFlags) (s : State)
    (h : 0 ≤ (sys_open env path fl s).1) :
    readAll (sys_open env path fl s).2 (sys_open env path fl s).1 = some [] := by
  unfold sys_open at h ⊢
  cases hf : env.fs_open s.tick path fl with
  | none => rw [hf] at h; simp at h
  | some obj =>
    rw [hf] at h
    simp only [] at h ⊢
    unfold allocFd at h ⊢
    cases hl : lowestFree s 0 with
    | none => rw [hl] at h; simp at h
    | some fd =>
      simp [readAll, bumpTick, setFd, upd, freshEntry]

/-- The state right after `pipe` succeeded: both ends are open on the new
pipe, which is empty. -/
theorem sys_pipe_fresh {env : Env} {s : State} (h : ¬ (sys_pipe env s).1 < 0) :
    (sys_pipe env s).2.2.2.fds (sys_pipe env s).2.1 =
      some (freshEntry s.tick Obj.pipe_in AccMode.O_RDONLY) ∧
    (sys_pipe env s).2.2.2.fds (sys_pipe env s).2.2.1 =
      some (freshEntry s.tick Obj.pipe_out AccMode.O_WRONLY) ∧
    (sys_pipe env s).2.2.1 ≠ (sys_pipe env s).2.1 ∧
    (sys_pipe env s).2.2.2.data s.tick = [] ∧ (sys_pipe env s).2.2.2.pos s.tick = 0 := by
  rcases sys_pipe_cases env s with ⟨hf, _, _⟩ | ⟨r, w, hr, hw, hpipe⟩
  · exfalso; apply h; rw [hf]; decide
  · rw [hpipe]
    obtain ⟨_, _, w2, _⟩ := lowestFree_some hw
    have hwr : w ≠ r := by
      intro hc; rw [hc] at w2; simp [setFd, upd] at w2
    have hrw : r ≠ w := fun hc => hwr hc.symm
    refine ⟨?_, ?_, hwr, ?_, ?_⟩ <;> simp [bumpTick, setFd, upd, hrw]

theorem xclose_data (fd : Int) (s : State) : (xclose fd s).2.data = s.data := by
  unfold xclose sys_close
  cases h : s.fds fd <;> simp [setFd]

theorem xclose_pos (fd : Int) (s : State) : (xclose fd s).2.pos = s.pos := by
  unfold xclose sys_close
  cases h : s.fds fd <;> simp [setFd]

/-- The pipe path of `open_herestring`: when the write is atomic and is not
reported to fail, the read end yields the body. -/
theorem open_herestring_pipe_contents (env : Env) (body : List Char) (pin pout : Int)
    (s : State) (t : Nat)
    (hin : s.fds pin = some (freshEntry t Obj.pipe_in AccMode.O_RDONLY))
    (hout : s.fds pout = some (freshEntry t Obj.pipe_out AccMode.O_WRONLY))
    (hne : pout ≠ pin) (hdata : s.data t = []) (hpos : s.pos t = 0)
    (hat : pipe_write_atomic env body.length = true)
    (hok : contentsFailures (open_herestring_pipe env body pin pout s).2 = contentsFailures s) :
    (open_herestring_pipe env body pin pout s).1 = pin ∧
    readAll (open_herestring_pipe env body pin pout s).2 pin = some body := by
  refine ⟨rfl, ?_⟩
  have hne2 : pin ≠ pout := fun h => hne h.symm
  simp only [open_herestring_pipe] at hok ⊢
  have hw : sys_write env pout body s =
      (match env.write_count s.tick body.length with
       | none => (-1, { s with errno := EIO, tick := s.tick + 1 })
       | some _ => ((body.length : Int),
          { s with tick := s.tick + 1,
                   data := fun i => if i = t then s.data t ++ body.take body.length
                                    else s.data i })) := by
    unfold sys_write
    rw [hout]
    simp only [freshEntry, true_or, if_true, hat]
  rw [hw] at hok ⊢
  cases hc : env.write_count s.tick body.length with
  | none =>
    exfalso
    rw [hc] at hok
    simp only [Int.reduceNeg, Left.neg_neg_iff, zero_lt_one, if_true] at hok
    rw [contentsFailures_of_diag (xclose_diag _ _), contentsFailures_xerror] at hok
    have : contentsFailures { s with errno := EIO, tick := s.tick + 1 } = contentsFailures s := rfl
    rw [this] at hok
    simp [isContentsFailure] at hok
  | some n =>
    simp only []
    have hlt : ¬ ((body.length : Int) < 0) := by omega
    rw [if_neg hlt]
    simp only [readAll, xclose_fds, upd_apply, if_neg hne2, hin]
    rw [xclose_data, xclose_pos]
    simp [freshEntry, hdata, hpos]

/-- The loop of `write_all` on a file descriptor that holds the first `done`
bytes of the buffer, with the offset after them: when the loop reports
success the file holds the whole buffer. -/
theorem write_all_loop_file (env : Env) (fd : Int) (body : List Char) (e : FdEntry)
    (hacc : e.ofd.acc = AccMode.O_RDWR) (hobj : e.ofd.obj ≠ Obj.pipe_out) :
    ∀ (fuel done : Nat) (s : State), s.fds fd = some e →
      s.data e.ofd.id = body.take done → s.pos e.ofd.id = done → done ≤ body.length →
      body.length ≤ done + fuel → (write_all_loop env fd body fuel done s).1 = true →
      (write_all_loop env fd body fuel done s).2.fds fd = some e ∧
      (write_all_loop env fd body fuel done s).2.data e.ofd.id = body ∧
      (write_all_loop env fd body fuel done s).2.pos e.ofd.id = body.length := by
  intro fuel
  induction fuel with
  | zero =>
    intro done s hfd hdata hpos hle hfuel _
    have hd : done = body.length := by omega
    simp only [write_all_loop]
    rw [hd] at hdata hpos
    exact ⟨hfd, by rw [hdata, List.take_length], hpos⟩
  | succ n ih =>
    intro done s hfd hdata hpos hle hfuel hres
    unfold write_all_loop at hres ⊢
    by_cases hd : done < body.length
    · rw [if_pos hd] at hres ⊢
      simp only [] at hres ⊢
      have hrem : (body.drop done).length = body.length - done := List.length_drop _ _
      have hw : sys_write env fd (body.drop done) s =
          (match env.write_count s.tick (body.drop done).length with
           | none => (-1, { s with errno := EIO, tick := s.tick + 1 })
           | some m =>
             (((max 1 (min m (body.drop done).length) : Nat) : Int),
              { s with tick := s.tick + 1,
                       data := fun i => if i = e.ofd.id then
                          (s.data e.ofd.id).take (s.pos e.ofd.id) ++
                            (body.drop done).take (max 1 (min m (body.drop done).length)) ++
                            (s.data e.ofd.id).drop
                              (s.pos e.ofd.id + max 1 (min m (body.drop done).length))
                          else s.data i,
                       pos := fun i => if i = e.ofd.id then
                          s.pos e.ofd.id + max 1 (min m (body.drop done).length)
                          else s.pos i })) := by
        unfold sys_write
        rw [hfd]
        have hz : ¬ (body.drop done).length = 0 := by omega
        simp only [hacc, or_true, if_true, hobj, if_false, hz]
      rw [hw] at hres ⊢
      cases hc : env.write_count s.tick (body.drop done).length with
      | none =>
        rw [hc] at hres
        simp at hres
      | some m =>
        rw [hc] at hres
        simp only [] at hres ⊢
        generalize hk : max 1 (min m (body.drop done).length) = k at hres ⊢
        have hk1 : 1 ≤ k := by rw [← hk]; exact le_max_left _ _
        have hk2 : k ≤ body.length - done := by
          rw [← hk, hrem]
          have := min_le_right m (body.length - done)
          omega
        have hlt : ¬ ((k : Int) < 0) := by omega
        rw [if_neg hlt] at hres ⊢
        have htn : ((k : Int)).toNat = k := Int.toNat_ofNat k
        rw [htn] at hres ⊢
        refine ih (done + k) _ hfd ?_ ?_ (by omega) (by omega) hres
        · simp only [if_true]
          rw [hdata, hpos, List.take_take, min_self, List.take_add]
          have : (body.take done).drop (done + k) = [] := by
            apply List.drop_eq_nil_of_le
            rw [List.length_take]; omega
          rw [this, List.append_nil]
        · simp only [if_true]; rw [hpos]
    · rw [if_neg hd]
      have hd2 : done = body.length := by omega
      rw [hd2] at hdata hpos
      exact ⟨hfd, by rw [hdata, List.take_length], hpos⟩

/-- The end of the temporary-file path of `open_herestring`, from the state
where the new file is open and empty: when neither the write nor the seek is
reported to fail, the descriptor yields the body. -/
theorem herestring_tempfile_tail (env : Env) (body : List Char) (fd : Int) (s : State)
    (e : FdEntry) (hfd : s.fds fd = some e) (hacc : e.ofd.acc = AccMode.O_RDWR)
    (hobj : e.ofd.obj ≠ Obj.pipe_out) (hdata : s.data e.ofd.id = [])
    (hpos : s.pos e.ofd.id = 0)
    (hok : contentsFailures
      (if (sys_lseek0 env fd (if (write_all env fd body s).1 = true then (write_all env fd body s).2
          else xerror Diag.heredoc_write (write_all env fd body s).2)).1 ≠ 0 then
        xerror Diag.heredoc_seek (sys_lseek0 env fd
          (if (write_all env fd body s).1 = true then (write_all env fd body s).2
          else xerror Diag.heredoc_write (write_all env fd body s).2)).2
       else (sys_lseek0 env fd (if (write_all env fd body s).1 = true then
          (write_all env fd body s).2
          else xerror Diag.heredoc_write (write_all env fd body s).2)).2) = contentsFailures s) :
    readAll
      (if (sys_lseek0 env fd (if (write_all env fd body s).1 = true then (write_all env fd body s).2
          else xerror Diag.heredoc_write (write_all env fd body s).2)).1 ≠ 0 then
        xerror Diag.heredoc_seek (sys_lseek0 env fd
          (if (write_all env fd body s).1 = true then (write_all env fd body s).2
          else xerror Diag.heredoc_write (write_all env fd body s).2)).2
       else (sys_lseek0 env fd (if (write_all env fd body s).1 = true then
          (write_all env fd body s).2
          else xerror Diag.heredoc_write (write_all env fd body s).2)).2) fd = some body := by
  have hwd : contentsFailures (write_all env fd body s).2 = contentsFailures s :=
    contentsFailures_of_diag (write_all_loop_diag env fd body _ _ s)
  have hwf := write_all_loop_file env fd body e hacc hobj body.length 0 s hfd
    (by rw [hdata]; rfl) hpos (Nat.zero_le _) (by omega)
  have hwu : write_all env fd body s = write_all_loop env fd body body.length 0 s := rfl
  rw [← hwu] at hwf
  generalize write_all env fd body s = w at hok hwd hwf ⊢
  by_cases hw1 : w.1 = true
  · rw [if_pos hw1] at hok ⊢
    obtain ⟨a, b, c⟩ := hwf hw1
    have hl : sys_lseek0 env fd w.2 =
        if env.lseek_ok w.2.tick = true then
          (0, { w.2 with tick := w.2.tick + 1,
                         pos := fun i => if i = e.ofd.id then 0 else w.2.pos i })
        else (-1, { w.2 with errno := EIO, tick := w.2.tick + 1 }) := by
      unfold sys_lseek0
      rw [a]
    rw [hl] at hok ⊢
    by_cases hs : env.lseek_ok w.2.tick = true
    · rw [if_pos hs]
      simp only [ne_eq, not_true_eq_false, if_false]
      simp [readAll, a, b]
    · exfalso
      rw [if_neg hs] at hok
      simp only [Int.reduceNeg, ne_eq, neg_eq_zero, one_ne_zero, not_false_eq_true, if_true]
        at hok
      rw [contentsFailures_xerror] at hok
      have : contentsFailures { w.2 with errno := EIO, tick := w.2.tick + 1 } =
          contentsFailures w.2 := rfl
      rw [this, hwd] at hok
      simp [isContentsFailure] at hok
  · exfalso
    rw [if_neg hw1] at hok
    have h1 : contentsFailures (sys_lseek0 env fd (xerror Diag.heredoc_write w.2)).2 =
        contentsFailures s + 1 := by
      rw [contentsFailures_of_diag (sys_lseek0_diag _ _ _), contentsFailures_xerror, hwd]
      simp [isContentsFailure]
    split at hok
    · rw [contentsFailures_xerror, h1] at hok; omega
    · rw [h1] at hok; omega

/-- The temporary-file path of `open_herestring`. -/
theorem open_herestring_tempfile_contents (env : Env) (body : List Char) (s : State)
    (hfd : 0 ≤ (open_herestring_tempfile env body s).1)
    (hok : contentsFailures (open_herestring_tempfile env body s).2 = contentsFailures s) :
    readAll (open_herestring_tempfile env body s).2 (open_herestring_tempfile env body s).1 =
      some body := by
  unfold open_herestring_tempfile at hfd hok ⊢
  cases hc : env.create_temporary_file s.tick with
  | none => rw [hc] at hfd; simp at hfd
  | some tf =>
    rw [hc] at hfd hok
    simp only [] at hfd hok ⊢
    unfold allocFd at hfd hok ⊢
    cases hl : lowestFree s 0 with
    | none => rw [hl] at hfd; simp at hfd
    | some fd =>
      rw [hl] at hfd hok
      simp only [] at hfd hok ⊢
      have h0 : ¬ fd < 0 := by have := (lowestFree_some hl).1; omega
      rw [if_neg h0] at hok ⊢
      simp only [] at hok ⊢
      have hs2 : ∀ s2 : State,
          s2.fds fd = some (freshEntry s.tick (Obj.tempfile tf) AccMode.O_RDWR) →
          s2.data s.tick = [] → s2.pos s.tick = 0 → contentsFailures s2 = contentsFailures s →
          contentsFailures
            (if (sys_lseek0 env fd (if (write_all env fd body s2).1 = true then
                (write_all env fd body s2).2
                else xerror Diag.heredoc_write (write_all env fd body s2).2)).1 ≠ 0 then
              xerror Diag.heredoc_seek (sys_lseek0 env fd
                (if (write_all env fd body s2).1 = true then (write_all env fd body s2).2
                else xerror Diag.heredoc_write (write_all env fd body s2).2)).2
             else (sys_lseek0 env fd (if (write_all env fd body s2).1 = true then
                (write_all env fd body s2).2
                else xerror Diag.heredoc_write (write_all env fd body s2).2)).2) =
            contentsFailures s →
          readAll
            (if (sys_lseek0 env fd (if (write_all env fd body s2).1 = true then
                (write_all env fd body s2).2
                else xerror Diag.heredoc_write (write_all env fd body s2).2)).1 ≠ 0 then
              xerror Diag.heredoc_seek (sys_lseek0 env fd
                (if (write_all env fd body s2).1 = true then (write_all env fd body s2).2
                else xerror Diag.heredoc_write (write_all env fd body s2).2)).2
             else (sys_lseek0 env fd (if (write_all env fd body s2).1 = true then
                (write_all env fd body s2).2
                else xerror Diag.heredoc_write (write_all env fd body s2).2)).2) fd =
            some body := by
        intro s2 a b c d hk
        exact herestring_tempfile_tail env body fd s2 _ a rfl (by simp [freshEntry]) b c
          (by rw [hk, d])
      by_cases hu : env.unlink_ok
          (bumpTick (setFd s fd (some (freshEntry s.tick (Obj.tempfile tf) AccMode.O_RDWR)))
            s.tick).tick = true
      · rw [if_pos hu] at hok ⊢
        exact hs2 _ (by simp [bumpTick, setFd, upd]) (by simp [bumpTick])
          (by simp [bumpTick]) rfl hok
      · rw [if_neg hu] at hok ⊢
        refine hs2 _ (by simp [xerror, bumpTick, setFd, upd]) (by simp [xerror, bumpTick])
          (by simp [xerror, bumpTick]) ?_ hok
        rw [contentsFailures_xerror]
        simp [isContentsFailure]
        rfl

/-- The pipe and temporary-file paths of `open_herestring`, from the state
`s` the attempt on `/dev/null` left. -/
theorem herestring_staged_contents (env : Env) (body : List Char) (s : State)
    (hfd : 0 ≤ (match env.PIPE_BUF with
      | some limit =>
        if body.length ≤ limit then
          if (sys_pipe env s).1 ≥ 0 then
            open_herestring_pipe env body (sys_pipe env s).2.1 (sys_pipe env s).2.2.1
              (sys_pipe env s).2.2.2
          else open_herestring_tempfile env body (sys_pipe env s).2.2.2
        else open_herestring_tempfile env body s
      | none => open_herestring_tempfile env body s).1)
    (hok : contentsFailures (match env.PIPE_BUF with
      | some limit =>
        if body.length ≤ limit then
          if (sys_pipe env s).1 ≥ 0 then
            open_herestring_pipe env body (sys_pipe env s).2.1 (sys_pipe env s).2.2.1
              (sys_pipe env s).2.2.2
          else open_herestring_tempfile env body (sys_pipe env s).2.2.2
        else open_herestring_tempfile env body s
      | none => open_herestring_tempfile env body s).2 = contentsFailures s) :
    readAll (match env.PIPE_BUF with
      | some limit =>
        if body.length ≤ limit then
          if (sys_pipe env s).1 ≥ 0 then
            open_herestring_pipe env body (sys_pipe env s).2.1 (sys_pipe env s).2.2.1
              (sys_pipe env s).2.2.2
          else open_herestring_tempfile env body (sys_pipe env s).2.2.2
        else open_herestring_tempfile env body s
      | none => open_herestring_tempfile env body s).2
      (match env.PIPE_BUF with
      | some limit =>
        if body.length ≤ limit then
          if (sys_pipe env s).1 ≥ 0 then
            open_herestring_pipe env body (sys_pipe env s).2.1 (sys_pipe env s).2.2.1
              (sys_pipe env s).2.2.2
          else open_herestring_tempfile env body (sys_pipe env s).2.2.2
        else open_herestring_tempfile env body s
      | none => open_herestring_tempfile env body s).1 = some body := by
  cases hpb : env.PIPE_BUF with
  | none =>
    rw [hpb] at hfd hok
    exact open_herestring_tempfile_contents env body s hfd hok
  | some limit =>
    rw [hpb] at hfd hok
    simp only [] at hfd hok ⊢
    by_cases hlen : body.length ≤ limit
    · rw [if_pos hlen] at hfd hok ⊢
      by_cases hp : (sys_pipe env s).1 ≥ 0
      · rw [if_pos hp] at hfd hok ⊢
        have hp2 : ¬ (sys_pipe env s).1 < 0 := by omega
        obtain ⟨a, b, c, d, e⟩ := sys_pipe_fresh hp2
        have hat : pipe_write_atomic env body.length = true := by
          simp [pipe_write_atomic, hpb, hlen]
        have hcf : contentsFailures (sys_pipe env s).2.2.2 = contentsFailures s :=
          contentsFailures_of_diag (sys_pipe_diag env s)
        obtain ⟨r1, r2⟩ := open_herestring_pipe_contents env body _ _ _ s.tick a b c d e hat
          (by rw [hok, hcf])
        rw [r1]; exact r2
      · rw [if_neg hp] at hfd hok ⊢
        have hcf : contentsFailures (sys_pipe env s).2.2.2 = contentsFailures s :=
          contentsFailures_of_diag (sys_pipe_diag env s)
        exact open_herestring_tempfile_contents env body _ hfd (by rw [hok, hcf])
    · rw [if_neg hlen] at hfd hok ⊢
      exact open_herestring_tempfile_contents env body s hfd hok

/-- C12 (amended): for every body and every `appendnewline` flag, when
`open_herestring` returns a descriptor and reports no failure of writing the
contents or of rewinding the temporary file, reading that descriptor to
end-of-file yields exactly the body followed by one newline if
`appendnewline` is set and exactly the body otherwise, whichever of the
three paths staged it (`/dev/null`, a pipe, an unlinked temporary file). -/
theorem open_herestring_contents (env : Env) (str : List Char) (appendnewline : Bool)
    (s : State) (hfd : 0 ≤ (open_herestring env str appendnewline s).1)
    (hok : contentsFailures (open_herestring env str appendnewline s).2 = contentsFailures s) :
    readAll (open_herestring env str appendnewline s).2
      (open_herestring env str appendnewline s).1 =
      some (if appendnewline = true then str ++ ['\n'] else str) := by
  simp only [open_herestring] at hfd hok ⊢
  by_cases hnull : str = [] ∧ appendnewline = false
  · rw [if_pos hnull] at hfd hok ⊢
    by_cases hd : (sys_open env "/dev/null".toList
        { acc := AccMode.O_RDONLY, creat := false, excl := false, trunc := false,
          append := false } s).1 ≥ 0
    · rw [if_pos hd] at hfd hok ⊢
      rw [readAll_sys_open env _ _ s hd, hnull.1, hnull.2]
      rfl
    · rw [if_neg hd] at hfd hok ⊢
      have hcf := contentsFailures_of_diag (sys_open_diag env "/dev/null".toList
        { acc := AccMode.O_RDONLY, creat := false, excl := false, trunc := false,
          append := false } s)
      exact herestring_staged_contents env _ _ hfd (hok.trans hcf.symm)
  · rw [if_neg hnull] at hfd hok ⊢
    have hn : ¬ ((-1 : Int) ≥ 0) := by decide
    rw [if_neg hn] at hfd hok ⊢
    exact herestring_staged_contents env _ s hfd hok

theorem open_herestring_contents_witness :
    -- an empty body without newline: `/dev/null`
    ((0 ≤ (open_herestring envLinux [] false (stateStart 1024)).1 ∧
      contentsFailures (open_herestring envLinux [] false (stateStart 1024)).2 =
        contentsFailures (stateStart 1024)) ∧
     readAll (open_herestring envLinux [] false (stateStart 1024)).2
        (open_herestring envLinux [] false (stateStart 1024)).1 = some []) ∧
    -- a short body: the read end of a pipe
    ((0 ≤ (open_herestring envLinux "hi".toList true (stateStart 1024)).1 ∧
      contentsFailures (open_herestring envLinux "hi".toList true (stateStart 1024)).2 =
        contentsFailures (stateStart 1024)) ∧
     ((open_herestring envLinux "hi".toList true (stateStart 1024)).2.fds
        (open_herestring envLinux "hi".toList true (stateStart 1024)).1).map
          (fun e => e.ofd.obj) = some Obj.pipe_in ∧
     readAll (open_herestring envLinux "hi".toList true (stateStart 1024)).2
        (open_herestring envLinux "hi".toList true (stateStart 1024)).1 =
          some ['h', 'i', '\n']) ∧
    -- a body longer than `PIPE_BUF`, written three bytes at a time: a temporary file
    ((0 ≤ (open_herestring envShortWrites "hello".toList true (stateStart 1024)).1 ∧
      contentsFailures (open_herestring envShortWrites "hello".toList true (stateStart 1024)).2 =
        contentsFailures (stateStart 1024)) ∧
     ((open_herestring envShortWrites "hello".toList true (stateStart 1024)).2.fds
        (open_herestring envShortWrites "hello".toList true (stateStart 1024)).1).map
          (fun e => e.ofd.obj) = some (Obj.tempfile "/tmp/yash".toList) ∧
     readAll (open_herestring envShortWrites "hello".toList true (stateStart 1024)).2
        (open_herestring envShortWrites "hello".toList true (stateStart 1024)).1 =
          some ['h', 'e', 'l', 'l', 'o', '\n']) :=
  ⟨⟨⟨by decide, by decide⟩,
     open_herestring_contents envLinux [] false (stateStart 1024) (by decide) (by decide)⟩,
   ⟨⟨by decide, by decide⟩, by decide,
     open_herestring_contents envLinux "hi".toList true (stateStart 1024) (by decide)
       (by decide)⟩,
   ⟨⟨by decide, by decide⟩, by decide,
     open_herestring_contents envShortWrites "hello".toList true (stateStart 1024) (by decide)
       (by decide)⟩⟩

/-- C12 as stated fails: when writing the contents fails, `open_herestring`
reports it and still returns the descriptor. On a platform without `PIPE_BUF`
where `write` fails, the here-string `hi` with a newline is staged in a
temporary file that stays empty: the descriptor is returned and a reader
gets nothing, not `hi` and a newline. -/
theorem open_herestring_empty_after_failed_write :
    0 ≤ (open_herestring envDiskFull "hi".toList true (stateStart 1024)).1 ∧
    (open_herestring envDiskFull "hi".toList true (stateStart 1024)).2.diag =
      [Diag.heredoc_write] ∧
    readAll (open_herestring envDiskFull "hi".toList true (stateStart 1024)).2
      (open_herestring envDiskFull "hi".toList true (stateStart 1024)).1 = some [] ∧
    readAll (open_herestring envDiskFull "hi".toList true (stateStart 1024)).2
      (open_herestring envDiskFull "hi".toList true (stateStart 1024)).1 ≠
        some ['h', 'i', '\n'] := by
  refine ⟨by decide, by decide, by decide, by decide⟩

/-! ## `xdup2` and its callers -/

theorem selfCopies_xerror (d : Diag) (s : State) :
    selfCopies (xerror d s) = selfCopies s + (if isSelfCopy d = true then 1 else 0) := by
  simp [selfCopies, xerror, List.countP_append, List.countP_cons]

theorem selfCopies_of_diag {s t : State} (h : t.diag = s.diag) :
    selfCopies t = selfCopies s := by
  simp only [selfCopies, h]

theorem selfCopies_xclose (fd : Int) (s : State) : selfCopies (xclose fd s).2 = selfCopies s :=
  selfCopies_of_diag (xclose_diag fd s)

theorem sys_dup2_diag (o n : Int) (s : State) : (sys_dup2 o n s).2.diag = s.diag := by
  unfold sys_dup2
  cases s.fds o with
  | none => rfl
  | some e =>
    simp only []
    split
    · split <;> rfl
    · rfl

theorem sys_dup_diag (fd : Int) (s : State) : (sys_dup fd s).2.diag = s.diag := by
  unfold sys_dup
  cases s.fds fd with
  | none => rfl
  | some e =>
    simp only []
    cases lowestFree s 0 <;> rfl

theorem sys_fcntl_dupfd_diag (fd lo : Int) (c : Bool) (s : State) :
    (sys_fcntl_dupfd fd lo c s).2.diag = s.diag := by
  unfold sys_fcntl_dupfd
  cases s.fds fd with
  | none => rfl
  | some e =>
    simp only []
    split
    · rfl
    · cases lowestFree s lo <;> rfl

theorem sys_fcntl_getfl_diag (fd : Int) (s : State) :
    (sys_fcntl_getfl fd s).2.diag = s.diag := by
  unfold sys_fcntl_getfl
  cases s.fds fd <;> rfl

theorem sys_socket_diag (env : Env) (h : List Char) (b : Bool) (s : State) :
    (sys_socket env h b s).2.diag = s.diag := by
  unfold sys_socket
  split
  · exact allocFd_diag _ _ s
  · rfl

theorem sys_connect_diag (env : Env) (s : State) : (sys_connect env s).2.diag = s.diag := by
  unfold sys_connect
  split <;> rfl

theorem copy_as_shellfd_diag (env : Env) (fd : Int) (s : State) :
    (copy_as_shellfd env fd s).2.diag = s.diag := by
  unfold copy_as_shellfd
  simp only []
  split
  · rw [(add_shellfd_frame env _ _).2.2.2.1]; exact sys_fcntl_dupfd_diag _ _ _ _
  · exact sys_fcntl_dupfd_diag _ _ _ _

theorem parse_fd_number_diag (num : List Char) (s : State) :
    (parse_fd_number num s).2.diag = s.diag := by
  unfold parse_fd_number
  split
  · rfl
  · simp only []
    split <;> rfl

/-- `xdup2` on two different descriptors reports no copy of a descriptor to
itself. -/
theorem selfCopies_xdup2 (o n : Int) (s : State) (hne : o ≠ n) :
    selfCopies (xdup2 o n s).2 = selfCopies s := by
  simp only [xdup2]
  split
  · rw [selfCopies_xerror, selfCopies_of_diag (sys_dup2_diag _ _ _), selfCopies_xclose]
    simp [isSelfCopy, hne]
  · rw [selfCopies_of_diag (sys_dup2_diag _ _ _), selfCopies_xclose]

theorem selfCopies_save_fd (env : Env) (fd : Int) (s : State) (save : Option (List savefd_T)) :
    selfCopies (save_fd env fd s save).1 = selfCopies s := by
  unfold save_fd
  cases save with
  | none => rfl
  | some stack =>
    simp only []
    split
    · rw [selfCopies_xerror, selfCopies_of_diag (copy_as_shellfd_diag _ _ _)]
      simp [isSelfCopy]
    · exact selfCopies_of_diag (copy_as_shellfd_diag _ _ _)

theorem selfCopies_expand_redir_filename (env : Env) (w : List Char) (s : State) :
    selfCopies (expand_redir_filename env w s).2 = selfCopies s := by
  unfold expand_redir_filename
  split
  · rfl
  · cases env.expand_single w with
    | none => rfl
    | some res =>
      simp only []
      cases env.realloc_wcstombs res with
      | none => rw [selfCopies_xerror]; simp [isSelfCopy]
      | some m => rfl

theorem selfCopies_open_socket (env : Env) (h : List Char) (b : Bool) (s : State) :
    selfCopies (open_socket env h b s).2 = selfCopies s := by
  unfold open_socket
  cases env.malloc_mbstowcs h with
  | none => rfl
  | some _ =>
    simp only []
    have hg : selfCopies (sys_getaddrinfo env h s).2 = selfCopies s := rfl
    split
    · show selfCopies (xerror (Diag.socket_resolve h) (sys_getaddrinfo env h s).2) = _
      rw [selfCopies_xerror, hg]; simp [isSelfCopy]
    · split
      · split
        · rw [selfCopies_xclose, selfCopies_of_diag (sys_connect_diag _ _),
            selfCopies_of_diag (sys_socket_diag _ _ _ _), hg]
        · rw [selfCopies_of_diag (sys_connect_diag _ _),
            selfCopies_of_diag (sys_socket_diag _ _ _ _), hg]
      · rw [selfCopies_of_diag (sys_socket_diag _ _ _ _), hg]

theorem selfCopies_open_file_socket (env : Env) (path pre : List Char) (b : Bool)
    (r : Int × State) : selfCopies (open_file_socket env path pre b r).2 = selfCopies r.2 := by
  unfold open_file_socket
  split
  · cases matchstrprefix path pre with
    | none => rfl
    | some h => exact selfCopies_open_socket env h b r.2
  · rfl

theorem selfCopies_open_file (env : Env) (path : List Char) (fl : OFlags) (s : State) :
    selfCopies (open_file env path fl s).2 = selfCopies s := by
  unfold open_file
  simp only []
  split
  · rw [selfCopies_open_file_socket, selfCopies_open_file_socket,
      selfCopies_of_diag (sys_open_diag _ _ _ _)]
  · exact selfCopies_of_diag (sys_open_diag _ _ _ _)

theorem selfCopies_parse_and_check_dup (env : Env) (num : List Char) (ty : redirtype_T)
    (s : State) : selfCopies (parse_and_check_dup env num ty s).2 = selfCopies s := by
  have hp := selfCopies_of_diag (parse_fd_number_diag num s)
  have hg := fun fd => selfCopies_of_diag (sys_fcntl_getfl_diag fd (parse_fd_number num s).2)
  unfold parse_and_check_dup
  split
  · rfl
  · simp only []
    split
    · rw [selfCopies_xerror, hp]; simp [isSelfCopy]
    · split
      · rw [selfCopies_xerror, hp]; simp [isSelfCopy]
      · split
        · split
          · rw [selfCopies_xerror, hg, hp]; simp [isSelfCopy]
          · split
            · split
              · rw [hg, hp]
              · rw [hg, hp]
              · rw [selfCopies_xerror, hg, hp]; simp [isSelfCopy]
            · split
              · rw [hg, hp]
              · rw [hg, hp]
              · rw [selfCopies_xerror, hg, hp]; simp [isSelfCopy]
        · exact hp

theorem selfCopies_pipe_error2 (outputfd inputfd pin pout : Int) (s : State) :
    selfCopies (pipe_error2 outputfd inputfd pin pout s).2 = selfCopies s := by
  unfold pipe_error2
  rw [selfCopies_xerror, selfCopies_xclose, selfCopies_xclose]
  simp [isSelfCopy]

theorem selfCopies_pipe_move_output (inputfd pout : Int) (s : State) :
    selfCopies (pipe_move_output inputfd pout s).2 = selfCopies s := by
  unfold pipe_move_output
  split
  · simp only []
    split
    · exact selfCopies_of_diag (sys_dup_diag _ _)
    · rw [selfCopies_xclose]; exact selfCopies_of_diag (sys_dup_diag _ _)
  · rfl

theorem selfCopies_pipe_move_input (outputfd inputfd pin pout : Int) (s : State) :
    selfCopies (pipe_move_input outputfd inputfd pin pout s).2 = selfCopies s := by
  unfold pipe_move_input
  by_cases h : pin ≠ inputfd
  · rw [if_pos h]
    simp only []
    split
    · rw [selfCopies_pipe_error2, selfCopies_xdup2 _ _ _ h]
    · rw [selfCopies_xclose, selfCopies_xdup2 _ _ _ h]
  · rw [if_neg h]

theorem selfCopies_pipe_wire (outputfd inputfd pin pout : Int) (s : State) :
    selfCopies (pipe_wire outputfd inputfd pin pout s).2 = selfCopies s := by
  unfold pipe_wire
  simp only []
  have hm := selfCopies_pipe_move_output inputfd pout s
  cases h : (pipe_move_output inputfd pout s).1 with
  | none => simp only []; rw [selfCopies_pipe_error2, hm]
  | some p => simp only []; rw [selfCopies_pipe_move_input, hm]

theorem selfCopies_pipe_open (env : Env) (outputfd inputfd : Int) (s : State) :
    selfCopies (pipe_open env outputfd inputfd s).2 = selfCopies s := by
  unfold pipe_open
  simp only []
  split
  · rw [selfCopies_xerror, selfCopies_of_diag (sys_pipe_diag _ _)]; simp [isSelfCopy]
  · rw [selfCopies_pipe_wire, selfCopies_of_diag (sys_pipe_diag _ _)]

theorem selfCopies_parse_and_exec_pipe (env : Env) (outputfd : Int) (num : List Char)
    (s : State) (save : Option (List savefd_T)) :
    selfCopies (parse_and_exec_pipe env outputfd num s save).2.1 = selfCopies s := by
  have hp := selfCopies_of_diag (parse_fd_number_diag num s)
  unfold parse_and_exec_pipe
  simp only []
  split
  · rw [selfCopies_xerror, hp]; simp [isSelfCopy]
  · split
    · rw [selfCopies_xerror, hp]; simp [isSelfCopy]
    · split
      · rw [selfCopies_xerror, hp]; simp [isSelfCopy]
      · rw [selfCopies_pipe_open, selfCopies_save_fd, hp]

theorem selfCopies_herestring_tail (env : Env) (fd : Int) (w : Bool × State) :
    selfCopies
      (if (sys_lseek0 env fd (if w.1 = true then w.2 else xerror Diag.heredoc_write w.2)).1 ≠ 0
       then xerror Diag.heredoc_seek
          (sys_lseek0 env fd (if w.1 = true then w.2 else xerror Diag.heredoc_write w.2)).2
       else (sys_lseek0 env fd (if w.1 = true then w.2 else xerror Diag.heredoc_write w.2)).2)
      = selfCopies w.2 := by
  have h3 : selfCopies (if w.1 = true then w.2 else xerror Diag.heredoc_write w.2) =
      selfCopies w.2 := by
    split
    · rfl
    · rw [selfCopies_xerror]; simp [isSelfCopy]
  generalize (if w.1 = true then w.2 else xerror Diag.heredoc_write w.2) = s3 at h3 ⊢
  split
  · rw [selfCopies_xerror, selfCopies_of_diag (sys_lseek0_diag _ _ _), h3]
    simp [isSelfCopy]
  · rw [selfCopies_of_diag (sys_lseek0_diag _ _ _), h3]

theorem selfCopies_open_herestring_tempfile (env : Env) (body : List Char) (s : State) :
    selfCopies (open_herestring_tempfile env body s).2 = selfCopies s := by
  unfold open_herestring_tempfile
  cases env.create_temporary_file s.tick with
  | none =>
    simp only []
    rw [selfCopies_xerror]; simp [isSelfCopy]; rfl
  | some tf =>
    simp only []
    have hf := selfCopies_of_diag (allocFd_diag (Obj.tempfile tf) AccMode.O_RDWR s)
    by_cases h0 : (allocFd (Obj.tempfile tf) AccMode.O_RDWR s).1 < 0
    · rw [if_pos h0, selfCopies_xerror, hf]; simp [isSelfCopy]
    · rw [if_neg h0]
      have hs2 : ∀ s2 : State, selfCopies s2 = selfCopies s →
          selfCopies (write_all env (allocFd (Obj.tempfile tf) AccMode.O_RDWR s).1 body s2).2 =
            selfCopies s := by
        intro s2 h2
        exact (selfCopies_of_diag (write_all_loop_diag env _ body _ 0 s2)).trans h2
      by_cases hu : env.unlink_ok (allocFd (Obj.tempfile tf) AccMode.O_RDWR s).2.tick = true
      · rw [if_pos hu]
        exact (selfCopies_herestring_tail env _ _).trans (hs2 _ hf)
      · rw [if_neg hu]
        exact (selfCopies_herestring_tail env _ _).trans
          (hs2 _ (by rw [selfCopies_xerror]; simp [isSelfCopy]; exact hf))

theorem selfCopies_open_herestring_pipe (env : Env) (body : List Char) (pin pout : Int)
    (s : State) : selfCopies (open_herestring_pipe env body pin pout s).2 = selfCopies s := by
  unfold open_herestring_pipe
  simp only []
  rw [selfCopies_xclose]
  split
  · rw [selfCopies_xerror, selfCopies_of_diag (sys_write_diag _ _ _ _)]; simp [isSelfCopy]
  · exact selfCopies_of_diag (sys_write_diag _ _ _ _)

theorem selfCopies_open_herestring (env : Env) (str : List Char) (nl : Bool) (s : State) :
    selfCopies (open_herestring env str nl s).2 = selfCopies s := by
  simp only [open_herestring]
  have hd : selfCopies (if str = [] ∧ nl = false then
      sys_open env "/dev/null".toList
        { acc := AccMode.O_RDONLY, creat := false, excl := false, trunc := false,
          append := false } s
      else (-1, s)).2 = selfCopies s := by
    split
    · exact selfCopies_of_diag (sys_open_diag _ _ _ _)
    · rfl
  generalize (if str = [] ∧ nl = false then
      sys_open env "/dev/null".toList
        { acc := AccMode.O_RDONLY, creat := false, excl := false, trunc := false,
          append := false } s
      else (-1, s)) = d at hd ⊢
  by_cases h0 : d.1 ≥ 0
  · rw [if_pos h0]; exact hd
  · rw [if_neg h0]
    have hp := selfCopies_of_diag (sys_pipe_diag env d.2)
    generalize (if nl = true then str ++ ['\n'] else str) = body
    cases env.PIPE_BUF with
    | none => simp only []; rw [selfCopies_open_herestring_tempfile, hd]
    | some limit =>
      simp only []
      split
      · split
        · rw [selfCopies_open_herestring_pipe, hp, hd]
        · rw [selfCopies_open_herestring_tempfile, hp, hd]
      · rw [selfCopies_open_herestring_tempfile, hd]

theorem selfCopies_open_heredocument (env : Env) (contents : List Char) (s : State) :
    selfCopies (open_heredocument env contents s).2 = selfCopies s := by
  unfold open_heredocument
  cases env.expand_string contents with
  | none => rfl
  | some w =>
    simp only []
    cases env.realloc_wcstombs w with
    | none => simp only []; rw [selfCopies_xerror]; simp [isSelfCopy]
    | some m => exact selfCopies_open_herestring env m false s

theorem selfCopies_open_process_redirection (env : Env) (ty : redirtype_T) (s : State) :
    selfCopies (open_process_redirection env ty s).2 = selfCopies s := by
  have hp := selfCopies_of_diag (sys_pipe_diag env s)
  simp only [open_process_redirection]
  split
  · rw [selfCopies_xerror, hp]; simp [isSelfCopy]
  · split
    · rw [selfCopies_xclose, selfCopies_xclose]; exact hp
    · split
      · rw [selfCopies_xclose]; exact hp
      · rw [selfCopies_xclose]; exact hp

theorem selfCopies_ite_fd {α : Type} (c : Prop) [Decidable c] (a b : α) (t : State)
    (save : Option (List savefd_T)) (n : Nat) (h : selfCopies t = n) :
    selfCopies (if c then ((a, t, save) : α × State × Option (List savefd_T))
      else (b, t, save)).2.1 = n := by
  split <;> exact h

theorem selfCopies_open_redirection_fd (env : Env) (r : redir_T) (filename : List Char)
    (s : State) (save : Option (List savefd_T)) :
    selfCopies (open_redirection_fd env r filename s save).2.1 = selfCopies s := by
  obtain ⟨ty, fd, fname, here, cmd⟩ := r
  unfold open_redirection_fd
  cases ty
  case RT_DUPIN => exact selfCopies_ite_fd _ _ _ _ _ _ (selfCopies_parse_and_check_dup _ _ _ _)
  case RT_DUPOUT => exact selfCopies_ite_fd _ _ _ _ _ _ (selfCopies_parse_and_check_dup _ _ _ _)
  case RT_PIPE =>
    simp only []
    split <;> exact selfCopies_parse_and_exec_pipe _ _ _ _ _
  case RT_HERE => exact selfCopies_ite_fd _ _ _ _ _ _ (selfCopies_open_heredocument _ _ _)
  case RT_HERERT => exact selfCopies_ite_fd _ _ _ _ _ _ (selfCopies_open_heredocument _ _ _)
  case RT_HERESTR => exact selfCopies_ite_fd _ _ _ _ _ _ (selfCopies_open_herestring _ _ _ _)
  case RT_PROCIN =>
    exact selfCopies_ite_fd _ _ _ _ _ _ (selfCopies_open_process_redirection _ _ _)
  case RT_PROCOUT =>
    exact selfCopies_ite_fd _ _ _ _ _ _ (selfCopies_open_process_redirection _ _ _)
  all_goals
    simp only []
    split
    · show selfCopies (xerror _ _) = _
      rw [selfCopies_xerror, selfCopies_open_file]; simp [isSelfCopy]
    · exact selfCopies_open_file _ _ _ _

theorem selfCopies_open_redirection_finish (r : redir_T) (s : State)
    (save : Option (List savefd_T)) :
    selfCopies (open_redirection_finish r s save).2.1 = selfCopies s := by
  unfold open_redirection_finish
  split <;> rfl

theorem selfCopies_open_redirection_move (r : redir_T) (fd : Int) (k : Bool) (s : State)
    (save : Option (List savefd_T)) :
    selfCopies (open_redirection_move r fd k s save).2.1 = selfCopies s := by
  simp only [open_redirection_move]
  by_cases h1 : fd ≠ r.rd_fd
  · rw [if_pos h1]
    have hx := selfCopies_xdup2 fd r.rd_fd s h1
    split
    · split
      · exact hx
      · rw [selfCopies_open_redirection_finish]
        split
        · exact hx
        · rw [selfCopies_xclose]; exact hx
    · rw [selfCopies_open_redirection_finish, selfCopies_xclose]
  · rw [if_neg h1, selfCopies_open_redirection_finish]

theorem selfCopies_open_redirection_open (env : Env) (r : redir_T) (filename : List Char)
    (s : State) (save : Option (List savefd_T)) :
    selfCopies (open_redirection_open env r filename s save).2.1 = selfCopies s := by
  have h := selfCopies_open_redirection_fd env r filename s save
  unfold open_redirection_open
  simp only []
  generalize open_redirection_fd env r filename s save = o at h ⊢
  cases o.1 with
  | none => exact h
  | some fk => simp only []; rw [selfCopies_open_redirection_move, h]

theorem selfCopies_open_redirection (env : Env) (r : redir_T) (s : State)
    (save : Option (List savefd_T)) :
    selfCopies (open_redirection env r s save).2.1 = selfCopies s := by
  simp only [open_redirection]
  split
  · rw [selfCopies_xerror]; simp [isSelfCopy]
  · have he : selfCopies (if expands_filename r.rd_type = true then
        expand_redir_filename env r.rd_filename s else (some [], s)).2 = selfCopies s := by
      split
      · exact selfCopies_expand_redir_filename env _ s
      · rfl
    generalize (if expands_filename r.rd_type = true then
        expand_redir_filename env r.rd_filename s else (some [], s)) = e at he ⊢
    cases e.1 with
    | none => exact he
    | some filename =>
      simp only []
      rw [selfCopies_open_redirection_open, selfCopies_save_fd, he]

theorem selfCopies_open_redirections_loop (env : Env) : ∀ (rs : List redir_T) (s : State)
    (save : Option (List savefd_T)),
    selfCopies (open_redirections_loop env rs s save).2.1 = selfCopies s := by
  intro rs
  induction rs with
  | nil => intro s save; rfl
  | cons r rest ih =>
    intro s save
    simp only [open_redirections_loop]
    split
    · rw [ih, selfCopies_open_redirection]
    · exact selfCopies_open_redirection env r s save

/-- What `save_fd` pushes has its saved copy on another number than the
original. -/
theorem copiesDistinct_save_fd (env : Env) (fd : Int) (s : State)
    (save : Option (List savefd_T)) (h : ∀ st, save = some st → CopiesDistinct st) :
    ∀ st, (save_fd env fd s save).2 = some st → CopiesDistinct st := by
  cases save with
  | none => intro st hst; exact absurd hst (by simp [save_fd])
  | some stack =>
    have hd := h stack rfl
    obtain ⟨h1, h2, h3⟩ := save_fd_cases env fd s stack
    intro st hst
    cases he : s.fds fd with
    | none =>
      rw [h1 he] at hst
      simp only [Option.some.injEq] at hst
      subst hst
      intro e hmem
      rcases List.mem_cons.mp hmem with rfl | hm
      · intro h0; simp at h0
      · exact hd e hm
    | some e0 =>
      by_cases hbad : s.shellfdmin < 0 ∨ s.openMax ≤ s.shellfdmin ∨
          lowestFree s s.shellfdmin = none
      · obtain ⟨err, hh⟩ := h3 e0 he hbad
        rw [hh] at hst
        simp only [Option.some.injEq] at hst
        subst hst
        exact hd
      · have ha : 0 ≤ s.shellfdmin := by
          by_contra hc; exact hbad (Or.inl (by omega))
        have hb : s.shellfdmin < s.openMax := by
          by_contra hc; exact hbad (Or.inr (Or.inl (by omega)))
        obtain ⟨c, hc⟩ : ∃ c, lowestFree s s.shellfdmin = some c := by
          cases hl : lowestFree s s.shellfdmin with
          | none => exact absurd (Or.inr (Or.inr hl)) hbad
          | some c => exact ⟨c, rfl⟩
        rw [h2 e0 c he ha hb hc] at hst
        simp only [Option.some.injEq] at hst
        subst hst
        intro e hmem
        rcases List.mem_cons.mp hmem with rfl | hm
        · intro _ heq
          have hcn := (lowestFree_some hc).2.2.1
          simp only at heq
          rw [heq, he] at hcn
          exact Option.noConfusion hcn
        · exact hd e hm

theorem copiesDistinct_parse_and_exec_pipe (env : Env) (outputfd : Int) (num : List Char)
    (s : State) (save : Option (List savefd_T)) (h : ∀ st, save = some st → CopiesDistinct st) :
    ∀ st, (parse_and_exec_pipe env outputfd num s save).2.2 = some st → CopiesDistinct st := by
  unfold parse_and_exec_pipe
  simp only []
  split
  · exact h
  · split
    · exact h
    · split
      · exact h
      · exact copiesDistinct_save_fd env _ _ save h

theorem copiesDistinct_open_redirection_fd (env : Env) (r : redir_T) (filename : List Char)
    (s : State) (save : Option (List savefd_T)) (h : ∀ st, save = some st → CopiesDistinct st) :
    ∀ st, (open_redirection_fd env r filename s save).2.2 = some st → CopiesDistinct st := by
  by_cases hp : r.rd_type = redirtype_T.RT_PIPE
  · have hq := copiesDistinct_parse_and_exec_pipe env r.rd_fd filename s save h
    obtain ⟨ty, fd, fname, here, cmd⟩ := r
    simp only at hp
    subst hp
    simp only [open_redirection_fd]
    split <;> exact hq
  · rw [(openedOther_open_redirection_fd env r filename s save hp).1]
    exact h

theorem copiesDistinct_open_redirection (env : Env) (r : redir_T) (s : State)
    (save : Option (List savefd_T)) (h : ∀ st, save = some st → CopiesDistinct st) :
    ∀ st, (open_redirection env r s save).2.2 = some st → CopiesDistinct st := by
  simp only [open_redirection]
  split
  · exact h
  · generalize (if expands_filename r.rd_type = true then
        expand_redir_filename env r.rd_filename s else (some [], s)) = e
    cases e.1 with
    | none => exact h
    | some filename =>
      simp only []
      have h1 := copiesDistinct_save_fd env r.rd_fd e.2 save h
      generalize save_fd env r.rd_fd e.2 save = sv at h1 ⊢
      have h2 := copiesDistinct_open_redirection_fd env r filename sv.1 sv.2 h1
      unfold open_redirection_open
      simp only []
      generalize open_redirection_fd env r filename sv.1 sv.2 = o at h2 ⊢
      cases o.1 with
      | none => exact h2
      | some fk => simp only []; rw [open_redirection_move_save]; exact h2

theorem copiesDistinct_open_redirections_loop (env : Env) : ∀ (rs : List redir_T) (s : State)
    (save : Option (List savefd_T)), (∀ st, save = some st → CopiesDistinct st) →
    ∀ st, (open_redirections_loop env rs s save).2.2 = some st → CopiesDistinct st := by
  intro rs
  induction rs with
  | nil => intro s save h; exact h
  | cons r rest ih =>
    intro s save h
    have h1 := copiesDistinct_open_redirection env r s save h
    simp only [open_redirections_loop]
    split
    · exact ih _ _ h1
    · exact h1

theorem selfCopies_undo_redirection (env : Env) (e : savefd_T) (t : State)
    (h : 0 ≤ e.sf_copyfd → e.sf_copyfd ≠ e.sf_origfd) :
    selfCopies (undo_redirection env e t) = selfCopies t := by
  unfold undo_redirection
  simp only []
  show selfCopies (if e.sf_copyfd ≥ 0 then
      (xclose e.sf_copyfd
        (xdup2 e.sf_copyfd e.sf_origfd (remove_shellfd env e.sf_copyfd t)).2).2
      else (xclose e.sf_origfd t).2) = selfCopies t
  by_cases hc : e.sf_copyfd ≥ 0
  · rw [if_pos hc, selfCopies_xclose, selfCopies_xdup2 _ _ _ (h hc)]
    exact selfCopies_of_diag (remove_shellfd_frame env _ t).2.2.2.1
  · rw [if_neg hc, selfCopies_xclose]

theorem selfCopies_undo_redirections (env : Env) : ∀ (stack : List savefd_T) (t : State),
    CopiesDistinct stack → selfCopies (undo_redirections env stack t) = selfCopies t := by
  intro stack
  induction stack with
  | nil => intro t _; rfl
  | cons e rest ih =>
    intro t h
    simp only [undo_redirections]
    rw [ih _ (fun x hx => h x (List.mem_cons_of_mem _ hx)),
      selfCopies_undo_redirection env e t (h e (List.mem_cons_self _ _))]

/-- What `save_fd` does to a descriptor `n` that is closed, and to the
descriptor it saves: `n` stays closed unless it becomes the saved copy, a
shell FD; below `shellfdmin` it stays closed and is no more a shell FD than
before; the saved descriptor itself is left as it is. -/
theorem save_fd_source (env : Env) (fd : Int) (s : State) (save : Option (List savefd_T))
    (n : Int) (hn : s.fds n = none) :
    ((save_fd env fd s save).1.fds n = none ∨ is_shellfd env n (save_fd env fd s save).1 = true) ∧
    (n < s.shellfdmin → (save_fd env fd s save).1.fds n = none ∧
      is_shellfd env n (save_fd env fd s save).1 = is_shellfd env n s) ∧
    (save_fd env fd s save).1.fds fd = s.fds fd := by
  cases save with
  | none => exact ⟨Or.inl hn, fun _ => ⟨hn, rfl⟩, rfl⟩
  | some stack =>
    obtain ⟨h1, h2, h3⟩ := save_fd_cases env fd s stack
    cases he : s.fds fd with
    | none =>
      rw [h1 he]
      exact ⟨Or.inl hn, fun _ => ⟨hn, rfl⟩, he⟩
    | some e0 =>
      by_cases hbad : s.shellfdmin < 0 ∨ s.openMax ≤ s.shellfdmin ∨
          lowestFree s s.shellfdmin = none
      · obtain ⟨err, hh⟩ := h3 e0 he hbad
        rw [hh]
        exact ⟨Or.inl hn, fun _ => ⟨hn, rfl⟩, he⟩
      · have ha : 0 ≤ s.shellfdmin := by
          by_contra hc; exact hbad (Or.inl (by omega))
        have hb : s.shellfdmin < s.openMax := by
          by_contra hc; exact hbad (Or.inr (Or.inl (by omega)))
        obtain ⟨c, hc⟩ : ∃ c, lowestFree s s.shellfdmin = some c := by
          cases hl : lowestFree s s.shellfdmin with
          | none => exact absurd (Or.inr (Or.inr hl)) hbad
          | some c => exact ⟨c, rfl⟩
        rw [h2 e0 c he ha hb hc]
        obtain ⟨l1, _, l3, _⟩ := lowestFree_some hc
        have hc0 : 0 ≤ c := by omega
        have hcf : c ≠ fd := by
          intro h; rw [h, he] at l3; exact Option.noConfusion l3
        refine ⟨?_, ?_, ?_⟩
        · by_cases hnc : n = c
          · right; rw [hnc]; exact is_shellfd_add_shellfd_self env c _ hc0
          · left; simp [add_shellfd_fds, setFd, upd, hnc, hn]
        · intro hlt
          have hnc : n ≠ c := by omega
          refine ⟨by simp [add_shellfd_fds, setFd, upd, hnc, hn], ?_⟩
          simp only [is_shellfd, FD_ISSET, add_shellfd_shellfds]
          have : ¬ (n = c ∧ c < (env.FD_SETSIZE : Int)) := fun h => hnc h.1
          rw [if_neg this]
          rfl
        · have hfc : fd ≠ c := fun h => hcf h.symm
          simp [add_shellfd_fds, setFd, upd, hfc, he]

theorem not_decimal_minus {num : List Char} (h : isDecimal num = true) : num ≠ "-".toList := by
  intro hc
  rw [hc] at h
  exact absurd h (by decide)

/-- Outside strict mode, a duplication from a descriptor that is closed, is
below `shellfdmin` and is not the target fails in `xdup2`, after the target
was closed. -/
theorem open_redirection_dup_closed_source (env : Env) (r : redir_T) (s : State)
    (save : Option (List savefd_T)) (num : List Char)
    (hposix : env.posixly_correct = false)
    (htype : r.rd_type = redirtype_T.RT_DUPIN ∨ r.rd_type = redirtype_T.RT_DUPOUT)
    (hfd : ¬ (r.rd_fd < 0 ∨ is_shellfd env r.rd_fd s = true))
    (hexp : (expand_redir_filename env r.rd_filename s).1 = some num)
    (hdec : isDecimal num = true) (hmax : (digitsVal num : Int) ≤ INT_MAX)
    (hclosed : s.fds (digitsVal num) = none) (hne : (digitsVal num : Int) ≠ r.rd_fd)
    (hlow : (digitsVal num : Int) < s.shellfdmin)
    (hreg : is_shellfd env (digitsVal num) s = false) :
    (open_redirection env r s save).1 = false ∧
    (open_redirection env r s save).2.1.fds r.rd_fd = none := by
  rw [open_redirection_dup env r s save num htype hfd hexp]
  have hse := expand_redir_filename_sameFds env r.rd_filename s
  generalize (expand_redir_filename env r.rd_filename s).2 = e2 at hse ⊢
  have hsrc := (save_fd_source env r.rd_fd e2 save (digitsVal num)
    (by rw [hse.1]; exact hclosed)).2.1 (by rw [hse.2.shellfdmin]; exact hlow)
  have hreg2 : is_shellfd env (digitsVal num) e2 = false := by
    have : is_shellfd env (digitsVal num) e2 = is_shellfd env (digitsVal num) s := by
      simp only [is_shellfd, FD_ISSET, hse.2.shellfds]
    rw [this]; exact hreg
  generalize (save_fd env r.rd_fd e2 save).1 = s1 at hsrc ⊢
  generalize (save_fd env r.rd_fd e2 save).2 = sv2
  have hval := parse_and_check_dup_number env r.rd_type s1 (not_decimal_minus hdec) hdec hmax
  rw [hsrc.2, hreg2] at hval
  simp only [Bool.false_eq_true, if_false, hposix] at hval
  have hfds := (parse_and_check_dup_fds env num r.rd_type s1).1
  generalize parse_and_check_dup env num r.rd_type s1 = d at hval hfds ⊢
  have h0 : (0 : Int) ≤ (digitsVal num : Int) := Int.ofNat_nonneg _
  have hn1 : ¬ d.1 < -1 := by rw [hval]; omega
  rw [if_neg hn1]
  simp only [open_redirection_move]
  have hne2 : d.1 ≠ r.rd_fd := by rw [hval]; exact hne
  have hge : d.1 ≥ 0 := by rw [hval]; exact h0
  rw [if_pos hne2, if_pos hge]
  obtain ⟨x1, x2⟩ := xdup2_fail (s := d.2) (o := d.1) (n := r.rd_fd)
    (Or.inl (by rw [hfds, hval]; exact hsrc.1))
  have hx : (xdup2 d.1 r.rd_fd d.2).1 < 0 := by rw [x1]; decide
  rw [if_pos hx]
  exact ⟨rfl, by rw [x2]; simp [upd]⟩

/-- In strict mode, a duplication from a descriptor that is closed is
rejected before the target is touched. -/
theorem open_redirection_dup_closed_source_strict (env : Env) (r : redir_T) (s : State)
    (save : Option (List savefd_T)) (num : List Char)
    (hposix : env.posixly_correct = true)
    (htype : r.rd_type = redirtype_T.RT_DUPIN ∨ r.rd_type = redirtype_T.RT_DUPOUT)
    (hfd : ¬ (r.rd_fd < 0 ∨ is_shellfd env r.rd_fd s = true))
    (hexp : (expand_redir_filename env r.rd_filename s).1 = some num)
    (hdec : isDecimal num = true) (hmax : (digitsVal num : Int) ≤ INT_MAX)
    (hclosed : s.fds (digitsVal num) = none) :
    (open_redirection env r s save).1 = false ∧
    (open_redirection env r s save).2.1.fds r.rd_fd = s.fds r.rd_fd := by
  rw [open_redirection_dup env r s save num htype hfd hexp]
  have hse := expand_redir_filename_sameFds env r.rd_filename s
  generalize (expand_redir_filename env r.rd_filename s).2 = e2 at hse ⊢
  obtain ⟨hsrc, _, htgt⟩ := save_fd_source env r.rd_fd e2 save (digitsVal num)
    (by rw [hse.1]; exact hclosed)
  rw [hse.1] at htgt
  generalize (save_fd env r.rd_fd e2 save).1 = s1 at hsrc htgt ⊢
  generalize (save_fd env r.rd_fd e2 save).2 = sv2
  have hval := parse_and_check_dup_number env r.rd_type s1 (not_decimal_minus hdec) hdec hmax
  have hv2 : (parse_and_check_dup env num r.rd_type s1).1 = -2 := by
    rw [hval]
    rcases hsrc with h | h
    · rw [h]
      simp only [hposix, if_true]
      have : accessOk r.rd_type none = false := rfl
      rw [this]
      split <;> rfl
    · rw [if_pos h]
  have hfds := (parse_and_check_dup_fds env num r.rd_type s1).1
  generalize parse_and_check_dup env num r.rd_type s1 = d at hv2 hfds ⊢
  have hn1 : d.1 < -1 := by rw [hv2]; decide
  rw [if_pos hn1]
  exact ⟨rfl, by rw [hfds]; exact htgt⟩

/-- After `xdup2`, `newfd` is closed or a duplicate of `oldfd`; it is closed
whenever `xdup2` returns -1. -/
theorem xdup2_target (o n : Int) (s : State) :
    ((xdup2 o n s).1 = -1 → (xdup2 o n s).2.fds n = none) ∧
    ((xdup2 o n s).2.fds n = none ∨
      ((xdup2 o n s).1 = n ∧ o ≠ n ∧ ∃ e, s.fds o = some e ∧
        (xdup2 o n s).2.fds n = some { ofd := e.ofd, cloexec := false })) := by
  by_cases h : (∃ e, s.fds o = some e) ∧ o ≠ n ∧ 0 ≤ n ∧ n < s.openMax
  · obtain ⟨⟨e, he⟩, h1, h2, h3⟩ := h
    obtain ⟨x1, x2⟩ := xdup2_ok he h1 h2 h3
    refine ⟨fun hc => ?_, Or.inr ⟨x1, h1, e, he, by rw [x2]; simp [upd]⟩⟩
    rw [x1] at hc; omega
  · have : s.fds o = none ∨ o = n ∨ n < 0 ∨ s.openMax ≤ n := by
      by_contra hc
      push_neg at hc
      apply h
      refine ⟨?_, hc.2.1, by omega, by omega⟩
      cases hs : s.fds o with
      | none => exact absurd hs hc.1
      | some e => exact ⟨e, rfl⟩
    have hf : (xdup2 o n s).2.fds n = none := by
      rw [(xdup2_fail this).2]; simp [upd]
    exact ⟨fun _ => hf, Or.inl hf⟩

theorem xdup2_self (fd : Int) (s : State) :
    (xdup2 fd fd s).1 = -1 ∧ (xdup2 fd fd s).2.fds fd = none ∧
    (xdup2 fd fd s).2.diag = s.diag ++ [Diag.cannot_copy fd fd] := by
  obtain ⟨x1, x2⟩ := xdup2_fail (s := s) (o := fd) (n := fd) (Or.inr (Or.inl rfl))
  refine ⟨x1, by rw [x2]; simp [upd], ?_⟩
  have hc : (xclose fd s).2.fds fd = none := by rw [xclose_fds]; simp [upd]
  have hr : (sys_dup2 fd fd (xclose fd s).2).1 < 0 := by
    rw [sys_dup2_fail (Or.inl hc)]; exact neg_one_lt
  simp only [xdup2]
  rw [if_pos hr]
  show (sys_dup2 fd fd (xclose fd s).2).2.diag ++ [Diag.cannot_copy fd fd] = _
  rw [sys_dup2_diag, xclose_diag]

theorem open_redirections_single (env : Env) (r : redir_T) (s : State)
    (save : Option (List savefd_T)) (h : (open_redirection env r s (save.map (fun _ => []))).1
      = false) :
    open_redirections env [r] s save = open_redirection env r s (save.map (fun _ => [])) := by
  simp only [open_redirections, open_redirections_loop, h]
  simp

/-- C15 (amended): `xdup2 (oldfd, newfd)` closes `newfd` before it
duplicates: afterwards `newfd` is closed or a duplicate of `oldfd`, and it is
closed whenever `xdup2` returns -1; `xdup2 (fd, fd)` always fails, leaves
`fd` closed and reports it. `open_redirections`, `parse_and_exec_pipe` and
`undo_redirections` (on a stack built by `open_redirections`, whose saved
copies differ from the originals) never call it with `oldfd` equal to
`newfd`: they add no report of a copy of a descriptor to itself. Outside
strict mode, a duplication redirection whose source is a closed descriptor
below `shellfdmin` other than the target makes `open_redirections` return
false with the target closed. In strict mode a duplication whose source is
closed makes `open_redirections` return false with the target as it was. -/
theorem xdup2_closes_target_first :
    (∀ (o n : Int) (s : State),
      ((xdup2 o n s).1 = -1 → (xdup2 o n s).2.fds n = none) ∧
      ((xdup2 o n s).2.fds n = none ∨
        ((xdup2 o n s).1 = n ∧ o ≠ n ∧ ∃ e, s.fds o = some e ∧
          (xdup2 o n s).2.fds n = some { ofd := e.ofd, cloexec := false }))) ∧
    (∀ (fd : Int) (s : State),
      (xdup2 fd fd s).1 = -1 ∧ (xdup2 fd fd s).2.fds fd = none ∧
      (xdup2 fd fd s).2.diag = s.diag ++ [Diag.cannot_copy fd fd]) ∧
    (∀ (env : Env) (rs : List redir_T) (s : State) (save : Option (List savefd_T)),
      selfCopies (open_redirections env rs s save).2.1 = selfCopies s) ∧
    (∀ (env : Env) (outputfd : Int) (num : List Char) (s : State)
        (save : Option (List savefd_T)),
      selfCopies (parse_and_exec_pipe env outputfd num s save).2.1 = selfCopies s) ∧
    (∀ (env : Env) (rs : List redir_T) (s : State) (save : Option (List savefd_T))
        (stack : List savefd_T) (t : State),
      (open_redirections env rs s save).2.2 = some stack →
        CopiesDistinct stack ∧ selfCopies (undo_redirections env stack t) = selfCopies t) ∧
    (∀ (env : Env) (r : redir_T) (s : State) (save : Option (List savefd_T)) (num : List Char),
      env.posixly_correct = false →
      (r.rd_type = redirtype_T.RT_DUPIN ∨ r.rd_type = redirtype_T.RT_DUPOUT) →
      ¬ (r.rd_fd < 0 ∨ is_shellfd env r.rd_fd s = true) →
      (expand_redir_filename env r.rd_filename s).1 = some num →
      isDecimal num = true → (digitsVal num : Int) ≤ INT_MAX →
      s.fds (digitsVal num) = none → (digitsVal num : Int) ≠ r.rd_fd →
      (digitsVal num : Int) < s.shellfdmin → is_shellfd env (digitsVal num) s = false →
      (open_redirections env [r] s save).1 = false ∧
      (open_redirections env [r] s save).2.1.fds r.rd_fd = none) ∧
    (∀ (env : Env) (r : redir_T) (s : State) (save : Option (List savefd_T)) (num : List Char),
      env.posixly_correct = true →
      (r.rd_type = redirtype_T.RT_DUPIN ∨ r.rd_type = redirtype_T.RT_DUPOUT) →
      ¬ (r.rd_fd < 0 ∨ is_shellfd env r.rd_fd s = true) →
      (expand_redir_filename env r.rd_filename s).1 = some num →
      isDecimal num = true → (digitsVal num : Int) ≤ INT_MAX →
      s.fds (digitsVal num) = none →
      (open_redirections env [r] s save).1 = false ∧
      (open_redirections env [r] s save).2.1.fds r.rd_fd = s.fds r.rd_fd) := by
  refine ⟨xdup2_target, xdup2_self, ?_, selfCopies_parse_and_exec_pipe, ?_, ?_, ?_⟩
  · intro env rs s save
    exact selfCopies_open_redirections_loop env rs s _
  · intro env rs s save stack t hst
    have hd : CopiesDistinct stack := by
      refine copiesDistinct_open_redirections_loop env rs s (save.map (fun _ => [])) ?_ stack hst
      intro st h
      cases save with
      | none => simp at h
      | some sv =>
        simp only [Option.map_some', Option.some.injEq] at h
        subst h
        intro e he
        simp at he
    exact ⟨hd, selfCopies_undo_redirections env stack t hd⟩
  · intro env r s save num a b c d e f g h i j
    obtain ⟨h1, h2⟩ := open_redirection_dup_closed_source env r s (save.map (fun _ => [])) num
      a b c d e f g h i j
    rw [open_redirections_single env r s save h1]
    exact ⟨h1, h2⟩
  · intro env r s save num a b c d e f g
    obtain ⟨h1, h2⟩ := open_redirection_dup_closed_source_strict env r s
      (save.map (fun _ => [])) num a b c d e f g
    rw [open_redirections_single env r s save h1]
    exact ⟨h1, h2⟩

theorem xdup2_closes_target_first_witness :
    (envLinux.posixly_correct = false ∧
      (stateStart 1024).fds (digitsVal "7".toList) = none ∧
      (digitsVal "7".toList : Int) < (stateStart 1024).shellfdmin ∧
      (stateStart 1024).fds 1 ≠ none) ∧
    ((open_redirections envLinux [mkRedir redirtype_T.RT_DUPOUT 1 "7"] (stateStart 1024)
        (some [])).1 = false ∧
     (open_redirections envLinux [mkRedir redirtype_T.RT_DUPOUT 1 "7"] (stateStart 1024)
        (some [])).2.1.fds (mkRedir redirtype_T.RT_DUPOUT 1 "7").rd_fd = none) :=
  ⟨⟨rfl, by decide, by decide, by decide⟩,
   xdup2_closes_target_first.2.2.2.2.2.1 envLinux (mkRedir redirtype_T.RT_DUPOUT 1 "7")
     (stateStart 1024) (some []) "7".toList rfl (Or.inr rfl) (by decide) (by decide)
     (by decide) (by decide) (by decide) (by decide) (by decide) (by decide)⟩

/-- C15 as stated fails: a duplication whose source is not open can make
`open_redirections` return false with the target still open. In strict mode
`1>&7` with descriptor 7 closed is rejected by the `F_GETFL` check of
`parse_and_check_dup`, before the target is touched. Outside strict mode
`1>&10` with descriptor 10 closed is rejected because saving descriptor 1
made descriptor 10 the saved copy, a shell FD. -/
theorem dup_of_closed_source_leaves_target_open :
    ((stateStart 1024).fds 7 = none ∧
      (open_redirections envPosix [mkRedir redirtype_T.RT_DUPOUT 1 "7"] (stateStart 1024)
        (some [])).1 = false ∧
      (open_redirections envPosix [mkRedir redirtype_T.RT_DUPOUT 1 "7"] (stateStart 1024)
        (some [])).2.1.fds 1 ≠ none) ∧
    ((stateStart 1024).fds 10 = none ∧
      (open_redirections envLinux [mkRedir redirtype_T.RT_DUPOUT 1 "10"] (stateStart 1024)
        (some [])).1 = false ∧
      (open_redirections envLinux [mkRedir redirtype_T.RT_DUPOUT 1 "10"] (stateStart 1024)
        (some [])).2.1.fds 1 ≠ none) := by
  refine ⟨⟨by decide, by decide, by decide⟩, ⟨by decide, by decide, by decide⟩⟩

end Yash
